import Mathlib

/-!
# PFClusterCalib: slicing and robust-fitting engine

Shallow embedding of `MeanSigma` and `fit_slices_real` from
`draw_results_helper.cc` (the strict variant) and `draw_mva_pars.cc` (the
lenient variant).

Conventions of the embedding:

* A finite `float` or `double` value is an element of a linearly ordered
  field `α`; theorems that need the square root, the exponential or the power
  function are stated over `ℝ`. The samples are `float` values.
* The two places where the code computes in 32-bit `float` are rounded as
  IEEE 754 binary32 does (`fl32`, round to nearest, ties to even): the
  product `numbers[i] * numbers[i]` in `MeanSigma` and the quotient
  `((float)siz)/blockSize` in `fit_slices_real`. Operations on `double`
  values are taken without rounding error.
* A `double` that is not finite (NaN, `+∞`, `-∞`) is tracked where the code
  can produce one from finite input: in `MeanSigma` (a zero count, the square
  root of a negative number, an overflowed `float` product) as the value
  `none`, and in the test on the relative errors of the fit (a division by
  zero). A comparison with NaN is false.
* The C math library functions `sqrt`, `exp`, `pow` are passed as parameters
  of the embedded functions, so the definitions stay executable (over `ℚ`
  with any stand-in) and are instantiated with `Real.sqrt`, `Real.exp`,
  `Real.rpow` in the theorems.
* `FATAL(msg)` terminates the process; it is embedded as `Except.error`.
* `int` and `size_t` values are integers and natural numbers without
  overflow; `blockSize = 0` (a division by zero in the block count) is not
  covered.
* ROOT library calls (`TMath::Sort`, `TMath::Nint`, `TGraphErrors::SetPoint`,
  `TH1::Fit`) are not part of the repository. `TMath::Sort` is represented by
  its output index array, the fit by a function returning the fitted
  parameters, their errors and the fit status.
* The staged fit of one block is embedded separately (`fitBlock`): the state
  of the `TF1` object with its limits, following ROOT's conventions for
  `SetParLimits`, `FixParameter` and `ReleaseParameter`, the minimizer as a
  parameter, and a record of the `Fit` calls kept by `Fit` itself.
* The choice of the training for an event in `eval.cc` (`eval_iS`,
  `loadedTraining`) and the calls and cuts of `train.cc` (`trainCalls`,
  `trainCuts`) are embedded with `pfSize5x5_ZS` as an integer and `pfPt` as an
  element of `α`.
-/

namespace PFClusterCalib

/-! ## Definitions -/

section Defs

variable {α : Type} [LinearOrderedField α] [FloorRing α]

/-- Fatal errors raised through the `FATAL` macro. -/
inductive Fatal where
  /-- `FATAL("x.size() < 1")` in `fit_slices_real`. -/
  | emptyInput
  /-- `FATAL("mean and/or sigma did not converged")` in `MeanSigma`. -/
  | didNotConverge
  deriving DecidableEq, Repr

/-! ### The `float` type

The samples are `float` values and the code rounds to `float` in two places:
the product `numbers[i] * numbers[i]` in `MeanSigma` and the quotient
`((float)siz)/blockSize` in `fit_slices_real`. Sums, quotients and products
of `double` values are taken as exact. -/

/-- Rounding to the nearest integer, halfway cases to the even one. -/
def roundEven (v : α) : ℤ :=
  if v - (⌊v⌋ : α) < 1 / 2 then ⌊v⌋
  else if 1 / 2 < v - (⌊v⌋ : α) then ⌊v⌋ + 1
  else if ⌊v⌋ % 2 = 0 then ⌊v⌋ else ⌊v⌋ + 1

/-- The 32-bit `float` nearest to `v` (IEEE 754 binary32, round to nearest,
ties to even), for `v` below the overflow threshold: in the binade
`2^e ≤ |v| < 2^(e+1)` the floats are the multiples of `2^(e-23)`, below
`2^-126` they are the multiples of `2^-149`. -/
def fl32 (v : α) : α :=
  if v = 0 then 0
  else (roundEven (v / 2 ^ (max (Int.log 2 |v|) (-126) - 23)) : α) *
    2 ^ (max (Int.log 2 |v|) (-126) - 23)

/-- The product of two `float` values as the code computes it: the exact
product rounded to `float`, `none` when the rounded product is not finite
(overflow to infinity). -/
def fmul32 (a b : α) : Option α :=
  if (2 : α) ^ (128 : ℕ) ≤ |fl32 (a * b)| then none else some (fl32 (a * b))

/-! ### MeanSigma -/

/-- The statement `sigma += p` for a product `p = numbers[i] * numbers[i]`;
`none` stands for `+∞`, which stays once a product has overflowed. -/
def addProduct (sigma p : Option α) : Option α :=
  match sigma, p with
  | some s, some q => some (s + q)
  | _, _ => none

/-- Accumulation loop of the zero-order iteration of `MeanSigma`:
`mean += numbers[i]; sigma += numbers[i] * numbers[i];`, the product being
the `float` product of two `float` values. -/
def sumLoop : List α → α × Option α → α × Option α
  | [], acc => acc
  | v :: rest, (mean, sigma) => sumLoop rest (mean + v, addProduct sigma (fmul32 v v))

/-- The two statements after an accumulation loop,
`mean /= n; sigma = sqrt(sigma/n - mean*mean);`, for the sums `mean`, `sigma`
and the count `n`. A `double` that is not finite is `none`: with `n = 0` both
quotients are `0.0/0 = NaN`; with `sigma = +∞` the result is `+∞`; the square
root of a negative number is NaN. -/
def finish (sqrt : α → α) (mean : α) (sigma : Option α) (n : Nat) : Option α × Option α :=
  if n = 0 then (none, none)
  else
    match sigma with
    | none => (some (mean / (n : α)), none)
    | some s =>
      if s / (n : α) - mean / (n : α) * (mean / (n : α)) < 0 then (some (mean / (n : α)), none)
      else (some (mean / (n : α)), some (sqrt (s / (n : α) - mean / (n : α) * (mean / (n : α)))))

/-- The zero-order iteration of `MeanSigma` (lines 158-166). -/
def zeroOrder (sqrt : α → α) (numbers : List α) : Option α × Option α :=
  let acc := sumLoop numbers (0, some 0)
  finish sqrt acc.1 acc.2 numbers.length

/-- The pair `(xmin, xmax) = (mean - 3*sigma, mean + 3*sigma)` when both are
finite, `none` otherwise. -/
def windowBounds (prev : Option α × Option α) : Option (α × α) :=
  match prev with
  | (some m, some s) => some (m - 3 * s, m + 3 * s)
  | _ => none

/-- The test `numbers[i] < xmin || numbers[i] > xmax`. With `xmin`, `xmax`
not finite (NaN, or `-∞` and `+∞`) both comparisons are false. -/
def outside (b : Option (α × α)) (v : α) : Bool :=
  match b with
  | some (xmin, xmax) => decide (v < xmin ∨ v > xmax)
  | none => false

/-- Inner loop of one trimmed iteration: samples failing the test are skipped
(`continue`), the others are accumulated and counted in `nent`. -/
def windowLoop (b : Option (α × α)) : List α → α × Option α × Nat → α × Option α × Nat
  | [], acc => acc
  | v :: rest, (mean, sigma, nent) =>
    if outside b v then windowLoop b rest (mean, sigma, nent)
    else windowLoop b rest (mean + v, addProduct sigma (fmul32 v v), nent + 1)

/-- Body of the iteration loop of `MeanSigma` up to the convergence test
(lines 170-188): the new `(mean, sigma)` from the previous one. -/
def trimStep (sqrt : α → α) (numbers : List α) (prev : Option α × Option α) :
    Option α × Option α :=
  let acc := windowLoop (windowBounds prev) numbers (0, some 0, 0)
  finish sqrt acc.1 acc.2.1 acc.2.2

/-- The convergence test of `MeanSigma` (lines 191-192); a comparison with a
NaN operand is false, and so is `fabs(∞ - ∞) <= ...`. -/
def converged (cur prev : Option α × Option α) : Bool :=
  match cur, prev with
  | (some m, some s), (some mp, some sp) =>
    decide (|m - mp| ≤ 1e-6 * |m| ∧ |s - sp| ≤ 1e-6 * |s|)
  | _, _ => false

/-- The values left in `mean` and `sigma` when `MeanSigma` returns. -/
def result (cur : Option α × Option α) : α × α := (cur.1.getD 0, cur.2.getD 0)

/-- The loop `for (int c = 0; c < 1000; c++)` of `MeanSigma`. -/
def iterLoop (sqrt : α → α) (numbers : List α) :
    Nat → Option α × Option α → Except Fatal (α × α)
  | 0, _ => .error Fatal.didNotConverge
  | n + 1, prev =>
    let cur := trimStep sqrt numbers prev
    if converged cur prev then .ok (result cur) else iterLoop sqrt numbers n cur

/-- The function `MeanSigma`: the returned pair is `(mean, sigma)`. -/
def MeanSigma (sqrt : α → α) (numbers : List α) : Except Fatal (α × α) :=
  iterLoop sqrt numbers 1000 (zeroOrder sqrt numbers)

/-- The samples a trimmed iteration accumulates. -/
def codeWindow (numbers : List α) (prev : Option α × Option α) : List α :=
  numbers.filter fun v => !outside (windowBounds prev) v

/-- The sum of the `float` squares of a list, as accumulated in `sigma`. -/
def sumProducts (w : List α) (acc : Option α) : Option α :=
  w.foldl (fun s v => addProduct s (fmul32 v v)) acc

/-- The pair `(mean, sigma)` one accumulation over the samples `w` gives. -/
def stats (sqrt : α → α) (w : List α) : Option α × Option α :=
  finish sqrt w.sum (sumProducts w (some 0)) w.length

/-- The pair `(mean, sigma)` held after `k` passes of the loop of `MeanSigma`;
for `k = 0` the pair of the zero-order iteration. -/
def codeIterate (sqrt : α → α) (numbers : List α) (k : Nat) : Option α × Option α :=
  (trimStep sqrt numbers)^[k] (zeroOrder sqrt numbers)

/-- The convergence test as evaluated at the end of pass `k` of the loop
(`k ≥ 1`), between the pair after `k` passes and the pair after `k - 1`
passes. -/
def codeTol (sqrt : α → α) (numbers : List α) (k : Nat) : Prop :=
  converged (codeIterate sqrt numbers k) (codeIterate sqrt numbers (k - 1)) = true

/-! ### The estimator as the specification words it -/

/-- Unweighted mean of a sample. -/
def specMean (s : List α) : α := s.sum / (s.length : α)

/-- Population standard deviation `sqrt(sum(x^2)/N - mean^2)` of a sample. -/
def specSigma (sqrt : α → α) (s : List α) : α :=
  sqrt ((s.map fun v => v ^ 2).sum / (s.length : α) - specMean s ^ 2)

/-- The samples of the full sample inside the closed window
`[mean - 3 sigma, mean + 3 sigma]` of an estimate. -/
def specWindow (numbers : List α) (est : α × α) : List α :=
  numbers.filter fun v => decide (est.1 - 3 * est.2 ≤ v ∧ v ≤ est.1 + 3 * est.2)

/-- Iterate `k` of the specification: iterate 0 is the mean and standard
deviation of the whole sample, iterate `k + 1` those of the samples inside
the window of iterate `k`. -/
def specIterate (sqrt : α → α) (numbers : List α) : Nat → α × α
  | 0 => (specMean numbers, specSigma sqrt numbers)
  | k + 1 =>
    let w := specWindow numbers (specIterate sqrt numbers k)
    (specMean w, specSigma sqrt w)

/-- Smallest value of a sample (`0` for the empty sample). -/
def sampleMin (s : List α) : α := s.foldl min (s.headD 0)

/-- Largest value of a sample (`0` for the empty sample). -/
def sampleMax (s : List α) : α := s.foldl max (s.headD 0)

/-- The C library function `round`: the nearest integral value, halfway cases
away from zero. -/
def cround (v : ℚ) : ℚ :=
  if 0 ≤ v then (⌊v + 1 / 2⌋ : ℚ) else -(⌊-v + 1 / 2⌋ : ℚ)

/-- The conversion `int(v)` of a floating value: truncation toward zero. -/
def truncToInt (v : ℚ) : ℤ :=
  if 0 ≤ v then ⌊v⌋ else ⌈v⌉

/-- ROOT's `TMath::Nint`: round to the nearest integer, half integers to the
nearest even integer (`i & 1` tests whether `i` is odd). -/
def Nint (v : ℚ) : ℤ :=
  if v ≥ 0 then
    let i := truncToInt (v + 0.5)
    if i % 2 = 1 ∧ v + 0.5 = (i : ℚ) then i - 1 else i
  else
    let i := truncToInt (v - 0.5)
    if i % 2 = 1 ∧ v - 0.5 = (i : ℚ) then i + 1 else i

/-- The block count of `fit_slices_real`:
`int nblocks = TMath::Nint(round(((float)siz)/blockSize));`. The conversion
`(float)siz`, the conversion of `blockSize` to `float` for the division and
the quotient of the two `float` values are each rounded to `float`; `round`
and `TMath::Nint` then work on that `float` without further rounding. -/
def nblocks (siz : Nat) (blockSize : ℤ) : ℤ :=
  Nint (cround (fl32 (fl32 (siz : ℚ) / fl32 (blockSize : ℚ))))

/-! ### Blocks of sorted data -/

/-- The loop `for (i = b * blockSize; i < (b + 1) * blockSize; i++)` filling
`bx` and `by`; the first argument counts the positions left before the upper
bound, `i >= siz` breaks out of the loop. `ind` is the index array written by
`TMath::Sort`. -/
def fillBlock (x y : List α) (ind : List Nat) (siz : Nat) :
    Nat → Nat → List α × List α → List α × List α
  | 0, _, acc => acc
  | n + 1, i, (bx, by_) =>
    if i ≥ siz then (bx, by_)
    else fillBlock x y ind siz n (i + 1)
      (bx ++ [x.getD (ind.getD i 0) 0], by_ ++ [y.getD (ind.getD i 0) 0])

/-- The vectors `(bx, by)` of block `b`. Inside the block loop `blockSize` is
positive, since `nblocks` is positive only then. -/
def blockData (x y : List α) (ind : List Nat) (blockSize : ℤ) (b : Nat) : List α × List α :=
  fillBlock x y ind x.length ((b + 1) * blockSize.toNat - b * blockSize.toNat)
    (b * blockSize.toNat) ([], [])

/-- The input indices `ind[i]` read by the loop filling a block (the loop of
`fillBlock`, recording the index instead of the values). -/
def fillIndices (ind : List Nat) (siz : Nat) : Nat → Nat → List Nat → List Nat
  | 0, _, acc => acc
  | n + 1, i, acc =>
    if i ≥ siz then acc else fillIndices ind siz n (i + 1) (acc ++ [ind.getD i 0])

/-- The input indices that belong to block `b`. -/
def blockIndices (ind : List Nat) (siz : Nat) (blockSize : ℤ) (b : Nat) : List Nat :=
  fillIndices ind siz ((b + 1) * blockSize.toNat - b * blockSize.toNat)
    (b * blockSize.toNat) []

/-- The postcondition of `TMath::Sort(siz, &x.front(), ind, false)`: `ind`
lists every index below `siz` once, in an order of ascending `x`. -/
def IsSortIndex (x : List α) (ind : List Nat) : Prop :=
  ind.Perm (List.range x.length) ∧ (ind.map fun j => x.getD j 0).Pairwise (· ≤ ·)

/-- The sorted positions of block `b` as the specification words them:
`[b * blockSize, (b + 1) * blockSize)` clipped to the length `siz`. -/
def specPositions (siz blockSize b : Nat) : List Nat :=
  List.range' (b * blockSize) (min ((b + 1) * blockSize) siz - b * blockSize)

/-! ### Graphs and fit results -/

/-- One point of a `TGraphErrors`: the entries of `fX`, `fY`, `fEX`, `fEY`. -/
structure GraphPoint (α : Type) where
  /-- Entry of `fX`. -/
  fX : α
  /-- Entry of `fY`. -/
  fY : α
  /-- Entry of `fEX`. -/
  fEX : α
  /-- Entry of `fEY`. -/
  fEY : α

/-- The point ROOT creates when a graph is extended: all entries zero. -/
def zeroPoint : GraphPoint α := ⟨0, 0, 0, 0⟩

/-- ROOT's `TGraphErrors::SetPoint(i, x, y)`: the graph is extended with zero
points up to index `i` if needed, then `fX[i]` and `fY[i]` are set. -/
def SetPoint (g : List (GraphPoint α)) (i : Nat) (x y : α) : List (GraphPoint α) :=
  let g1 := g ++ List.replicate (i + 1 - g.length) zeroPoint
  g1.set i { g1.getD i zeroPoint with fX := x, fY := y }

/-- ROOT's `TGraphErrors::SetPointError(i, ex, ey)`: the graph is extended
with zero points up to index `i` if needed, then `fEX[i]` and `fEY[i]` are
set. -/
def SetPointError (g : List (GraphPoint α)) (i : Nat) (ex ey : α) : List (GraphPoint α) :=
  let g1 := g ++ List.replicate (i + 1 - g.length) zeroPoint
  g1.set i { g1.getD i zeroPoint with fEX := ex, fEY := ey }

/-- What the code can read after the `h->Fit(fit, ...)` calls of one block:
`fit->GetParameter(i)`, `fit->GetParError(i)` and the status returned by the
last `Fit` call (which the code discards). -/
structure FitOutcome (α : Type) where
  /-- Value of `fit->GetParameter(i)`. -/
  par : Nat → α
  /-- Value of `fit->GetParError(i)`. -/
  parError : Nat → α
  /-- Status of the fit reported by the library. -/
  status : ℤ

/-- The histogram filling and the staged fits of one block (lines 253-327 of
`draw_results_helper.cc`, 205-265 of `draw_mva_pars.cc`) as a function of the
block's `by` vector and of `meanY`, `sigmaY`. -/
abbrev Fitter (α : Type) := List α → α → α → FitOutcome α

/-! ### The fit of one block

`TF1`, `TH1::Fit` and the minimizer belong to ROOT. The state of the fit
function is embedded as far as the code touches it (parameter values, their
errors and limits), with ROOT's conventions: `SetParLimits` stores the pair of
limits, `FixParameter(i, v)` sets the value and the limits `(v, v)` (`(1, 1)`
for `v = 0`), `ReleaseParameter(i)` sets the limits `(0, 0)`, and a fit treats
a parameter as fixed when `min * max != 0 && min >= max`, as limited to
`[min, max]` when `min < max`, and as free otherwise. -/

/-- State of the `TF1` object `fit`. -/
structure TF1 (α : Type) where
  /-- Parameter values, `GetParameter(i)`. -/
  par : Nat → α
  /-- Parameter errors, `GetParError(i)`. -/
  parError : Nat → α
  /-- Lower limits. -/
  parMin : Nat → α
  /-- Upper limits. -/
  parMax : Nat → α

/-- A function fresh from `new TF1("fit", expr, lo, hi)`: parameters zero,
no limits. -/
def newTF1 : TF1 α := ⟨fun _ => 0, fun _ => 0, fun _ => 0, fun _ => 0⟩

/-- ROOT's `TF1::SetParameter(i, v)`. -/
def SetParameter (f : TF1 α) (i : Nat) (v : α) : TF1 α :=
  { f with par := Function.update f.par i v }

/-- ROOT's `TF1::SetParameters(p0, ..., p5)`. -/
def SetParameters (f : TF1 α) (p0 p1 p2 p3 p4 p5 : α) : TF1 α :=
  SetParameter (SetParameter (SetParameter (SetParameter (SetParameter
    (SetParameter f 0 p0) 1 p1) 2 p2) 3 p3) 4 p4) 5 p5

/-- ROOT's `TF1::SetParLimits(i, parmin, parmax)`. -/
def SetParLimits (f : TF1 α) (i : Nat) (parmin parmax : α) : TF1 α :=
  { f with parMin := Function.update f.parMin i parmin
           parMax := Function.update f.parMax i parmax }

/-- ROOT's `TF1::FixParameter(i, value)`. -/
def FixParameter (f : TF1 α) (i : Nat) (value : α) : TF1 α :=
  if value ≠ 0 then SetParLimits (SetParameter f i value) i value value
  else SetParLimits (SetParameter f i value) i 1 1

/-- ROOT's `TF1::ReleaseParameter(i)`. -/
def ReleaseParameter (f : TF1 α) (i : Nat) : TF1 α :=
  SetParLimits f i 0 0

/-- How a fit treats a parameter. -/
inductive ParStatus (α : Type) where
  /-- The parameter keeps its value. -/
  | fixed
  /-- The parameter varies inside `[lo, hi]`. -/
  | limited (lo hi : α)
  /-- The parameter varies without limits. -/
  | free

/-- The treatment of parameter `i` in a fit of `f`, as ROOT derives it from
the limits stored in the function. -/
def parStatus (f : TF1 α) (i : Nat) : ParStatus α :=
  if f.parMin i * f.parMax i ≠ 0 ∧ f.parMin i ≥ f.parMax i then ParStatus.fixed
  else if f.parMin i < f.parMax i then ParStatus.limited (f.parMin i) (f.parMax i)
  else ParStatus.free

/-- What a minimization returns: the parameter values, their errors and the
status. -/
structure MinResult (α : Type) where
  /-- Fitted parameter values. -/
  par : Nat → α
  /-- Errors of the fitted parameters. -/
  parError : Nat → α
  /-- Status reported by the minimizer. -/
  status : ℤ

/-- The minimization behind `h->Fit(fit, option, "same", lo, hi)`, as a
function of the option string, the state of `fit` and the values filled into
the histogram `h`. -/
abbrev Minimizer (α : Type) := String → TF1 α → List α → MinResult α

/-- The `TF1` object `fit` together with what the `h->Fit` calls made so far
have left: the status returned by the last call and a record of the calls, in
order (the option string and the state of `fit` at the call). -/
structure FitRun (α : Type) where
  /-- State of the `TF1` object. -/
  fit : TF1 α
  /-- Status returned by the last `Fit` call (`0` before the first call). -/
  status : ℤ
  /-- The `Fit` calls made so far, in order. -/
  calls : List (String × TF1 α)

/-- One call `h->Fit(fit, option, "same", lo, hi)`: the minimizer runs on
the state of `fit` and the contents `h` of the histogram, the parameters and
errors of `fit` are replaced by the fitted ones, the limits stay; the call is
added to the record. -/
def Fit (m : Minimizer α) (option : String) (h : List α) (r : FitRun α) : FitRun α :=
  { fit := { r.fit with par := (m option r.fit h).par
                        parError := (m option r.fit h).parError }
    status := (m option r.fit h).status
    calls := r.calls ++ [(option, r.fit)] }

/-- The `Fit` calls of one block in order (option string and state of `fit`
at the call) and what the code reads afterwards. -/
structure FitTrace (α : Type) where
  /-- The `Fit` calls, in order. -/
  calls : List (String × TF1 α)
  /-- What `GetParameter` and `GetParError` return after the last call. -/
  outcome : FitOutcome α

/-- What is left after the last `Fit` call of a block: the record of the
calls, and the values `GetParameter` and `GetParError` read from `fit`. -/
def FitRun.trace (r : FitRun α) : FitTrace α :=
  { calls := r.calls
    outcome := ⟨r.fit.par, r.fit.parError, r.status⟩ }

/-- What a fit minimizes. -/
inductive Objective where
  /-- The chi-square of the histogram bins, the default of `TH1::Fit`. -/
  | leastSquares
  /-- The binned log likelihood, selected by the option `L`. -/
  | likelihood
  deriving DecidableEq, Repr

/-- The objective `TH1::Fit` derives from its option string: the log
likelihood when the string holds an `L`, the chi-square otherwise. -/
def fitObjective (option : String) : Objective :=
  if 'L' ∈ option.toList then Objective.likelihood else Objective.leastSquares

/-- A stand-in for the minimizer used in worked examples: it returns the
parameters and errors it was given. -/
def exampleMinimizer : Minimizer α :=
  fun _ f _ => ⟨f.par, f.parError, 0⟩

/-- The comparison `a / b < c` of `double` values for a finite `c`. With
`b = 0` (read as `+0.0`) the quotient is not a finite number: it is `+∞` for
`a > 0` and NaN for `a = 0`, where the comparison is false, and `-∞` for
`a < 0`, where it is true. -/
def quotientLt (a b c : α) : Bool :=
  if b = 0 then decide (a < 0) else decide (a / b < c)

/-- The test guarding the `SetPoint` calls of `draw_results_helper.cc`
(lines 330-331):
`fit->GetParError(1)/fit->GetParameter(1) < 0.15 &&
fit->GetParError(2)/fit->GetParameter(2) < 0.15`. -/
def goodFit (fit : FitOutcome α) : Bool :=
  quotientLt (fit.parError 1) (fit.par 1) 0.15 && quotientLt (fit.parError 2) (fit.par 2) 0.15

/-! ### Per-block quantities used to state the results -/

/-- The pair `(mean, sigma)` left by a `MeanSigma` call that returned (zero
for a call that ended in `FATAL`). -/
def estimate (r : Except Fatal (α × α)) : α × α :=
  match r with
  | .ok v => v
  | .error _ => (0, 0)

/-- Both `MeanSigma` calls of block `b` return. -/
def blockOk (sqrt : α → α) (x y : List α) (ind : List Nat) (blockSize : ℤ) (b : Nat) : Prop :=
  (∃ mX, MeanSigma sqrt (blockData x y ind blockSize b).1 = .ok mX) ∧
  (∃ mY, MeanSigma sqrt (blockData x y ind blockSize b).2 = .ok mY)

/-- The pair `(meanX, sigmaX)` of block `b`. -/
def blockEstX (sqrt : α → α) (x y : List α) (ind : List Nat) (blockSize : ℤ) (b : Nat) : α × α :=
  estimate (MeanSigma sqrt (blockData x y ind blockSize b).1)

/-- The fit outcome of block `b`. -/
def blockFit (sqrt : α → α) (fitter : Fitter α) (x y : List α) (ind : List Nat)
    (blockSize : ℤ) (b : Nat) : FitOutcome α :=
  fitter (blockData x y ind blockSize b).2
    (estimate (MeanSigma sqrt (blockData x y ind blockSize b).2)).1
    (estimate (MeanSigma sqrt (blockData x y ind blockSize b).2)).2

/-- A point of the response graph: `x = meanX`, `y =` fitted position,
`ex = sigmaX`, `ey =` error of the position. -/
def meanPoint (est : α × α) (fit : FitOutcome α) : GraphPoint α :=
  ⟨est.1, fit.par 1, est.2, fit.parError 1⟩

/-- A point of the resolution graph: `x = meanX`, `y =` fitted width over
fitted position, `ex = sigmaX`, `ey =` error of the width over fitted
position. -/
def sigmaPoint (est : α × α) (fit : FitOutcome α) : GraphPoint α :=
  ⟨est.1, fit.par 2 / fit.par 1, est.2, fit.parError 2 / fit.par 1⟩

/-- A stand-in for the fit used in worked examples: position `1`, width `1`,
and a relative error of `0.1` when `meanY < 2` and of `0.2` otherwise. -/
def exampleFitter : Fitter α :=
  fun _ meanY _ => ⟨fun _ => 1, fun _ => if meanY < 2 then 0.1 else 0.2, 0⟩

/-- A second stand-in for the fit used in worked examples: position `2`,
width `2`, both errors `0.2`. -/
def exampleFitter2 : Fitter α :=
  fun _ _ _ => ⟨fun _ => 2, fun _ => 0.2, 0⟩

/-- The block loop `for (int b = 0; b < nblocks; b++)`: the first argument is
the number of blocks still to process, the second the block index `b`. -/
def blockLoop {σ : Type} (body : Nat → σ → Except Fatal σ) : Nat → Nat → σ → Except Fatal σ
  | 0, _, st => .ok st
  | n + 1, b, st =>
    match body b st with
    | .error e => .error e
    | .ok st1 => blockLoop body n (b + 1) st1

end Defs

namespace DrawResultsHelper

section Defs

variable {α : Type} [LinearOrderedField α] [FloorRing α]

/-- The state of `fit_slices_real` in `draw_results_helper.cc`: the two
output graphs and the counter `b0` of accepted blocks. -/
structure State (α : Type) where
  /-- Graph `grMean`. -/
  grMean : List (GraphPoint α)
  /-- Graph `grSigma`. -/
  grSigma : List (GraphPoint α)
  /-- Counter of accepted blocks. -/
  b0 : Nat

/-- Body of the block loop of `draw_results_helper.cc` (lines 236-342). -/
def blockBody (sqrt : α → α) (fitter : Fitter α) (x y : List α) (ind : List Nat)
    (blockSize : ℤ) (b : Nat) (st : State α) : Except Fatal (State α) :=
  let blk := blockData x y ind blockSize b
  match MeanSigma sqrt blk.1 with
  | .error e => .error e
  | .ok mX =>
    match MeanSigma sqrt blk.2 with
    | .error e => .error e
    | .ok mY =>
      let fit := fitter blk.2 mY.1 mY.2
      if goodFit fit then
        .ok { grMean := SetPointError (SetPoint st.grMean st.b0 mX.1 (fit.par 1))
                st.b0 mX.2 (fit.parError 1)
              grSigma := SetPointError (SetPoint st.grSigma st.b0 mX.1 (fit.par 2 / fit.par 1))
                st.b0 mX.2 (fit.parError 2 / fit.par 1)
              b0 := st.b0 + 1 }
      else .ok st

/-- State of `fit` at the first `Fit` call of `draw_results_helper.cc`
(lines 304-312); `hmax` is `h->GetMaximum()`. -/
def fitSetup1 (hmax meanY sigmaY : α) : TF1 α :=
  let f := SetParameters newTF1 hmax meanY (0.5 * sigmaY) 1.5 5 1.5
  let f := SetParLimits f 0 (0.33 * hmax) (2 * hmax)
  let f := SetParLimits f 1 (meanY - sigmaY) (meanY + sigmaY)
  let f := SetParLimits f 2 (0.1 * sigmaY) (1.1 * sigmaY)
  let f := FixParameter f 3 1.5
  let f := FixParameter f 4 5
  FixParameter f 5 1.5

/-- Lines 315-317: from the function after the first fit to the state at the
second `Fit` call. -/
def fitSetup2 (f : TF1 α) : TF1 α :=
  let f := SetParLimits f 3 0.4 10
  let f := SetParLimits f 4 1.01 100
  SetParLimits f 5 0.4 10

/-- Lines 320-326: from the function after the second fit to the state at the
third `Fit` call. -/
def fitSetup3 (sigmaY : α) (f : TF1 α) : TF1 α :=
  let f := ReleaseParameter f 0
  let f := ReleaseParameter f 0
  let f := SetParLimits f 1 0.65 1.2
  let f := SetParLimits f 2 0 (1.1 * sigmaY)
  let f := ReleaseParameter f 3
  let f := ReleaseParameter f 4
  ReleaseParameter f 5

/-- The fits of one block in `draw_results_helper.cc` (lines 300-327);
`getMax` gives `h->GetMaximum()` for the histogram filled with `by`. -/
def fitBlock (getMax : List α → α) (m : Minimizer α) (by_ : List α) (meanY sigmaY : α) :
    FitTrace α :=
  let r := Fit m "QEM" by_ ⟨fitSetup1 (getMax by_) meanY sigmaY, 0, []⟩
  let r := Fit m "QEM" by_ { r with fit := fitSetup2 r.fit }
  let r := Fit m "QEML" by_ { r with fit := fitSetup3 sigmaY r.fit }
  r.trace

/-- The fit of `draw_results_helper.cc` as a `Fitter`. -/
def rootFitter (getMax : List α → α) (m : Minimizer α) : Fitter α :=
  fun by_ meanY sigmaY => (fitBlock getMax m by_ meanY sigmaY).outcome

/-- The function `fit_slices_real` of `draw_results_helper.cc` (strict
variant); the result is the final state of the graphs. -/
def fit_slices_real (sqrt : α → α) (fitter : Fitter α) (x y : List α) (ind : List Nat)
    (blockSize : ℤ) : Except Fatal (State α) :=
  if x.length < 1 then .error Fatal.emptyInput
  else blockLoop (blockBody sqrt fitter x y ind blockSize)
    (nblocks x.length blockSize).toNat 0 ⟨[], [], 0⟩

end Defs

end DrawResultsHelper

namespace DrawMvaPars

section Defs

variable {α : Type} [LinearOrderedField α] [FloorRing α]

/-- The state of `fit_slices_real` in `draw_mva_pars.cc`: the two output
graphs. -/
structure State (α : Type) where
  /-- Graph `grMeanVsMean`. -/
  grMeanVsMean : List (GraphPoint α)
  /-- Graph `grSigmaVsSigma`. -/
  grSigmaVsSigma : List (GraphPoint α)

/-- Body of the block loop of `draw_mva_pars.cc` (lines 188-274). -/
def blockBody (sqrt : α → α) (fitter : Fitter α) (x y : List α) (ind : List Nat)
    (blockSize : ℤ) (b : Nat) (st : State α) : Except Fatal (State α) :=
  let blk := blockData x y ind blockSize b
  match MeanSigma sqrt blk.1 with
  | .error e => .error e
  | .ok mX =>
    match MeanSigma sqrt blk.2 with
    | .error e => .error e
    | .ok mY =>
      let fit := fitter blk.2 mY.1 mY.2
      .ok { grMeanVsMean := SetPointError (SetPoint st.grMeanVsMean b mX.1 (fit.par 1))
              b mX.2 (fit.parError 1)
            grSigmaVsSigma :=
              SetPointError (SetPoint st.grSigmaVsSigma b mX.1 (fit.par 2 / fit.par 1))
                b mX.2 (fit.parError 2 / fit.par 1) }

/-- State of `fit` at the first `Fit` call of `draw_mva_pars.cc` (lines
256-262); `hmax` is `h->GetMaximum()`. -/
def fitSetup (hmax meanY sigmaY : α) : TF1 α :=
  let f := SetParameters newTF1 hmax meanY sigmaY 1.5 5 1.5
  let f := SetParLimits f 0 (0.33 * hmax) (3 * hmax)
  let f := SetParLimits f 1 0.65 1.2
  let f := SetParLimits f 2 (0.33 * sigmaY) (1.5 * sigmaY)
  let f := SetParLimits f 3 0 10
  let f := SetParLimits f 4 1.01 100
  SetParLimits f 5 0 10

/-- The fits of one block in `draw_mva_pars.cc` (lines 252-265); `getMax`
gives `h->GetMaximum()` for the histogram filled with `by`. -/
def fitBlock (getMax : List α → α) (m : Minimizer α) (by_ : List α) (meanY sigmaY : α) :
    FitTrace α :=
  let r := Fit m "QEM" by_ ⟨fitSetup (getMax by_) meanY sigmaY, 0, []⟩
  let r := Fit m "QEML" by_ r
  r.trace

/-- The fit of `draw_mva_pars.cc` as a `Fitter`. -/
def rootFitter (getMax : List α → α) (m : Minimizer α) : Fitter α :=
  fun by_ meanY sigmaY => (fitBlock getMax m by_ meanY sigmaY).outcome

/-- The function `fit_slices_real` of `draw_mva_pars.cc` (lenient variant);
the result is the final state of the graphs. -/
def fit_slices_real (sqrt : α → α) (fitter : Fitter α) (x y : List α) (ind : List Nat)
    (blockSize : ℤ) : Except Fatal (State α) :=
  if x.length < 1 then .error Fatal.emptyInput
  else blockLoop (blockBody sqrt fitter x y ind blockSize)
    (nblocks x.length blockSize).toNat 0 ⟨[], []⟩

end Defs

end DrawMvaPars

section Defs

variable {α : Type} [LinearOrderedField α]

/-! ### The peak-shape model -/

/-- Gaussian branch of the formula string: `exp(-(x-[1])^2/(2*[2]*[2]))`. -/
def coreBranch (exp : α → α) (pow : α → α → α) (p : Nat → α) (x : α) : α :=
  exp (-(pow (x - p 1) 2) / (2 * p 2 * p 2))

/-- Right-tail branch of the formula string:
`exp(0.5*[5]*[5] - [5]*(x-[1])/[2])`. -/
def rightBranch (exp : α → α) (p : Nat → α) (x : α) : α :=
  exp (0.5 * p 5 * p 5 - p 5 * (x - p 1) / p 2)

/-- Left-tail branch of the formula string:
`([4]/[3])^[4] * exp(-0.5*[3]^2) * (-(x-[1])/[2]-[3]+[4]/[3])^(-[4])`. -/
def leftBranch (exp : α → α) (pow : α → α → α) (p : Nat → α) (x : α) : α :=
  pow (p 4 / p 3) (p 4) * exp (-0.5 * pow (p 3) 2)
    * pow (-(x - p 1) / p 2 - p 3 + p 4 / p 3) (-(p 4))

/-- The `TF1` formula string `expr` of `fit_slices_real` (the same in both
files), with `p i` the parameter `[i]` and `^` the power function:
`[0] * ( (x-[1])/[2] > -[3] ? ( (x-[1])/[2] < [5] ? exp(-(x-[1])^2/(2*[2]*[2]))
: exp(0.5*[5]*[5] - [5]*(x-[1])/[2]) ) : ([4]/[3])^[4] * exp(-0.5*[3]^2) *
(-(x-[1])/[2]-[3]+[4]/[3])^(-[4]) )`. -/
def fitExpr (exp : α → α) (pow : α → α → α) (p : Nat → α) (x : α) : α :=
  p 0 * (if (x - p 1) / p 2 > -(p 3) then
      (if (x - p 1) / p 2 < p 5 then coreBranch exp pow p x else rightBranch exp p x)
    else leftBranch exp pow p x)

/-- The parameter array `[0]..[5] = A, mu, sigma, alphaL, n, alphaR`. -/
def paramArray (A mu sigma alphaL n alphaR : α) : Nat → α
  | 0 => A
  | 1 => mu
  | 2 => sigma
  | 3 => alphaL
  | 4 => n
  | 5 => alphaR
  | _ => 0

/-- Gaussian core of the model as a function of `z`: `A exp(-z^2/2)`. -/
def specCore (exp : α → α) (A z : α) : α := A * exp (-(z ^ 2) / 2)

/-- Power-law left tail of the model as a function of `z`:
`A (n/alphaL)^n exp(-alphaL^2/2) (-z - alphaL + n/alphaL)^(-n)`. -/
def specLeftTail (exp : α → α) (pow : α → α → α) (A alphaL n z : α) : α :=
  A * pow (n / alphaL) n * exp (-(alphaL ^ 2) / 2) * pow (-z - alphaL + n / alphaL) (-n)

/-- Exponential right tail of the model as a function of `z`:
`A exp(alphaR^2/2 - alphaR z)`. -/
def specRightTail (exp : α → α) (A alphaR z : α) : α := A * exp (alphaR ^ 2 / 2 - alphaR * z)

/-- The three-region model of the specification at `z = (x - mu)/sigma`:
the core for `-alphaL ≤ z < alphaR`, the left tail for `z < -alphaL`, the
right tail for `z ≥ alphaR` (regions tried in this order). -/
def specModel (exp : α → α) (pow : α → α → α) (A mu sigma alphaL n alphaR x : α) : α :=
  let z := (x - mu) / sigma
  if -alphaL ≤ z ∧ z < alphaR then specCore exp A z
  else if z < -alphaL then specLeftTail exp pow A alphaL n z
  else specRightTail exp A alphaR z

/-! ### The choice of the training in `eval` -/

/-- Fatal errors of the event loop of `eval`. -/
inductive EvalFatal where
  /-- `FATAL("pfSize5x5_ZS <= 0")`. -/
  | nonPositiveSize
  deriving DecidableEq, Repr

/-- The category index `iS` of an event in `eval` (lines 169-178 of
`eval.cc`): `pfSize5x5_ZS` is the cluster size, `pfPt` the transverse
momentum. -/
def eval_iS (pfSize5x5_ZS : ℤ) (pfPt : α) : Except EvalFatal ℤ :=
  if pfSize5x5_ZS ≤ 0 then .error EvalFatal.nonPositiveSize
  else
    let iS : ℤ := if pfSize5x5_ZS > 2 then 2 else pfSize5x5_ZS - 1
    if iS = 2 then
      if pfPt ≥ 4.5 ∧ pfPt < 18 then .ok 3
      else if pfPt ≥ 18 then .ok 4
      else .ok iS
    else .ok iS

/-- The arguments `pfSize`, `ptMin`, `ptMax` of a `train_one` call; they also
determine the name of the workspace the training is stored in. -/
structure Training (α : Type) where
  /-- Argument `pfSize`. -/
  pfSize : ℤ
  /-- Argument `ptMin`. -/
  ptMin : α
  /-- Argument `ptMax`. -/
  ptMax : α
  deriving DecidableEq

/-- The training `eval` loads for the category index `iS` (lines 103-121 of
`eval.cc`). -/
def loadedTraining (iS : ℤ) : Training α :=
  let pfSize : ℤ := if iS < 2 then iS + 1 else 3
  if iS = 2 then ⟨pfSize, 0, 5⟩
  else if iS = 3 then ⟨pfSize, 4, 20⟩
  else if iS = 4 then ⟨pfSize, 16, -1⟩
  else ⟨pfSize, -1, -1⟩

/-- The `train_one` calls `train` makes for the barrel and for the endcaps
(lines 226-231 of `train.cc`; the defaults of `ptMin` and `ptMax` are -1). -/
def trainCalls : List (Training α) :=
  [⟨1, -1, -1⟩, ⟨2, -1, -1⟩, ⟨3, 0, 5⟩, ⟨3, 4, 20⟩, ⟨3, 16, -1⟩]

/-- The cuts of `train_one` on the cluster size and on `pfPt` (lines 160-170
of `train.cc`), applied to an event. -/
def trainCuts (t : Training α) (pfSize5x5_ZS : ℤ) (pfPt : α) : Bool :=
  (if t.pfSize = 1 then decide (pfSize5x5_ZS = 1)
    else if t.pfSize = 2 then decide (pfSize5x5_ZS = 2)
    else decide (pfSize5x5_ZS ≥ 3)) &&
  (if t.ptMin > 0 then decide (pfPt ≥ t.ptMin) else true) &&
  (if t.ptMax > 0 then decide (pfPt < t.ptMax) else true)

/-- The `pfPt` region of a training as `train_one` documents it:
`[ptMin, ptMax)`, a negative `ptMin` or `ptMax` meaning no limit on that
side. -/
def inPtRegion (t : Training α) (pfPt : α) : Prop :=
  (t.ptMin < 0 ∨ t.ptMin ≤ pfPt) ∧ (t.ptMax < 0 ∨ pfPt < t.ptMax)

end Defs

/-! ## Theorems -/

section FloatLemmas

variable {α : Type} [LinearOrderedField α] [FloorRing α]

theorem roundEven_of_lt (v : α) (m : ℤ) (h1 : (m : α) - 1 / 2 < v) (h2 : v < (m : α) + 1 / 2) :
    roundEven v = m := by
  unfold roundEven
  by_cases hv : (m : α) ≤ v
  · have hf : ⌊v⌋ = m := Int.floor_eq_iff.mpr ⟨hv, by linarith⟩
    rw [hf, if_pos (by linarith)]
  · have hf : ⌊v⌋ = m - 1 := by
      rw [Int.floor_eq_iff]
      push_cast
      constructor <;> linarith [not_le.mp hv]
    have hc : ((m - 1 : ℤ) : α) = (m : α) - 1 := by push_cast; ring
    rw [hf, hc, if_neg (by linarith), if_pos (by linarith)]
    ring

theorem roundEven_tie_up (m : ℤ) (hm : m % 2 = 0) : roundEven ((m : α) - 1 / 2) = m := by
  unfold roundEven
  have hf : ⌊(m : α) - 1 / 2⌋ = m - 1 := by
    rw [Int.floor_eq_iff]
    push_cast
    constructor <;> linarith
  have hc : ((m - 1 : ℤ) : α) = (m : α) - 1 := by push_cast; ring
  have hodd : ¬ (m - 1) % 2 = 0 := by omega
  rw [hf, hc, if_neg (by linarith), if_neg (by linarith), if_neg hodd]
  ring

theorem roundEven_tie_down (m : ℤ) (hm : m % 2 = 0) : roundEven ((m : α) + 1 / 2) = m := by
  unfold roundEven
  have hf : ⌊(m : α) + 1 / 2⌋ = m := by
    rw [Int.floor_eq_iff]
    constructor <;> linarith
  rw [hf, if_neg (by linarith), if_neg (by linarith), if_pos hm]

theorem roundEven_intCast (m : ℤ) : roundEven (m : α) = m :=
  roundEven_of_lt _ m (by linarith) (by linarith)

theorem floor_le_roundEven (v : α) : ⌊v⌋ ≤ roundEven v := by
  unfold roundEven
  split_ifs <;> omega

/-- A value more than one half below an integer is rounded below it. -/
theorem roundEven_lt_of_lt (v : α) (m : ℤ) (h : v < (m : α) - 1 / 2) : roundEven v < m := by
  have hfl : ⌊v⌋ < m := by
    rw [Int.floor_lt]
    linarith
  have hfrac := Int.floor_le v
  unfold roundEven
  by_cases h1 : v - (⌊v⌋ : α) < 1 / 2
  · rw [if_pos h1]
    exact hfl
  · have hlt : ⌊v⌋ + 1 < m := by
      have h2 : ((⌊v⌋ + 1 : ℤ) : α) < (m : α) := by
        push_cast
        linarith [not_lt.mp h1]
      exact_mod_cast h2
    rw [if_neg h1]
    split_ifs <;> omega

theorem log_two_eq (v : α) (e : ℤ) (hv : 0 < v) (h1 : (2 : α) ^ e ≤ v)
    (h2 : v < (2 : α) ^ (e + 1)) : Int.log 2 v = e := by
  have ha : e ≤ Int.log 2 v := by
    rw [← Int.zpow_le_iff_le_log (by norm_num) hv]
    exact_mod_cast h1
  have hb : Int.log 2 v < e + 1 := by
    rw [← Int.lt_zpow_iff_log_lt (by norm_num) hv]
    exact_mod_cast h2
  omega

/-- Evaluation of `fl32` at a positive value with a known binade. -/
theorem fl32_eq_of (v : α) (e m : ℤ) (hv : 0 < v) (h1 : (2 : α) ^ e ≤ v)
    (h2 : v < (2 : α) ^ (e + 1)) (he : -126 ≤ e)
    (hm : roundEven (v / 2 ^ (e - 23)) = m) : fl32 v = (m : α) * 2 ^ (e - 23) := by
  have hlog : Int.log 2 |v| = e := by
    rw [abs_of_pos hv]
    exact log_two_eq v e hv h1 h2
  rw [fl32, if_neg hv.ne.symm, hlog, max_eq_left he, hm]

/-- A positive value that is a multiple of the spacing of its binade is a
`float`: rounding leaves it as it is. -/
theorem fl32_exact (v : α) (e m : ℤ) (hv : 0 < v) (h1 : (2 : α) ^ e ≤ v)
    (h2 : v < (2 : α) ^ (e + 1)) (he : -126 ≤ e) (hm : v = (m : α) * 2 ^ (e - 23)) :
    fl32 v = v := by
  have hp : (0 : α) < 2 ^ (e - 23) := zpow_pos (by norm_num) _
  have hr : roundEven (v / 2 ^ (e - 23)) = m := by
    rw [hm, mul_div_assoc, div_self hp.ne.symm, mul_one]
    exact roundEven_intCast m
  rw [fl32_eq_of v e m hv h1 h2 he hr, ← hm]

theorem fmul32_eq_of (a b r : α) (h : fl32 (a * b) = r) (hr : |r| < 2 ^ (128 : ℕ)) :
    fmul32 a b = some r := by
  rw [fmul32, h, if_neg (not_le.mpr hr)]

/-- The product of two values is exact in `float` when it is a multiple of
the spacing of its binade. -/
theorem fmul32_exact (a b : α) (e m : ℤ) (hv : 0 < a * b) (h1 : (2 : α) ^ e ≤ a * b)
    (h2 : a * b < (2 : α) ^ (e + 1)) (he : -126 ≤ e) (he2 : e < 127)
    (hm : a * b = (m : α) * 2 ^ (e - 23)) : fmul32 a b = some (a * b) := by
  apply fmul32_eq_of _ _ _ (fl32_exact (a * b) e m hv h1 h2 he hm)
  rw [abs_of_pos hv]
  refine lt_of_lt_of_le h2 ?_
  have h3 : (2 : α) ^ (e + 1) ≤ 2 ^ (128 : ℤ) := zpow_le_zpow_right₀ (by norm_num) (by omega)
  exact_mod_cast h3

end FloatLemmas

section SpacingLemmas

variable {α : Type} [LinearOrderedField α]

/-- One half is a whole number of spacings in every binade below `2^23`. -/
theorem half_eq_mul_spacing (E : ℤ) (hE : E ≤ 22) :
    (((2 : ℤ) ^ (22 - E).toNat : ℤ) : α) * 2 ^ (E - 23) = 1 / 2 := by
  have h1 : (((2 : ℤ) ^ (22 - E).toNat : ℤ) : α) = (2 : α) ^ (22 - E) := by
    push_cast
    rw [← zpow_natCast, Int.toNat_of_nonneg (by omega)]
  rw [h1, ← zpow_add₀ (by norm_num : (2 : α) ≠ 0)]
  have : 22 - E + (E - 23) = -1 := by ring
  rw [this]
  norm_num

theorem two_pow_mul_spacing (E : ℤ) : ((8388608 : ℤ) : α) * 2 ^ (E - 23) = 2 ^ E := by
  have h : ((8388608 : ℤ) : α) = (2 : α) ^ (23 : ℤ) := by norm_num
  rw [h, ← zpow_add₀ (by norm_num : (2 : α) ≠ 0)]
  congr 1
  ring

end SpacingLemmas

section FloatBounds

variable {α : Type} [LinearOrderedField α] [FloorRing α]

theorem fl32_zero : fl32 (0 : α) = 0 := by
  simp [fl32]

theorem fl32_of_pos (v : α) (hv : 0 < v) :
    fl32 v = (roundEven (v / 2 ^ (max (Int.log 2 v) (-126) - 23)) : α) *
      2 ^ (max (Int.log 2 v) (-126) - 23) := by
  rw [fl32, if_neg hv.ne.symm, abs_of_pos hv]

theorem fl32_nonneg (v : α) (hv : 0 ≤ v) : 0 ≤ fl32 v := by
  rcases hv.eq_or_lt with h | h
  · rw [← h, fl32_zero]
  · rw [fl32_of_pos v h]
    have hu : (0 : α) < 2 ^ (max (Int.log 2 v) (-126) - 23) := zpow_pos (by norm_num) _
    have h0 : (0 : ℤ) ≤ roundEven (v / 2 ^ (max (Int.log 2 v) (-126) - 23)) :=
      le_trans (Int.floor_nonneg.mpr (div_nonneg h.le hu.le)) (floor_le_roundEven _)
    have h1 : (0 : α) ≤ (roundEven (v / 2 ^ (max (Int.log 2 v) (-126) - 23)) : α) := by
      exact_mod_cast h0
    exact mul_nonneg h1 hu.le

/-- Rounding to `float` does not go below a half-integer that the value
reaches, in the binades below `2^23`. -/
theorem half_le_fl32 (v : α) (hv : 0 < v) (M : ℤ) (hE : max (Int.log 2 v) (-126) ≤ 22)
    (h : (M : α) / 2 ≤ v) : (M : α) / 2 ≤ fl32 v := by
  have hu : (0 : α) < 2 ^ (max (Int.log 2 v) (-126) - 23) := zpow_pos (by norm_num) _
  have hN := half_eq_mul_spacing (α := α) _ hE
  have h1 : ((M * (2 : ℤ) ^ (22 - max (Int.log 2 v) (-126)).toNat : ℤ) : α) ≤
      v / 2 ^ (max (Int.log 2 v) (-126) - 23) := by
    rw [le_div_iff₀ hu, Int.cast_mul, mul_assoc, hN]
    linarith
  have h2 := le_trans (Int.le_floor.mpr h1) (floor_le_roundEven _)
  have h3 : ((M * (2 : ℤ) ^ (22 - max (Int.log 2 v) (-126)).toNat : ℤ) : α) ≤
      (roundEven (v / 2 ^ (max (Int.log 2 v) (-126) - 23)) : α) := by exact_mod_cast h2
  rw [fl32_of_pos v hv]
  calc (M : α) / 2 = ((M * (2 : ℤ) ^ (22 - max (Int.log 2 v) (-126)).toNat : ℤ) : α) *
        2 ^ (max (Int.log 2 v) (-126) - 23) := by
        rw [Int.cast_mul, mul_assoc, hN]
        ring
    _ ≤ _ := mul_le_mul_of_nonneg_right h3 hu.le

/-- Rounding to `float` stays below a half-integer from which the value is
more than half a spacing away, in the binades below `2^23`. -/
theorem fl32_lt_half (v : α) (hv : 0 < v) (M : ℤ) (hE : max (Int.log 2 v) (-126) ≤ 22)
    (h : v + 2 ^ (max (Int.log 2 v) (-126) - 24) < (M : α) / 2) : fl32 v < (M : α) / 2 := by
  have hu : (0 : α) < 2 ^ (max (Int.log 2 v) (-126) - 23) := zpow_pos (by norm_num) _
  have hN := half_eq_mul_spacing (α := α) _ hE
  have hhalf : (2 : α) ^ (max (Int.log 2 v) (-126) - 24) =
      2 ^ (max (Int.log 2 v) (-126) - 23) / 2 := by
    have : max (Int.log 2 v) (-126) - 24 = max (Int.log 2 v) (-126) - 23 + (-1) := by ring
    rw [this, zpow_add₀ (by norm_num : (2 : α) ≠ 0), zpow_neg_one, div_eq_mul_inv]
  have h1 : v / 2 ^ (max (Int.log 2 v) (-126) - 23) <
      ((M * (2 : ℤ) ^ (22 - max (Int.log 2 v) (-126)).toNat : ℤ) : α) - 1 / 2 := by
    rw [div_lt_iff₀ hu, sub_mul, Int.cast_mul, mul_assoc, hN]
    rw [hhalf] at h
    linarith
  have h2 := roundEven_lt_of_lt _ _ h1
  have h3 : (roundEven (v / 2 ^ (max (Int.log 2 v) (-126) - 23)) : α) <
      ((M * (2 : ℤ) ^ (22 - max (Int.log 2 v) (-126)).toNat : ℤ) : α) := by exact_mod_cast h2
  rw [fl32_of_pos v hv]
  calc _ < ((M * (2 : ℤ) ^ (22 - max (Int.log 2 v) (-126)).toNat : ℤ) : α) *
        2 ^ (max (Int.log 2 v) (-126) - 23) := mul_lt_mul_of_pos_right h3 hu
    _ = (M : α) / 2 := by
        rw [Int.cast_mul, mul_assoc, hN]
        ring

/-- Rounding to `float` does not take a value of at least `2^24` below
`2^24`. -/
theorem two_pow_le_fl32 (v : α) (h : (2 : α) ^ (24 : ℕ) ≤ v) : (2 : α) ^ (24 : ℕ) ≤ fl32 v := by
  have hv : 0 < v := lt_of_lt_of_le (by norm_num) h
  have hlog : (24 : ℤ) ≤ Int.log 2 v := by
    rw [← Int.zpow_le_iff_le_log (by norm_num) hv]
    exact_mod_cast h
  have hmax : max (Int.log 2 v) (-126) = Int.log 2 v := max_eq_left (by omega)
  have hu : (0 : α) < 2 ^ (Int.log 2 v - 23) := zpow_pos (by norm_num) _
  have hle : (2 : α) ^ (Int.log 2 v) ≤ v := by
    have := Int.zpow_log_le_self (b := 2) (by norm_num) hv
    exact_mod_cast this
  have h1 : ((8388608 : ℤ) : α) ≤ v / 2 ^ (Int.log 2 v - 23) := by
    rw [le_div_iff₀ hu, two_pow_mul_spacing]
    exact hle
  have h2 := le_trans (Int.le_floor.mpr h1) (floor_le_roundEven _)
  have h3 : ((8388608 : ℤ) : α) ≤ (roundEven (v / 2 ^ (Int.log 2 v - 23)) : α) := by
    exact_mod_cast h2
  rw [fl32_of_pos v hv, hmax]
  have h4 : (2 : α) ^ (24 : ℕ) ≤ ((8388608 : ℤ) : α) * 2 ^ (Int.log 2 v - 23) := by
    rw [two_pow_mul_spacing]
    have := zpow_le_zpow_right₀ (by norm_num : (1 : α) ≤ 2) hlog
    exact_mod_cast this
  exact h4.trans (mul_le_mul_of_nonneg_right h3 hu.le)

/-- A natural number below `2^24` is a `float`. -/
theorem fl32_natCast (n : ℕ) (hn : n < 2 ^ 24) : fl32 (n : α) = n := by
  rcases Nat.eq_zero_or_pos n with h0 | hpos
  · rw [h0, Nat.cast_zero, fl32_zero]
  · have hlo : 2 ^ Nat.log 2 n ≤ n := Nat.pow_log_le_self 2 hpos.ne.symm
    have hhi : n < 2 ^ (Nat.log 2 n + 1) := Nat.lt_pow_succ_log_self (by norm_num) n
    have he : Nat.log 2 n < 24 := by
      by_contra hge
      have : 2 ^ 24 ≤ 2 ^ Nat.log 2 n := Nat.pow_le_pow_right (by norm_num) (by omega)
      omega
    have hv : (0 : α) < (n : α) := by exact_mod_cast hpos
    apply fl32_exact (n : α) (Nat.log 2 n : ℤ) ((n * 2 ^ (23 - Nat.log 2 n) : ℕ) : ℤ) hv
    · rw [zpow_natCast]
      exact_mod_cast hlo
    · have : ((Nat.log 2 n : ℤ) + 1) = ((Nat.log 2 n + 1 : ℕ) : ℤ) := by push_cast; ring
      rw [this, zpow_natCast]
      exact_mod_cast hhi
    · omega
    · have e1 : (2 : α) ^ ((Nat.log 2 n : ℤ) - 23) = 2 ^ Nat.log 2 n / 2 ^ (23 : ℕ) := by
        rw [zpow_sub₀ (by norm_num : (2 : α) ≠ 0), zpow_natCast]
        norm_num
      have e2 : (2 : α) ^ (23 - Nat.log 2 n) * 2 ^ Nat.log 2 n = 2 ^ (23 : ℕ) := by
        rw [← pow_add]
        congr 1
        omega
      rw [e1]
      push_cast
      rw [mul_assoc, ← mul_div_assoc, e2]
      field_simp

end FloatBounds

section EstimateLemmas

variable {α : Type} [LinearOrderedField α]

theorem sum_sq_sub (s : List α) (m : α) :
    (s.map fun v => (v - m) ^ 2).sum =
      (s.map fun v => v ^ 2).sum - 2 * m * s.sum + (s.length : α) * m ^ 2 := by
  induction s with
  | nil => simp
  | cons a s ih =>
    simp only [List.map_cons, List.sum_cons, List.length_cons, ih]
    push_cast
    ring

theorem sum_sq_sub_nonneg (s : List α) (m : α) : 0 ≤ (s.map fun v => (v - m) ^ 2).sum := by
  apply List.sum_nonneg
  intro a ha
  obtain ⟨v, _, rfl⟩ := List.mem_map.mp ha
  exact sq_nonneg _

theorem length_pos_cast {s : List α} (hs : s ≠ []) : (0 : α) < (s.length : α) := by
  have : 0 < s.length := List.length_pos.mpr hs
  exact_mod_cast this

/-- The argument of the square root in `sigma` is the mean squared deviation. -/
theorem variance_eq (s : List α) (hs : s ≠ []) :
    (s.map fun v => v ^ 2).sum / (s.length : α) - specMean s ^ 2 =
      (s.map fun v => (v - specMean s) ^ 2).sum / (s.length : α) := by
  have hN := length_pos_cast hs
  rw [sum_sq_sub, specMean]
  field_simp
  ring

theorem variance_nonneg (s : List α) (hs : s ≠ []) :
    0 ≤ (s.map fun v => v ^ 2).sum / (s.length : α) - specMean s ^ 2 := by
  rw [variance_eq s hs]
  exact div_nonneg (sum_sq_sub_nonneg s _) (length_pos_cast hs).le

theorem length_mul_lt_sum (s : List α) (hs : s ≠ []) (f : α → α) (c : α)
    (h : ∀ v ∈ s, c < f v) : (s.length : α) * c < (s.map f).sum := by
  induction s with
  | nil => exact absurd rfl hs
  | cons a s ih =>
    have ha : c < f a := h a (List.mem_cons_self a s)
    by_cases hs2 : s = []
    · subst hs2
      simpa using ha
    · have := ih hs2 (fun v hv => h v (List.mem_cons_of_mem a hv))
      simp only [List.length_cons, List.map_cons, List.sum_cons]
      push_cast
      linarith

theorem sum_le_length_mul (s : List α) (c : α) (h : ∀ v ∈ s, v ≤ c) :
    s.sum ≤ (s.length : α) * c := by
  induction s with
  | nil => simp
  | cons a s ih =>
    have ha : a ≤ c := h a (List.mem_cons_self a s)
    have := ih (fun v hv => h v (List.mem_cons_of_mem a hv))
    simp only [List.length_cons, List.sum_cons]
    push_cast
    linarith

theorem length_mul_le_sum (s : List α) (c : α) (h : ∀ v ∈ s, c ≤ v) :
    (s.length : α) * c ≤ s.sum := by
  induction s with
  | nil => simp
  | cons a s ih =>
    have ha : c ≤ a := h a (List.mem_cons_self a s)
    have := ih (fun v hv => h v (List.mem_cons_of_mem a hv))
    simp only [List.length_cons, List.sum_cons]
    push_cast
    linarith

theorem specMean_le (s : List α) (hs : s ≠ []) (c : α) (h : ∀ v ∈ s, v ≤ c) :
    specMean s ≤ c := by
  rw [specMean, div_le_iff₀ (length_pos_cast hs), mul_comm]
  exact sum_le_length_mul s c h

theorem le_specMean (s : List α) (hs : s ≠ []) (c : α) (h : ∀ v ∈ s, c ≤ v) :
    c ≤ specMean s := by
  rw [specMean, le_div_iff₀ (length_pos_cast hs), mul_comm]
  exact length_mul_le_sum s c h

/-- A sample is never entirely outside three standard deviations of its own
mean: the trimming window of a non-empty sample contains one of its values. -/
theorem exists_mem_window (sqrt : α → α) (hs0 : ∀ v, 0 ≤ sqrt v)
    (hs2 : ∀ v, 0 ≤ v → sqrt v * sqrt v = v) (s : List α) (hs : s ≠ []) :
    ∃ v ∈ s, specMean s - 3 * specSigma sqrt s ≤ v ∧ v ≤ specMean s + 3 * specSigma sqrt s := by
  by_contra hcon
  push_neg at hcon
  have hσ0 : 0 ≤ specSigma sqrt s := hs0 _
  have hvar := variance_nonneg s hs
  have hσ2 : specSigma sqrt s * specSigma sqrt s =
      (s.map fun v => (v - specMean s) ^ 2).sum / (s.length : α) := by
    rw [← variance_eq s hs]
    exact hs2 _ hvar
  have hall : ∀ v ∈ s, 9 * (specSigma sqrt s * specSigma sqrt s) < (v - specMean s) ^ 2 := by
    intro v hv
    rcases lt_or_le v (specMean s - 3 * specSigma sqrt s) with h | h
    · nlinarith
    · have := hcon v hv h
      nlinarith
  have hlt := length_mul_lt_sum s hs (fun v => (v - specMean s) ^ 2) _ hall
  have hN := length_pos_cast hs
  have hD : (s.map fun v => (v - specMean s) ^ 2).sum =
      (s.length : α) * (specSigma sqrt s * specSigma sqrt s) := by
    rw [hσ2]
    field_simp
  have hnn : 0 ≤ (s.length : α) * (specSigma sqrt s * specSigma sqrt s) :=
    mul_nonneg hN.le (mul_self_nonneg _)
  rw [hD] at hlt
  nlinarith

/-- Every iterate is the mean and standard deviation of a non-empty part of
the sample. -/
theorem specIterate_eq_stats (sqrt : α → α) (hs0 : ∀ v, 0 ≤ sqrt v)
    (hs2 : ∀ v, 0 ≤ v → sqrt v * sqrt v = v) (numbers : List α) (hne : numbers ≠ [])
    (k : Nat) :
    ∃ s : List α, s ≠ [] ∧ (∀ v ∈ s, v ∈ numbers) ∧
      specIterate sqrt numbers k = (specMean s, specSigma sqrt s) := by
  induction k with
  | zero => exact ⟨numbers, hne, fun v hv => hv, rfl⟩
  | succ k ih =>
    obtain ⟨s, hsne, hsub, hk⟩ := ih
    refine ⟨specWindow numbers (specIterate sqrt numbers k), ?_, ?_, rfl⟩
    · obtain ⟨v, hv, h1, h2⟩ := exists_mem_window sqrt hs0 hs2 s hsne
      have hmem : v ∈ specWindow numbers (specIterate sqrt numbers k) := by
        rw [specWindow, List.mem_filter, hk]
        exact ⟨hsub v hv, decide_eq_true ⟨h1, h2⟩⟩
      exact List.ne_nil_of_mem hmem
    · intro v hv
      rw [specWindow] at hv
      exact (List.mem_filter.mp hv).1

/-- The window of every iterate contains a sample, so `nent` is positive in
every pass of the loop. -/
theorem specWindow_ne_nil (sqrt : α → α) (hs0 : ∀ v, 0 ≤ sqrt v)
    (hs2 : ∀ v, 0 ≤ v → sqrt v * sqrt v = v) (numbers : List α) (hne : numbers ≠ [])
    (k : Nat) : specWindow numbers (specIterate sqrt numbers k) ≠ [] := by
  obtain ⟨s, hsne, hsub, hk⟩ := specIterate_eq_stats sqrt hs0 hs2 numbers hne k
  obtain ⟨v, hv, h1, h2⟩ := exists_mem_window sqrt hs0 hs2 s hsne
  have hmem : v ∈ specWindow numbers (specIterate sqrt numbers k) := by
    rw [specWindow, List.mem_filter, hk]
    exact ⟨hsub v hv, decide_eq_true ⟨h1, h2⟩⟩
  exact List.ne_nil_of_mem hmem

end EstimateLemmas

section SampleLemmas

variable {α : Type} [LinearOrderedField α]

theorem foldl_min_le (s : List α) (a : α) :
    s.foldl min a ≤ a ∧ ∀ v ∈ s, s.foldl min a ≤ v := by
  induction s generalizing a with
  | nil => simp
  | cons b s ih =>
    simp only [List.foldl_cons, List.mem_cons]
    obtain ⟨h1, h2⟩ := ih (min a b)
    refine ⟨h1.trans (min_le_left a b), ?_⟩
    rintro v (rfl | hv)
    · exact h1.trans (min_le_right a v)
    · exact h2 v hv

theorem le_foldl_max (s : List α) (a : α) :
    a ≤ s.foldl max a ∧ ∀ v ∈ s, v ≤ s.foldl max a := by
  induction s generalizing a with
  | nil => simp
  | cons b s ih =>
    simp only [List.foldl_cons, List.mem_cons]
    obtain ⟨h1, h2⟩ := ih (max a b)
    refine ⟨(le_max_left a b).trans h1, ?_⟩
    rintro v (rfl | hv)
    · exact (le_max_right a v).trans h1
    · exact h2 v hv

theorem foldl_min_mem (s : List α) (a : α) : s.foldl min a = a ∨ s.foldl min a ∈ s := by
  induction s generalizing a with
  | nil => simp
  | cons b s ih =>
    simp only [List.foldl_cons, List.mem_cons]
    rcases ih (min a b) with h | h
    · rcases min_choice a b with hm | hm
      · left; rw [h, hm]
      · right; left; rw [h, hm]
    · right; right; exact h

theorem foldl_max_mem (s : List α) (a : α) : s.foldl max a = a ∨ s.foldl max a ∈ s := by
  induction s generalizing a with
  | nil => simp
  | cons b s ih =>
    simp only [List.foldl_cons, List.mem_cons]
    rcases ih (max a b) with h | h
    · rcases max_choice a b with hm | hm
      · left; rw [h, hm]
      · right; left; rw [h, hm]
    · right; right; exact h

theorem sampleMin_spec (s : List α) (hs : s ≠ []) :
    sampleMin s ∈ s ∧ ∀ v ∈ s, sampleMin s ≤ v := by
  obtain ⟨a, t, rfl⟩ := List.exists_cons_of_ne_nil hs
  refine ⟨?_, (foldl_min_le (a :: t) a).2⟩
  rcases foldl_min_mem (a :: t) a with h | h
  · rw [sampleMin, List.headD_cons, h]
    exact List.mem_cons_self a t
  · exact h

theorem sampleMax_spec (s : List α) (hs : s ≠ []) :
    sampleMax s ∈ s ∧ ∀ v ∈ s, v ≤ sampleMax s := by
  obtain ⟨a, t, rfl⟩ := List.exists_cons_of_ne_nil hs
  refine ⟨?_, (le_foldl_max (a :: t) a).2⟩
  rcases foldl_max_mem (a :: t) a with h | h
  · rw [sampleMax, List.headD_cons, h]
    exact List.mem_cons_self a t
  · exact h

end SampleLemmas

section MeanSigmaBasics

variable {α : Type} [LinearOrderedField α]

theorem finish_fst (sqrt : α → α) (mean : α) (sigma : Option α) (n : Nat) (hn : n ≠ 0) :
    (finish sqrt mean sigma n).1 = some (mean / (n : α)) := by
  unfold finish
  rw [if_neg hn]
  cases sigma with
  | none => rfl
  | some s =>
    simp only
    split_ifs <;> rfl

theorem finish_snd_eq_some (sqrt : α → α) (mean : α) (sigma : Option α) (n : Nat) (s : α)
    (h : (finish sqrt mean sigma n).2 = some s) : ∃ arg : α, 0 ≤ arg ∧ s = sqrt arg := by
  unfold finish at h
  by_cases hn : n = 0
  · rw [if_pos hn] at h
    exact Option.noConfusion h
  · rw [if_neg hn] at h
    cases sigma with
    | none => exact Option.noConfusion h
    | some q =>
      simp only at h
      by_cases hneg : q / (n : α) - mean / (n : α) * (mean / (n : α)) < 0
      · rw [if_pos hneg] at h
        exact Option.noConfusion h
      · rw [if_neg hneg] at h
        exact ⟨_, not_lt.mp hneg, (Option.some.inj h).symm⟩

theorem codeWindow_subset (numbers : List α) (prev : Option α × Option α) :
    ∀ v ∈ codeWindow numbers prev, v ∈ numbers := fun _ hv => (List.mem_filter.mp hv).1

theorem codeWindow_of_not_finite (numbers : List α) (prev : Option α × Option α)
    (h : windowBounds prev = none) : codeWindow numbers prev = numbers := by
  rw [codeWindow, h, List.filter_eq_self]
  intro v _
  rfl

theorem converged_eq_true (cur prev : Option α × Option α) (h : converged cur prev = true) :
    ∃ m s mp sp, cur = (some m, some s) ∧ prev = (some mp, some sp) ∧
      |m - mp| ≤ 1e-6 * |m| ∧ |s - sp| ≤ 1e-6 * |s| := by
  obtain ⟨c1, c2⟩ := cur
  obtain ⟨p1, p2⟩ := prev
  cases c1 <;> cases c2 <;> cases p1 <;> cases p2 <;> simp [converged] at h
  exact ⟨_, _, _, _, rfl, rfl, h.1, h.2⟩

theorem converged_none_left (prev : Option α × Option α) (m : Option α) :
    converged ((m, none) : Option α × Option α) prev = false := by
  obtain ⟨p1, p2⟩ := prev
  cases m <;> cases p1 <;> cases p2 <;> rfl

theorem converged_none_right (cur : Option α × Option α) (m : Option α) :
    converged cur ((m, none) : Option α × Option α) = false := by
  obtain ⟨c1, c2⟩ := cur
  cases m <;> cases c1 <;> cases c2 <;> rfl

end MeanSigmaBasics

section MeanSigmaLemmas

variable {α : Type} [LinearOrderedField α] [FloorRing α]

theorem sumLoop_eq (s : List α) (acc : α × Option α) :
    sumLoop s acc = (acc.1 + s.sum, sumProducts s acc.2) := by
  induction s generalizing acc with
  | nil => simp [sumLoop, sumProducts]
  | cons v rest ih =>
    obtain ⟨m, q⟩ := acc
    simp only [sumLoop, ih, List.sum_cons, sumProducts, List.foldl_cons, add_assoc]

theorem windowLoop_eq (b : Option (α × α)) (s : List α) (acc : α × Option α × Nat) :
    windowLoop b s acc =
      (acc.1 + (s.filter fun v => !outside b v).sum,
       sumProducts (s.filter fun v => !outside b v) acc.2.1,
       acc.2.2 + (s.filter fun v => !outside b v).length) := by
  induction s generalizing acc with
  | nil => simp [windowLoop, sumProducts]
  | cons v rest ih =>
    obtain ⟨m, q, n⟩ := acc
    by_cases hv : outside b v = true
    · simp [windowLoop, hv, ih]
    · have hv2 : outside b v = false := by simpa using hv
      simp only [windowLoop, hv2, Bool.false_eq_true, if_false, ih, List.filter_cons,
        Bool.not_false, if_true, List.sum_cons, List.length_cons, sumProducts, List.foldl_cons,
        add_assoc]
      rw [Nat.add_comm (List.length _) 1]

theorem zeroOrder_eq (sqrt : α → α) (numbers : List α) :
    zeroOrder sqrt numbers = stats sqrt numbers := by
  simp [zeroOrder, sumLoop_eq, stats]

theorem trimStep_eq (sqrt : α → α) (numbers : List α) (prev : Option α × Option α) :
    trimStep sqrt numbers prev = stats sqrt (codeWindow numbers prev) := by
  simp [trimStep, windowLoop_eq, stats, codeWindow]

theorem stats_nil (sqrt : α → α) : stats sqrt ([] : List α) = (none, none) := by
  simp [stats, finish]

theorem stats_fst_eq_some (sqrt : α → α) (w : List α) (m : α)
    (h : (stats sqrt w).1 = some m) : w ≠ [] ∧ m = specMean w := by
  by_cases hw : w = []
  · rw [hw, stats_nil] at h
    exact Option.noConfusion h
  · have hl : w.length ≠ 0 := fun h0 => hw (List.length_eq_zero.mp h0)
    rw [stats, finish_fst sqrt _ _ _ hl] at h
    exact ⟨hw, (Option.some.inj h).symm⟩

theorem iterLoop_ok_iff (sqrt : α → α) (numbers : List α) (n : Nat)
    (prev : Option α × Option α) (r : α × α) :
    iterLoop sqrt numbers n prev = .ok r ↔
      ∃ k, k < n ∧
        converged ((trimStep sqrt numbers)^[k + 1] prev) ((trimStep sqrt numbers)^[k] prev) = true ∧
        (∀ j, j < k →
          converged ((trimStep sqrt numbers)^[j + 1] prev) ((trimStep sqrt numbers)^[j] prev)
            = false) ∧
        r = result ((trimStep sqrt numbers)^[k + 1] prev) := by
  induction n generalizing prev with
  | zero => simp [iterLoop]
  | succ n ih =>
    rw [iterLoop]
    by_cases hc : converged (trimStep sqrt numbers prev) prev = true
    · simp only [hc, if_true]
      constructor
      · intro h
        injection h with h
        exact ⟨0, Nat.succ_pos n, by simpa using hc, by simp, by simp [h]⟩
      · rintro ⟨k, _, _, hfirst, hr⟩
        rcases Nat.eq_zero_or_pos k with hk | hk
        · subst hk
          simp [hr]
        · have := hfirst 0 hk
          simp [hc] at this
    · simp only [hc, Bool.false_eq_true, if_false]
      rw [ih]
      have hcf : converged (trimStep sqrt numbers prev) prev = false := by simpa using hc
      constructor
      · rintro ⟨k, hk, hconv, hfirst, hr⟩
        refine ⟨k + 1, Nat.succ_lt_succ hk, ?_, ?_, ?_⟩
        · simpa [Function.iterate_succ_apply] using hconv
        · intro j hj
          rcases Nat.eq_zero_or_pos j with h0 | h0
          · subst h0
            simpa using hcf
          · obtain ⟨i, rfl⟩ : ∃ i, j = i + 1 := ⟨j - 1, by omega⟩
            have := hfirst i (by omega)
            simpa [Function.iterate_succ_apply] using this
        · simpa [Function.iterate_succ_apply] using hr
      · rintro ⟨k, hk, hconv, hfirst, hr⟩
        rcases Nat.eq_zero_or_pos k with h0 | h0
        · subst h0
          simp [hcf] at hconv
        · obtain ⟨i, rfl⟩ : ∃ i, k = i + 1 := ⟨k - 1, by omega⟩
          refine ⟨i, by omega, ?_, ?_, ?_⟩
          · simpa [Function.iterate_succ_apply] using hconv
          · intro j hj
            have := hfirst (j + 1) (by omega)
            simpa [Function.iterate_succ_apply] using this
          · simpa [Function.iterate_succ_apply] using hr

theorem iterLoop_error (sqrt : α → α) (numbers : List α) (n : Nat)
    (prev : Option α × Option α) (e : Fatal)
    (h : iterLoop sqrt numbers n prev = .error e) : e = Fatal.didNotConverge := by
  induction n generalizing prev with
  | zero =>
    rw [iterLoop] at h
    injection h with h
    exact h.symm
  | succ n ih =>
    rw [iterLoop] at h
    by_cases hc : converged (trimStep sqrt numbers prev) prev = true
    · simp only [hc, if_true] at h
      exact Except.noConfusion h
    · simp only [hc, Bool.false_eq_true, if_false] at h
      exact ih _ h

theorem MeanSigma_error (sqrt : α → α) (numbers : List α) (e : Fatal)
    (h : MeanSigma sqrt numbers = .error e) : e = Fatal.didNotConverge :=
  iterLoop_error sqrt numbers 1000 _ e h

theorem MeanSigma_ok_iff (sqrt : α → α) (numbers : List α) (r : α × α) :
    MeanSigma sqrt numbers = .ok r ↔
      ∃ k, k < 1000 ∧
        converged ((trimStep sqrt numbers)^[k + 1] (zeroOrder sqrt numbers))
          ((trimStep sqrt numbers)^[k] (zeroOrder sqrt numbers)) = true ∧
        (∀ j, j < k →
          converged ((trimStep sqrt numbers)^[j + 1] (zeroOrder sqrt numbers))
            ((trimStep sqrt numbers)^[j] (zeroOrder sqrt numbers)) = false) ∧
        r = result ((trimStep sqrt numbers)^[k + 1] (zeroOrder sqrt numbers)) := by
  rw [MeanSigma, iterLoop_ok_iff]

theorem exists_first_pass (p : ℕ → Bool) (n : ℕ) (h : ∃ k, k < n ∧ p k = true) :
    ∃ k, k < n ∧ p k = true ∧ ∀ j, j < k → p j = false := by
  classical
  have hex : ∃ k, p k = true := by
    obtain ⟨k, _, h2⟩ := h
    exact ⟨k, h2⟩
  refine ⟨Nat.find hex, ?_, Nat.find_spec hex, ?_⟩
  · obtain ⟨k, h1, h2⟩ := h
    exact lt_of_le_of_lt (Nat.find_min' hex h2) h1
  · intro j hj
    have := Nat.find_min hex hj
    simpa using this

theorem MeanSigma_error_iff (sqrt : α → α) (numbers : List α) :
    MeanSigma sqrt numbers = .error Fatal.didNotConverge ↔
      ∀ k, k < 1000 →
        converged ((trimStep sqrt numbers)^[k + 1] (zeroOrder sqrt numbers))
          ((trimStep sqrt numbers)^[k] (zeroOrder sqrt numbers)) = false := by
  constructor
  · intro herr k hk
    by_contra hne
    have ht : converged ((trimStep sqrt numbers)^[k + 1] (zeroOrder sqrt numbers))
        ((trimStep sqrt numbers)^[k] (zeroOrder sqrt numbers)) = true := by simpa using hne
    obtain ⟨k0, hk0, hc, hfirst⟩ := exists_first_pass
      (fun k => converged ((trimStep sqrt numbers)^[k + 1] (zeroOrder sqrt numbers))
        ((trimStep sqrt numbers)^[k] (zeroOrder sqrt numbers))) 1000 ⟨k, hk, ht⟩
    have := (MeanSigma_ok_iff sqrt numbers _).mpr ⟨k0, hk0, hc, hfirst, rfl⟩
    rw [herr] at this
    exact Except.noConfusion this
  · intro hno
    cases hr : MeanSigma sqrt numbers with
    | error e => rw [MeanSigma_error sqrt numbers e hr]
    | ok r =>
      obtain ⟨k, h1, ht, _⟩ := (MeanSigma_ok_iff sqrt numbers r).mp hr
      rw [hno k h1] at ht
      exact Bool.noConfusion ht

/-- What a returned pair is: the mean of the non-empty list of samples the
last pass accumulated, and the square root of a non-negative number. -/
theorem MeanSigma_ok_stats (sqrt : α → α) (numbers : List α) (r : α × α)
    (h : MeanSigma sqrt numbers = .ok r) :
    ∃ w : List α, w ≠ [] ∧ (∀ v ∈ w, v ∈ numbers) ∧ r.1 = specMean w ∧
      ∃ arg : α, 0 ≤ arg ∧ r.2 = sqrt arg := by
  obtain ⟨k, _, hc, _, hr⟩ := (MeanSigma_ok_iff sqrt numbers r).mp h
  obtain ⟨m, s, mp, sp, hcur, _, _, _⟩ := converged_eq_true _ _ hc
  rw [Function.iterate_succ_apply', trimStep_eq] at hcur
  rw [Function.iterate_succ_apply', trimStep_eq, hcur] at hr
  have h1 : (stats sqrt (codeWindow numbers
      ((trimStep sqrt numbers)^[k] (zeroOrder sqrt numbers)))).1 = some m := by rw [hcur]
  have h2 : (stats sqrt (codeWindow numbers
      ((trimStep sqrt numbers)^[k] (zeroOrder sqrt numbers)))).2 = some s := by rw [hcur]
  obtain ⟨hne, hm⟩ := stats_fst_eq_some sqrt _ m h1
  obtain ⟨arg, harg, hs⟩ := finish_snd_eq_some sqrt _ _ _ s h2
  refine ⟨_, hne, codeWindow_subset numbers _, ?_, arg, harg, ?_⟩
  · rw [hr, ← hm]
    rfl
  · rw [hr, ← hs]
    rfl

theorem iterate_of_forall_false (sqrt : α → α) (numbers : List α) (n : Nat)
    (prev : Option α × Option α)
    (h : ∀ k, k < n →
      converged ((trimStep sqrt numbers)^[k + 1] prev) ((trimStep sqrt numbers)^[k] prev)
        = false) :
    iterLoop sqrt numbers n prev = .error Fatal.didNotConverge := by
  cases hr : iterLoop sqrt numbers n prev with
  | error e => rw [iterLoop_error sqrt numbers n prev e hr]
  | ok r =>
    obtain ⟨k, h1, ht, _⟩ := (iterLoop_ok_iff sqrt numbers n prev r).mp hr
    rw [h k h1] at ht
    exact Bool.noConfusion ht

/-- A pass that leaves `sigma` not finite and reproduces its own input never
meets the test. -/
theorem iterLoop_error_of_fixed (sqrt : α → α) (numbers : List α) (n : Nat) (m : Option α)
    (h : trimStep sqrt numbers (m, none) = (m, none)) :
    iterLoop sqrt numbers n (m, none) = .error Fatal.didNotConverge := by
  apply iterate_of_forall_false
  intro k _
  rw [Function.iterate_succ_apply', Function.iterate_fixed h, h]
  exact converged_none_left _ _

theorem MeanSigma_nil (sqrt : α → α) :
    MeanSigma sqrt ([] : List α) = .error Fatal.didNotConverge := by
  have hz : zeroOrder sqrt ([] : List α) = (none, none) := by
    rw [zeroOrder_eq, stats_nil]
  have hf : trimStep sqrt ([] : List α) (none, none) = (none, none) := by
    rw [trimStep_eq]
    exact stats_nil sqrt
  rw [MeanSigma, hz]
  exact iterLoop_error_of_fixed sqrt [] 1000 none hf

/-- Once a window holds no sample the loop never meets its test: the pass
leaves NaN, the next pass accumulates every sample and gives the zero-order
pair again, and the passes repeat. -/
theorem MeanSigma_error_of_empty_window (sqrt : α → α) (numbers : List α) (c : ℕ)
    (hfirst : ∀ j, j < c →
      converged ((trimStep sqrt numbers)^[j + 1] (zeroOrder sqrt numbers))
        ((trimStep sqrt numbers)^[j] (zeroOrder sqrt numbers)) = false)
    (hw : codeWindow numbers ((trimStep sqrt numbers)^[c] (zeroOrder sqrt numbers)) = []) :
    MeanSigma sqrt numbers = .error Fatal.didNotConverge := by
  have hnan : (trimStep sqrt numbers)^[c + 1] (zeroOrder sqrt numbers) = (none, none) := by
    rw [Function.iterate_succ_apply', trimStep_eq, hw, stats_nil]
  have hback : (trimStep sqrt numbers)^[c + 2] (zeroOrder sqrt numbers) =
      zeroOrder sqrt numbers := by
    rw [Function.iterate_succ_apply', hnan, trimStep_eq,
      codeWindow_of_not_finite numbers (none, none) rfl, zeroOrder_eq]
  have hper : ∀ n, (trimStep sqrt numbers)^[n + (c + 2)] (zeroOrder sqrt numbers) =
      (trimStep sqrt numbers)^[n] (zeroOrder sqrt numbers) := by
    intro n
    rw [Function.iterate_add_apply, hback]
  have hall : ∀ n,
      converged ((trimStep sqrt numbers)^[n + 1] (zeroOrder sqrt numbers))
        ((trimStep sqrt numbers)^[n] (zeroOrder sqrt numbers)) = false := by
    intro n
    induction n using Nat.strong_induction_on with
    | _ n ih =>
      by_cases h1 : n < c
      · exact hfirst n h1
      · by_cases h2 : n = c
        · rw [h2, hnan]
          exact converged_none_left _ _
        · by_cases h3 : n = c + 1
          · rw [h3, hnan]
            exact converged_none_right _ _
          · obtain ⟨i, rfl⟩ : ∃ i, n = i + (c + 2) := ⟨n - (c + 2), by omega⟩
            have e1 : i + (c + 2) + 1 = (i + 1) + (c + 2) := by omega
            rw [e1, hper, hper]
            exact ih i (by omega)
  rw [MeanSigma_error_iff]
  exact fun k _ => hall k

theorem MeanSigma_mean_le (sqrt : α → α) (numbers : List α) (r : α × α)
    (hr : MeanSigma sqrt numbers = .ok r) (c : α) (h : ∀ v ∈ numbers, v ≤ c) : r.1 ≤ c := by
  obtain ⟨w, hne, hsub, hm, _⟩ := MeanSigma_ok_stats sqrt numbers r hr
  rw [hm]
  exact specMean_le w hne c fun v hv => h v (hsub v hv)

theorem le_MeanSigma_mean (sqrt : α → α) (numbers : List α) (r : α × α)
    (hr : MeanSigma sqrt numbers = .ok r) (c : α) (h : ∀ v ∈ numbers, c ≤ v) : c ≤ r.1 := by
  obtain ⟨w, hne, hsub, hm, _⟩ := MeanSigma_ok_stats sqrt numbers r hr
  rw [hm]
  exact le_specMean w hne c fun v hv => h v (hsub v hv)

/-- A single sample whose `float` square is exact: the zero-order pair is
`(c, 0)` and the first pass repeats it. -/
theorem MeanSigma_singleton (sqrt : α → α) (hsq : sqrt 0 = 0) (c : α)
    (hc : fmul32 c c = some (c * c)) : MeanSigma sqrt [c] = .ok (c, 0) := by
  have hst : stats sqrt [c] = (some c, some 0) := by
    simp [stats, finish, sumProducts, addProduct, hc, hsq]
  have hz : zeroOrder sqrt [c] = (some c, some 0) := by rw [zeroOrder_eq, hst]
  have hw : codeWindow [c] ((some c, some 0) : Option α × Option α) = [c] := by
    simp [codeWindow, windowBounds, outside]
  have h1 : trimStep sqrt [c] (some c, some 0) = (some c, some 0) := by
    rw [trimStep_eq, hw, hst]
  rw [MeanSigma_ok_iff]
  refine ⟨0, by norm_num, ?_, fun j hj => absurd hj (by omega), ?_⟩
  · rw [Function.iterate_succ_apply', Function.iterate_zero, id, hz, h1]
    simp only [converged, sub_self, abs_zero, mul_zero, le_refl, and_true, decide_eq_true_eq]
    exact mul_nonneg (by norm_num) (abs_nonneg c)
  · rw [Function.iterate_succ_apply', Function.iterate_zero, id, hz, h1]
    rfl

end MeanSigmaLemmas

section IterateLemmas

variable {α : Type} [LinearOrderedField α] [FloorRing α]

theorem codeIterate_zero (sqrt : α → α) (numbers : List α) :
    codeIterate sqrt numbers 0 = stats sqrt numbers := by
  rw [codeIterate, Function.iterate_zero, id, zeroOrder_eq]

theorem codeIterate_succ (sqrt : α → α) (numbers : List α) (k : ℕ) :
    codeIterate sqrt numbers (k + 1) =
      stats sqrt (codeWindow numbers (codeIterate sqrt numbers k)) := by
  rw [codeIterate, Function.iterate_succ_apply', trimStep_eq]
  rfl

theorem MeanSigma_ok_iff_codeTol (sqrt : α → α) (numbers : List α) (r : α × α) :
    MeanSigma sqrt numbers = .ok r ↔
      ∃ k, 1 ≤ k ∧ k ≤ 1000 ∧ codeTol sqrt numbers k ∧
        (∀ j, 1 ≤ j → j < k → ¬ codeTol sqrt numbers j) ∧
        r = result (codeIterate sqrt numbers k) := by
  rw [MeanSigma_ok_iff]
  constructor
  · rintro ⟨k, hk, hc, hfirst, hr⟩
    refine ⟨k + 1, by omega, by omega, hc, ?_, hr⟩
    intro j hj1 hjk hj
    obtain ⟨i, rfl⟩ : ∃ i, j = i + 1 := ⟨j - 1, by omega⟩
    have h := hfirst i (by omega)
    have hj2 : converged ((trimStep sqrt numbers)^[i + 1] (zeroOrder sqrt numbers))
        ((trimStep sqrt numbers)^[i] (zeroOrder sqrt numbers)) = true := hj
    rw [h] at hj2
    exact Bool.noConfusion hj2
  · rintro ⟨k, hk1, hk, hc, hfirst, hr⟩
    obtain ⟨i, rfl⟩ : ∃ i, k = i + 1 := ⟨k - 1, by omega⟩
    refine ⟨i, by omega, hc, ?_, hr⟩
    intro j hj
    have h := hfirst (j + 1) (by omega) (by omega)
    have h2 : ¬ converged ((trimStep sqrt numbers)^[j + 1] (zeroOrder sqrt numbers))
        ((trimStep sqrt numbers)^[j] (zeroOrder sqrt numbers)) = true := h
    simpa using h2

theorem MeanSigma_error_iff_codeTol (sqrt : α → α) (numbers : List α) :
    MeanSigma sqrt numbers = .error Fatal.didNotConverge ↔
      ∀ k, 1 ≤ k → k ≤ 1000 → ¬ codeTol sqrt numbers k := by
  rw [MeanSigma_error_iff]
  constructor
  · intro h k hk1 hk hc
    obtain ⟨i, rfl⟩ : ∃ i, k = i + 1 := ⟨k - 1, by omega⟩
    have h2 : converged ((trimStep sqrt numbers)^[i + 1] (zeroOrder sqrt numbers))
        ((trimStep sqrt numbers)^[i] (zeroOrder sqrt numbers)) = true := hc
    rw [h i (by omega)] at h2
    exact Bool.noConfusion h2
  · intro h k hk
    have h2 : ¬ converged ((trimStep sqrt numbers)^[k + 1] (zeroOrder sqrt numbers))
        ((trimStep sqrt numbers)^[k] (zeroOrder sqrt numbers)) = true := h (k + 1) (by omega) (by omega)
    simpa using h2

theorem exists_first_codeTol (sqrt : α → α) (numbers : List α)
    (h : ∃ k, 1 ≤ k ∧ k ≤ 1000 ∧ codeTol sqrt numbers k) :
    ∃ k, 1 ≤ k ∧ k ≤ 1000 ∧ codeTol sqrt numbers k ∧
      ∀ j, 1 ≤ j → j < k → ¬ codeTol sqrt numbers j := by
  classical
  have hex : ∃ k, 1 ≤ k ∧ codeTol sqrt numbers k := by
    obtain ⟨k, h1, _, h3⟩ := h
    exact ⟨k, h1, h3⟩
  refine ⟨Nat.find hex, (Nat.find_spec hex).1, ?_, (Nat.find_spec hex).2, ?_⟩
  · obtain ⟨k, h1, h2, h3⟩ := h
    exact (Nat.find_min' hex ⟨h1, h3⟩).trans h2
  · intro j hj1 hjk ht
    exact Nat.find_min hex hjk ⟨hj1, ht⟩

/-- The count `nent` of a pass is the number of samples in its window. -/
theorem windowLoop_count (b : Option (α × α)) (numbers : List α) :
    (windowLoop b numbers (0, some 0, 0)).2.2 =
      (numbers.filter fun v => !outside b v).length := by
  rw [windowLoop_eq]
  simp

theorem nent_eq_zero_iff (numbers : List α) (prev : Option α × Option α) :
    (windowLoop (windowBounds prev) numbers (0, some 0, 0)).2.2 = 0 ↔
      codeWindow numbers prev = [] := by
  rw [windowLoop_count, List.length_eq_zero]
  rfl

end IterateLemmas

section PartitionLemmas

variable {α : Type} [LinearOrderedField α]

theorem Nint_intCast_of_nonneg (m : ℤ) (hm : 0 ≤ m) : Nint (m : ℚ) = m := by
  have hq : (0 : ℚ) ≤ (m : ℚ) := by exact_mod_cast hm
  have hfl : ⌊(m : ℚ) + 0.5⌋ = m := by
    rw [Int.floor_eq_iff]
    constructor <;> norm_num
  have hne : ¬ ((m : ℚ) + 0.5 = (m : ℚ)) := by norm_num
  have h05 : (0 : ℚ) ≤ (m : ℚ) + 0.5 := by linarith [show (0 : ℚ) ≤ 0.5 by norm_num]
  simp only [Nint, ge_iff_le, hq, if_true, truncToInt, h05, hfl, hne, and_false, if_false]

/-- Evaluation of the block count from the three roundings to `float`: of
the length, of the block size and of their quotient. -/
theorem nblocks_eq_of (L : ℕ) (bs : ℤ) (a b q : ℚ) (k : ℤ) (ha : fl32 (L : ℚ) = a)
    (hb : fl32 (bs : ℚ) = b) (hq : fl32 (a / b) = q) (hq0 : 0 ≤ q)
    (hk1 : (k : ℚ) - 1 / 2 ≤ q) (hk2 : q < (k : ℚ) + 1 / 2) : nblocks L bs = k := by
  have hfl : ⌊q + 1 / 2⌋ = k := by
    rw [Int.floor_eq_iff]
    constructor <;> linarith
  have hk0 : 0 ≤ k := by
    rw [← hfl]
    exact Int.floor_nonneg.mpr (by linarith)
  rw [nblocks, ha, hb, hq, cround, if_pos hq0, hfl]
  exact Nint_intCast_of_nonneg k hk0

/-- Below `2^23` elements the three roundings to `float` do not change the
count: it is `L / blockSize` rounded to the nearest integer, halves up. -/
theorem nblocks_eq_div (L bs : ℕ) (hbs : 0 < bs) (hL : L < 2 ^ 23) :
    nblocks L (bs : ℤ) = (((2 * L + bs) / (2 * bs) : ℕ) : ℤ) := by
  have ha : fl32 ((L : ℕ) : ℚ) = L := fl32_natCast L (by omega)
  have hk1 : (2 * L + bs) / (2 * bs) * (2 * bs) ≤ 2 * L + bs := Nat.div_mul_le_self _ _
  have hk2 : 2 * L + bs < 2 * bs * ((2 * L + bs) / (2 * bs) + 1) :=
    Nat.lt_mul_div_succ _ (by omega)
  generalize (2 * L + bs) / (2 * bs) = k at hk1 hk2
  have hlow : (2 * k - 1 : ℤ) * bs ≤ 2 * L := by
    have : 2 * k * bs ≤ 2 * L + bs := by nlinarith
    have h2 : (2 * (k : ℤ) - 1) * bs = ((2 * k * bs : ℕ) : ℤ) - bs := by push_cast; ring
    rw [h2]
    have h3 : ((2 * k * bs : ℕ) : ℤ) ≤ ((2 * L + bs : ℕ) : ℤ) := by exact_mod_cast this
    push_cast at h3 ⊢
    linarith
  have hupN : 2 * L + 1 ≤ (2 * k + 1) * bs := by nlinarith
  have hbsQ : (0 : ℚ) < (bs : ℚ) := by exact_mod_cast hbs
  have hLQ : (L : ℚ) < 2 ^ (23 : ℕ) := by exact_mod_cast hL
  by_cases hb24 : bs < 2 ^ 24
  · have hb : fl32 (((bs : ℕ) : ℤ) : ℚ) = bs := by
      have := fl32_natCast (α := ℚ) bs hb24
      simpa using this
    rcases Nat.eq_zero_or_pos L with h0 | hLpos
    · subst h0
      have hk0 : k = 0 := by
        by_contra hne
        have : 1 ≤ k := Nat.one_le_iff_ne_zero.mpr hne
        nlinarith
      subst hk0
      refine nblocks_eq_of 0 bs 0 bs 0 _ (by simpa using ha) hb ?_ le_rfl (by norm_num)
        (by norm_num)
      rw [zero_div]
      exact fl32_zero
    · have hL1 : (1 : ℚ) ≤ (L : ℚ) := by exact_mod_cast hLpos
      have hqpos : (0 : ℚ) < (L : ℚ) / (bs : ℚ) := div_pos (by linarith) hbsQ
      have hbs1 : (1 : ℚ) ≤ (bs : ℚ) := by exact_mod_cast hbs
      have hb24Q : (bs : ℚ) < 2 ^ (24 : ℕ) := by exact_mod_cast hb24
      have hqle : (L : ℚ) / (bs : ℚ) ≤ L := div_le_self (by linarith) hbs1
      have hlogle : Int.log 2 ((L : ℚ) / (bs : ℚ)) ≤ 22 := by
        have h1 : (L : ℚ) / (bs : ℚ) < ((2 : ℕ) : ℚ) ^ (23 : ℤ) := by
          have : (((2 : ℕ) : ℚ)) ^ (23 : ℤ) = 2 ^ (23 : ℕ) := by norm_num
          rw [this]
          linarith
        have := (Int.lt_zpow_iff_log_lt (by norm_num) hqpos).mp h1
        omega
      have hlogge : -24 ≤ Int.log 2 ((L : ℚ) / (bs : ℚ)) := by
        apply (Int.zpow_le_iff_le_log (by norm_num) hqpos).mp
        rw [le_div_iff₀ hbsQ]
        have : (((2 : ℕ) : ℚ)) ^ (-24 : ℤ) = 1 / 2 ^ (24 : ℕ) := by norm_num
        rw [this, div_mul_eq_mul_div, one_mul, div_le_iff₀ (by norm_num)]
        nlinarith
      have hmax : max (Int.log 2 ((L : ℚ) / (bs : ℚ))) (-126) =
          Int.log 2 ((L : ℚ) / (bs : ℚ)) := max_eq_left (by omega)
      have hpow : (2 : ℚ) ^ (Int.log 2 ((L : ℚ) / (bs : ℚ))) ≤ (L : ℚ) / (bs : ℚ) := by
        have := Int.zpow_log_le_self (b := 2) (by norm_num) hqpos
        exact_mod_cast this
      have hlowQ : ((2 * k - 1 : ℤ) : ℚ) / 2 ≤ (L : ℚ) / (bs : ℚ) := by
        rw [div_le_div_iff₀ (by norm_num) hbsQ]
        have : (((2 * (k : ℤ) - 1) * bs : ℤ) : ℚ) ≤ ((2 * L : ℤ) : ℚ) := by exact_mod_cast hlow
        push_cast at this ⊢
        linarith
      have hupQ : (L : ℚ) / (bs : ℚ) +
          2 ^ (max (Int.log 2 ((L : ℚ) / (bs : ℚ))) (-126) - 24) < ((2 * k + 1 : ℤ) : ℚ) / 2 := by
        rw [hmax]
        have e : (2 : ℚ) ^ (Int.log 2 ((L : ℚ) / (bs : ℚ)) - 24) =
            2 ^ (Int.log 2 ((L : ℚ) / (bs : ℚ))) / 2 ^ (24 : ℕ) := by
          rw [zpow_sub₀ (by norm_num : (2 : ℚ) ≠ 0)]
          norm_num
        have h1 : (2 : ℚ) ^ (Int.log 2 ((L : ℚ) / (bs : ℚ)) - 24) ≤
            (L : ℚ) / (bs : ℚ) / 2 ^ (24 : ℕ) := by
          rw [e]
          exact div_le_div_of_nonneg_right hpow (by norm_num)
        have h2 : ((2 * L + 1 : ℕ) : ℚ) ≤ (((2 * k + 1) * bs : ℕ) : ℚ) := by exact_mod_cast hupN
        push_cast at h2 ⊢
        have h3 : (L : ℚ) / (bs : ℚ) * 33554434 < (2 * (k : ℚ) + 1) * 16777216 := by
          rw [div_mul_eq_mul_div, div_lt_iff₀ hbsQ]
          have hLQ2 : (L : ℚ) < 8388608 := by
            have : (2 : ℚ) ^ (23 : ℕ) = 8388608 := by norm_num
            rw [← this]
            exact hLQ
          nlinarith
        norm_num at h1 ⊢
        linarith
      refine nblocks_eq_of L bs L bs _ k ha hb rfl (fl32_nonneg _ hqpos.le) ?_ ?_
      · have := half_le_fl32 _ hqpos (2 * k - 1) (by rw [hmax]; exact hlogle) hlowQ
        push_cast at this ⊢
        linarith
      · have := fl32_lt_half _ hqpos (2 * k + 1) (by rw [hmax]; exact hlogle) hupQ
        push_cast at this ⊢
        linarith
  · obtain ⟨b, hb⟩ : ∃ b, fl32 (((bs : ℕ) : ℤ) : ℚ) = b := ⟨_, rfl⟩
    have hbge : (16777216 : ℚ) ≤ b := by
      have h1 : (2 : ℚ) ^ (24 : ℕ) ≤ (((bs : ℕ) : ℤ) : ℚ) := by
        have : 2 ^ 24 ≤ bs := not_lt.mp hb24
        exact_mod_cast this
      have h2 := two_pow_le_fl32 _ h1
      have h3 : (2 : ℚ) ^ (24 : ℕ) = 16777216 := by norm_num
      rw [h3, hb] at h2
      exact h2
    have hk0 : k = 0 := by
      by_contra hne
      have h1 : 1 ≤ k := Nat.one_le_iff_ne_zero.mpr hne
      have h2 : 2 ^ 24 ≤ bs := not_lt.mp hb24
      nlinarith
    subst hk0
    rcases Nat.eq_zero_or_pos L with h0 | hLpos
    · subst h0
      refine nblocks_eq_of 0 bs 0 b 0 _ (by simpa using ha) hb ?_ le_rfl (by norm_num)
        (by norm_num)
      rw [zero_div]
      exact fl32_zero
    · have hbpos : (0 : ℚ) < b := lt_of_lt_of_le (by norm_num) hbge
      have hL1 : (1 : ℚ) ≤ (L : ℚ) := by exact_mod_cast hLpos
      have hqpos : (0 : ℚ) < (L : ℚ) / b := div_pos (by linarith) hbpos
      have hLle : (L : ℚ) ≤ 8388607 := by
        have : L ≤ 8388607 := by omega
        exact_mod_cast this
      have hqle : (L : ℚ) / b ≤ 8388607 / 16777216 := by
        rw [div_le_div_iff₀ hbpos (by norm_num)]
        linarith
      have hlog : Int.log 2 ((L : ℚ) / b) < -1 := by
        apply (Int.lt_zpow_iff_log_lt (by norm_num) hqpos).mp
        have : (((2 : ℕ) : ℚ)) ^ (-1 : ℤ) = 1 / 2 := by norm_num
        rw [this]
        linarith
      have hE : max (Int.log 2 ((L : ℚ) / b)) (-126) ≤ -2 := max_le (by omega) (by norm_num)
      have hsp : (2 : ℚ) ^ (max (Int.log 2 ((L : ℚ) / b)) (-126) - 24) ≤ 1 / 67108864 := by
        have h1 := zpow_le_zpow_right₀ (by norm_num : (1 : ℚ) ≤ 2)
          (by omega : max (Int.log 2 ((L : ℚ) / b)) (-126) - 24 ≤ -26)
        have h2 : (2 : ℚ) ^ (-26 : ℤ) = 1 / 67108864 := by norm_num
        rw [h2] at h1
        exact h1
      have hlt := fl32_lt_half _ hqpos 1 (by omega) (by push_cast; linarith)
      refine nblocks_eq_of L bs L b _ 0 ha hb rfl (fl32_nonneg _ hqpos.le) ?_ ?_
      · have := fl32_nonneg _ hqpos.le
        push_cast
        linarith
      · push_cast at hlt ⊢
        linarith

theorem nblocks_toNat (L bs : ℕ) (hbs : 0 < bs) (hL : L < 2 ^ 23) :
    (nblocks L (bs : ℤ)).toNat = (2 * L + bs) / (2 * bs) := by
  rw [nblocks_eq_div L bs hbs hL, Int.toNat_natCast]

theorem fillBlock_eq (x y : List α) (ind : List Nat) (siz n i : Nat) (acc : List α × List α) :
    fillBlock x y ind siz n i acc =
      (acc.1 ++ (List.range' i (min n (siz - i))).map fun k => x.getD (ind.getD k 0) 0,
       acc.2 ++ (List.range' i (min n (siz - i))).map fun k => y.getD (ind.getD k 0) 0) := by
  induction n generalizing i acc with
  | zero => simp [fillBlock]
  | succ n ih =>
    obtain ⟨bx, by_⟩ := acc
    rw [fillBlock]
    by_cases h : i ≥ siz
    · have h0 : siz - i = 0 := by omega
      simp [h, h0]
    · have hm : min (n + 1) (siz - i) = min n (siz - (i + 1)) + 1 := by omega
      simp only [h, if_false, ih, hm, List.range'_succ, List.map_cons, List.append_assoc,
        List.singleton_append]

theorem blockData_eq (x y : List α) (ind : List Nat) (bs b : Nat) :
    blockData x y ind (bs : ℤ) b =
      ((specPositions x.length bs b).map fun k => x.getD (ind.getD k 0) 0,
       (specPositions x.length bs b).map fun k => y.getD (ind.getD k 0) 0) := by
  have hm : min ((b + 1) * bs - b * bs) (x.length - b * bs)
      = min ((b + 1) * bs) x.length - b * bs := by omega
  simp [blockData, fillBlock_eq, specPositions, hm]

theorem IsSortIndex.length_eq {x : List α} {ind : List Nat} (h : IsSortIndex x ind) :
    ind.length = x.length := by
  rw [h.1.length_eq, List.length_range]

theorem IsSortIndex.nodup {x : List α} {ind : List Nat} (h : IsSortIndex x ind) :
    ind.Nodup :=
  (h.1.nodup_iff).mpr (List.nodup_range _)

theorem IsSortIndex.getD_lt {x : List α} {ind : List Nat} (h : IsSortIndex x ind)
    {k : Nat} (hk : k < x.length) : ind.getD k 0 < x.length := by
  have hk2 : k < ind.length := by rw [h.length_eq]; exact hk
  rw [List.getD_eq_getElem _ _ hk2]
  have hm : ind[k] ∈ List.range x.length := h.1.subset (List.getElem_mem hk2)
  exact List.mem_range.mp hm

theorem IsSortIndex.mono {x : List α} {ind : List Nat} (h : IsSortIndex x ind)
    {k k2 : Nat} (hkk : k < k2) (hk2 : k2 < x.length) :
    x.getD (ind.getD k 0) 0 ≤ x.getD (ind.getD k2 0) 0 := by
  have hl := h.length_eq
  have h1 : k < (ind.map fun j => x.getD j 0).length := by rw [List.length_map]; omega
  have h2 : k2 < (ind.map fun j => x.getD j 0).length := by rw [List.length_map]; omega
  have := (List.pairwise_iff_getElem.mp h.2) k k2 h1 h2 hkk
  rw [List.getElem_map, List.getElem_map] at this
  rw [List.getD_eq_getElem ind 0 (by omega : k < ind.length),
    List.getD_eq_getElem ind 0 (by omega : k2 < ind.length)]
  exact this

theorem IsSortIndex.getD_inj {x : List α} {ind : List Nat} (h : IsSortIndex x ind)
    {k k2 : Nat} (hk : k < x.length) (hk2 : k2 < x.length)
    (he : ind.getD k 0 = ind.getD k2 0) : k = k2 := by
  have hl := h.length_eq
  rw [List.getD_eq_getElem ind 0 (by omega : k < ind.length),
    List.getD_eq_getElem ind 0 (by omega : k2 < ind.length)] at he
  exact (h.nodup.getElem_inj_iff).mp he

theorem mem_specPositions {siz bs b k : Nat} :
    k ∈ specPositions siz bs b ↔ b * bs ≤ k ∧ k < (b + 1) * bs ∧ k < siz := by
  rw [specPositions, List.mem_range'_1]
  constructor
  · rintro ⟨h1, h2⟩
    omega
  · rintro ⟨h1, h2, h3⟩
    omega

theorem nblocks_cases (L bs : ℕ) (hbs : 0 < bs) :
    (2 * (L % bs) < bs → (2 * L + bs) / (2 * bs) = L / bs) ∧
    (bs ≤ 2 * (L % bs) → (2 * L + bs) / (2 * bs) = L / bs + 1) := by
  have hdm := Nat.div_add_mod L bs
  have hr := Nat.mod_lt L hbs
  constructor
  · intro h
    have e1 : L / bs * (2 * bs) = 2 * (bs * (L / bs)) := by ring
    have e2 : (L / bs + 1) * (2 * bs) = 2 * (bs * (L / bs)) + 2 * bs := by ring
    apply Nat.div_eq_of_lt_le
    · rw [e1]; omega
    · rw [e2]; omega
  · intro h
    have e1 : (L / bs + 1) * (2 * bs) = 2 * (bs * (L / bs)) + 2 * bs := by ring
    have e2 : (L / bs + 1 + 1) * (2 * bs) = 2 * (bs * (L / bs)) + 4 * bs := by ring
    apply Nat.div_eq_of_lt_le
    · rw [e1]; omega
    · rw [e2]; omega

theorem fillIndices_eq (ind : List Nat) (siz n i : Nat) (acc : List Nat) :
    fillIndices ind siz n i acc =
      acc ++ (List.range' i (min n (siz - i))).map fun k => ind.getD k 0 := by
  induction n generalizing i acc with
  | zero => simp [fillIndices]
  | succ n ih =>
    rw [fillIndices]
    by_cases h : i ≥ siz
    · have h0 : siz - i = 0 := by omega
      simp [h, h0]
    · have hm : min (n + 1) (siz - i) = min n (siz - (i + 1)) + 1 := by omega
      simp only [h, if_false, ih, hm, List.range'_succ, List.map_cons, List.append_assoc,
        List.singleton_append]

theorem blockIndices_eq (ind : List Nat) (siz bs b : Nat) :
    blockIndices ind siz (bs : ℤ) b = (specPositions siz bs b).map fun k => ind.getD k 0 := by
  have hm : min ((b + 1) * bs - b * bs) (siz - b * bs) = min ((b + 1) * bs) siz - b * bs := by
    omega
  simp [blockIndices, fillIndices_eq, specPositions, hm]

theorem mem_blockIndices_iff {x : List α} {ind : List Nat} (h : IsSortIndex x ind)
    (bs b : Nat) {k : Nat} (hk : k < x.length) :
    ind.getD k 0 ∈ blockIndices ind x.length (bs : ℤ) b ↔ k ∈ specPositions x.length bs b := by
  rw [blockIndices_eq, List.mem_map]
  constructor
  · rintro ⟨k2, hk2, he⟩
    have hk2l : k2 < x.length := (mem_specPositions.mp hk2).2.2
    have := h.getD_inj hk2l hk he
    rwa [← this]
  · intro hm
    exact ⟨k, hm, rfl⟩

theorem block_of_position {bs b k : Nat} (h1 : b * bs ≤ k)
    (h2 : k < (b + 1) * bs) : k / bs = b :=
  Nat.div_eq_of_lt_le h1 h2

theorem blocks_le_next (x y : List α) (ind : List Nat) (bs b : Nat)
    (hind : IsSortIndex x ind) :
    ∀ u ∈ (blockData x y ind (bs : ℤ) b).1, ∀ v ∈ (blockData x y ind (bs : ℤ) (b + 1)).1,
      u ≤ v := by
  intro u hu v hv
  rw [blockData_eq] at hu hv
  simp only [List.mem_map] at hu hv
  obtain ⟨k, hk, rfl⟩ := hu
  obtain ⟨k2, hk2, rfl⟩ := hv
  rw [mem_specPositions] at hk hk2
  exact hind.mono (by omega) hk2.2.2

theorem blockData_length (x y : List α) (ind : List Nat) (bs b : Nat) :
    (blockData x y ind (bs : ℤ) b).1.length = min ((b + 1) * bs) x.length - b * bs ∧
    (blockData x y ind (bs : ℤ) b).2.length = min ((b + 1) * bs) x.length - b * bs := by
  rw [blockData_eq]
  simp [specPositions]

theorem blockData_length_le (x y : List α) (ind : List Nat) (bs b : Nat) :
    (blockData x y ind (bs : ℤ) b).1.length ≤ bs := by
  rw [(blockData_length x y ind bs b).1]
  have : (b + 1) * bs = b * bs + bs := by ring
  omega

theorem blockData_length_full (x y : List α) (ind : List Nat) (bs b : Nat)
    (h : (b + 1) * bs ≤ x.length) :
    (blockData x y ind (bs : ℤ) b).1.length = bs ∧
    (blockData x y ind (bs : ℤ) b).2.length = bs := by
  have e : (b + 1) * bs = b * bs + bs := by ring
  obtain ⟨h1, h2⟩ := blockData_length x y ind bs b
  rw [h1, h2]
  omega

end PartitionLemmas

section GraphLemmas

variable {α : Type} [LinearOrderedField α]

theorem set_length_append_singleton {β : Type} (g : List β) (p q : β) :
    (g ++ [p]).set g.length q = g ++ [q] := by
  induction g with
  | nil => rfl
  | cons a g ih => simp [ih]

theorem getD_length_append_singleton {β : Type} (g : List β) (p d : β) :
    (g ++ [p]).getD g.length d = p := by
  induction g with
  | nil => rfl
  | cons a g ih => simp [ih]

theorem SetPoint_length (g : List (GraphPoint α)) (x y : α) :
    SetPoint g g.length x y = g ++ [⟨x, y, 0, 0⟩] := by
  have h1 : g.length + 1 - g.length = 1 := by omega
  simp only [SetPoint, h1, List.replicate_one]
  rw [getD_length_append_singleton, set_length_append_singleton]
  rfl

theorem SetPointError_last (g : List (GraphPoint α)) (p : GraphPoint α) (ex ey : α) :
    SetPointError (g ++ [p]) g.length ex ey = g ++ [⟨p.fX, p.fY, ex, ey⟩] := by
  have h1 : g.length + 1 - (g ++ [p]).length = 0 := by simp
  simp only [SetPointError, h1, List.replicate_zero, List.append_nil]
  rw [getD_length_append_singleton, set_length_append_singleton]

theorem SetPoint_SetPointError_length (g : List (GraphPoint α)) (x y ex ey : α) :
    SetPointError (SetPoint g g.length x y) g.length ex ey = g ++ [⟨x, y, ex, ey⟩] := by
  rw [SetPoint_length, SetPointError_last]

theorem blockLoop_error {σ : Type} (body : Nat → σ → Except Fatal σ)
    (hbody : ∀ b st e, body b st = .error e → e = Fatal.didNotConverge)
    (n b : Nat) (st : σ) (e : Fatal) (h : blockLoop body n b st = .error e) :
    e = Fatal.didNotConverge := by
  induction n generalizing b st with
  | zero =>
    rw [blockLoop] at h
    exact Except.noConfusion h
  | succ n ih =>
    rw [blockLoop] at h
    cases hb : body b st with
    | error e1 =>
      rw [hb] at h
      injection h with h
      rw [← h]
      exact hbody b st e1 hb
    | ok st1 =>
      rw [hb] at h
      exact ih _ _ h

end GraphLemmas

section PointLemmas

variable {α : Type} [LinearOrderedField α] [FloorRing α]

theorem meanPoint_of_ok (sqrt : α → α) (fitter : Fitter α) (x y : List α) (ind : List Nat)
    (blockSize : ℤ) (b : Nat) (mX mY : α × α)
    (hX : MeanSigma sqrt (blockData x y ind blockSize b).1 = .ok mX)
    (hY : MeanSigma sqrt (blockData x y ind blockSize b).2 = .ok mY) :
    meanPoint (blockEstX sqrt x y ind blockSize b) (blockFit sqrt fitter x y ind blockSize b) =
      ⟨mX.1, (fitter (blockData x y ind blockSize b).2 mY.1 mY.2).par 1,
       mX.2, (fitter (blockData x y ind blockSize b).2 mY.1 mY.2).parError 1⟩ := by
  simp only [meanPoint, blockEstX, blockFit, hX, hY, estimate]

theorem sigmaPoint_of_ok (sqrt : α → α) (fitter : Fitter α) (x y : List α) (ind : List Nat)
    (blockSize : ℤ) (b : Nat) (mX mY : α × α)
    (hX : MeanSigma sqrt (blockData x y ind blockSize b).1 = .ok mX)
    (hY : MeanSigma sqrt (blockData x y ind blockSize b).2 = .ok mY) :
    sigmaPoint (blockEstX sqrt x y ind blockSize b) (blockFit sqrt fitter x y ind blockSize b) =
      ⟨mX.1, (fitter (blockData x y ind blockSize b).2 mY.1 mY.2).par 2 /
          (fitter (blockData x y ind blockSize b).2 mY.1 mY.2).par 1,
       mX.2, (fitter (blockData x y ind blockSize b).2 mY.1 mY.2).parError 2 /
          (fitter (blockData x y ind blockSize b).2 mY.1 mY.2).par 1⟩ := by
  simp only [sigmaPoint, blockEstX, blockFit, hX, hY, estimate]

end PointLemmas

namespace DrawResultsHelper

section LoopLemmas

variable {α : Type} [LinearOrderedField α] [FloorRing α]

theorem blockBody_of_ok (sqrt : α → α) (fitter : Fitter α) (x y : List α) (ind : List Nat)
    (blockSize : ℤ) (b : Nat) (st : State α) (hok : blockOk sqrt x y ind blockSize b)
    (hm : st.b0 = st.grMean.length) (hs : st.b0 = st.grSigma.length) :
    blockBody sqrt fitter x y ind blockSize b st = .ok
      (if goodFit (blockFit sqrt fitter x y ind blockSize b) = true then
        { grMean := st.grMean ++ [meanPoint (blockEstX sqrt x y ind blockSize b)
            (blockFit sqrt fitter x y ind blockSize b)]
          grSigma := st.grSigma ++ [sigmaPoint (blockEstX sqrt x y ind blockSize b)
            (blockFit sqrt fitter x y ind blockSize b)]
          b0 := st.b0 + 1 }
       else st) := by
  obtain ⟨⟨mX, hX⟩, ⟨mY, hY⟩⟩ := hok
  simp only [blockBody, blockFit, blockEstX, hX, hY, estimate]
  split
  · rw [hm, SetPoint_SetPointError_length, ← hm, hs, SetPoint_SetPointError_length]
    rfl
  · rfl

theorem blockBody_of_not_ok (sqrt : α → α) (fitter : Fitter α) (x y : List α)
    (ind : List Nat) (blockSize : ℤ) (b : Nat) (st : State α)
    (hok : ¬ blockOk sqrt x y ind blockSize b) :
    ∃ e, blockBody sqrt fitter x y ind blockSize b st = .error e := by
  cases hX : MeanSigma sqrt (blockData x y ind blockSize b).1 with
  | error e => exact ⟨e, by simp only [blockBody, hX]⟩
  | ok mX =>
    cases hY : MeanSigma sqrt (blockData x y ind blockSize b).2 with
    | error e => exact ⟨e, by simp only [blockBody, hX, hY]⟩
    | ok mY => exact absurd ⟨⟨mX, hX⟩, ⟨mY, hY⟩⟩ hok

/-- The accepted blocks among `b, b + 1, ..., b + n - 1`, in block order. -/
theorem blockLoop_ok_iff (sqrt : α → α) (fitter : Fitter α) (x y : List α) (ind : List Nat)
    (blockSize : ℤ) (n b : Nat) (st st2 : State α)
    (hm : st.b0 = st.grMean.length) (hs : st.b0 = st.grSigma.length) :
    blockLoop (blockBody sqrt fitter x y ind blockSize) n b st = .ok st2 ↔
      (∀ c, b ≤ c → c < b + n → blockOk sqrt x y ind blockSize c) ∧
      st2.grMean = st.grMean ++
        ((List.range' b n).filter fun c =>
            goodFit (blockFit sqrt fitter x y ind blockSize c)).map
          (fun c => meanPoint (blockEstX sqrt x y ind blockSize c)
            (blockFit sqrt fitter x y ind blockSize c)) ∧
      st2.grSigma = st.grSigma ++
        ((List.range' b n).filter fun c =>
            goodFit (blockFit sqrt fitter x y ind blockSize c)).map
          (fun c => sigmaPoint (blockEstX sqrt x y ind blockSize c)
            (blockFit sqrt fitter x y ind blockSize c)) ∧
      st2.b0 = st.b0 +
        ((List.range' b n).filter fun c =>
            goodFit (blockFit sqrt fitter x y ind blockSize c)).length := by
  induction n generalizing b st with
  | zero =>
    simp only [blockLoop, List.range'_zero, List.filter_nil, List.map_nil, List.append_nil,
      List.length_nil, Nat.add_zero]
    constructor
    · intro h
      injection h with h
      subst h
      exact ⟨fun c h1 h2 => absurd h2 (by omega), rfl, rfl, rfl⟩
    · rintro ⟨_, h1, h2, h3⟩
      obtain ⟨g1, g2, c⟩ := st
      obtain ⟨g3, g4, c2⟩ := st2
      simp only at h1 h2 h3
      subst h1 h2 h3
      rfl
  | succ n ih =>
    rw [blockLoop]
    by_cases hok : blockOk sqrt x y ind blockSize b
    · rw [blockBody_of_ok sqrt fitter x y ind blockSize b st hok hm hs]
      simp only []
      have hall : (∀ c, b ≤ c → c < b + (n + 1) → blockOk sqrt x y ind blockSize c) ↔
          (∀ c, b + 1 ≤ c → c < b + 1 + n → blockOk sqrt x y ind blockSize c) := by
        constructor
        · intro h c h1 h2
          exact h c (by omega) (by omega)
        · intro h c h1 h2
          rcases Nat.eq_or_lt_of_le h1 with he | hlt
          · subst he
            exact hok
          · exact h c (by omega) (by omega)
      by_cases hg : goodFit (blockFit sqrt fitter x y ind blockSize b) = true
      · rw [if_pos hg, ih (b + 1) _ (by simp [hm]) (by simp [← hs])]
        simp only [List.range'_succ, List.filter_cons, hg, if_true, List.map_cons,
          List.append_assoc, List.singleton_append, List.length_cons, hall]
        have e : st.b0 + 1 + (List.filter
            (fun c => goodFit (blockFit sqrt fitter x y ind blockSize c))
            (List.range' (b + 1) n)).length
            = st.b0 + ((List.filter
            (fun c => goodFit (blockFit sqrt fitter x y ind blockSize c))
            (List.range' (b + 1) n)).length + 1) := by omega
        rw [e]
      · rw [if_neg hg, ih (b + 1) st hm hs]
        simp only [List.range'_succ, List.filter_cons, hg, if_false, hall]
        simp
    · obtain ⟨e, he⟩ := blockBody_of_not_ok sqrt fitter x y ind blockSize b st hok
      rw [he]
      constructor
      · intro h
        exact Except.noConfusion h
      · rintro ⟨h, _⟩
        exact absurd (h b (le_refl b) (by omega)) hok

theorem blockBody_rejected (sqrt : α → α) (fitter : Fitter α) (x y : List α) (ind : List Nat)
    (blockSize : ℤ) (b : Nat) (st : State α) (hok : blockOk sqrt x y ind blockSize b)
    (hg : goodFit (blockFit sqrt fitter x y ind blockSize b) = false) :
    blockBody sqrt fitter x y ind blockSize b st = .ok st := by
  obtain ⟨⟨mX, hX⟩, ⟨mY, hY⟩⟩ := hok
  simp only [blockFit, hY, estimate] at hg
  simp only [blockBody, hX, hY, hg, Bool.false_eq_true, if_false]

theorem blockBody_congr_fitter (sqrt : α → α) (fitter fitter2 : Fitter α) (x y : List α)
    (ind : List Nat) (blockSize : ℤ)
    (h : ∀ v m s, (fitter2 v m s).par = (fitter v m s).par ∧
      (fitter2 v m s).parError = (fitter v m s).parError) :
    blockBody sqrt fitter2 x y ind blockSize = blockBody sqrt fitter x y ind blockSize := by
  funext b st
  have hp : ∀ v m s, (fitter2 v m s).par = (fitter v m s).par := fun v m s => (h v m s).1
  have he : ∀ v m s, (fitter2 v m s).parError = (fitter v m s).parError :=
    fun v m s => (h v m s).2
  simp only [blockBody, goodFit, hp, he]

theorem fit_slices_real_ok_iff (sqrt : α → α) (fitter : Fitter α) (x y : List α)
    (ind : List Nat) (blockSize : ℤ) (st : State α) (hL : 1 ≤ x.length) :
    fit_slices_real sqrt fitter x y ind blockSize = .ok st ↔
      (∀ c, c < (nblocks x.length blockSize).toNat → blockOk sqrt x y ind blockSize c) ∧
      st.grMean =
        ((List.range (nblocks x.length blockSize).toNat).filter fun c =>
            goodFit (blockFit sqrt fitter x y ind blockSize c)).map
          (fun c => meanPoint (blockEstX sqrt x y ind blockSize c)
            (blockFit sqrt fitter x y ind blockSize c)) ∧
      st.grSigma =
        ((List.range (nblocks x.length blockSize).toNat).filter fun c =>
            goodFit (blockFit sqrt fitter x y ind blockSize c)).map
          (fun c => sigmaPoint (blockEstX sqrt x y ind blockSize c)
            (blockFit sqrt fitter x y ind blockSize c)) ∧
      st.b0 =
        ((List.range (nblocks x.length blockSize).toNat).filter fun c =>
            goodFit (blockFit sqrt fitter x y ind blockSize c)).length := by
  have hlt : ¬ x.length < 1 := by omega
  rw [fit_slices_real, if_neg hlt, blockLoop_ok_iff _ _ _ _ _ _ _ _ _ _ rfl rfl]
  simp [List.range_eq_range']

theorem blockBody_error (sqrt : α → α) (fitter : Fitter α) (x y : List α) (ind : List Nat)
    (blockSize : ℤ) (b : Nat) (st : State α) (e : Fatal)
    (h : blockBody sqrt fitter x y ind blockSize b st = .error e) :
    e = Fatal.didNotConverge := by
  cases hX : MeanSigma sqrt (blockData x y ind blockSize b).1 with
  | error e1 =>
    simp only [blockBody, hX] at h
    injection h with h
    rw [← h]
    exact MeanSigma_error sqrt _ e1 hX
  | ok mX =>
    cases hY : MeanSigma sqrt (blockData x y ind blockSize b).2 with
    | error e1 =>
      simp only [blockBody, hX, hY] at h
      injection h with h
      rw [← h]
      exact MeanSigma_error sqrt _ e1 hY
    | ok mY =>
      simp only [blockBody, hX, hY] at h
      split at h <;> exact Except.noConfusion h

theorem fit_slices_real_error (sqrt : α → α) (fitter : Fitter α) (x y : List α)
    (ind : List Nat) (blockSize : ℤ) (e : Fatal) (hL : 1 ≤ x.length)
    (h : fit_slices_real sqrt fitter x y ind blockSize = .error e) :
    e = Fatal.didNotConverge := by
  have hlt : ¬ x.length < 1 := by omega
  rw [fit_slices_real, if_neg hlt] at h
  exact blockLoop_error _ (fun b st e he => blockBody_error sqrt fitter x y ind blockSize b st e he)
    _ _ _ e h

end LoopLemmas

end DrawResultsHelper

namespace DrawMvaPars

section LoopLemmas

variable {α : Type} [LinearOrderedField α] [FloorRing α]

theorem lenient_blockBody_of_ok (sqrt : α → α) (fitter : Fitter α) (x y : List α) (ind : List Nat)
    (blockSize : ℤ) (b : Nat) (st : State α) (hok : blockOk sqrt x y ind blockSize b)
    (hm : st.grMeanVsMean.length = b) (hs : st.grSigmaVsSigma.length = b) :
    blockBody sqrt fitter x y ind blockSize b st = .ok
      { grMeanVsMean := st.grMeanVsMean ++ [meanPoint (blockEstX sqrt x y ind blockSize b)
          (blockFit sqrt fitter x y ind blockSize b)]
        grSigmaVsSigma := st.grSigmaVsSigma ++ [sigmaPoint (blockEstX sqrt x y ind blockSize b)
          (blockFit sqrt fitter x y ind blockSize b)] } := by
  obtain ⟨⟨mX, hX⟩, ⟨mY, hY⟩⟩ := hok
  simp only [blockBody, blockFit, blockEstX, hX, hY, estimate]
  have e1 := SetPoint_SetPointError_length st.grMeanVsMean mX.1
    ((fitter (blockData x y ind blockSize b).2 mY.1 mY.2).par 1) mX.2
    ((fitter (blockData x y ind blockSize b).2 mY.1 mY.2).parError 1)
  have e2 := SetPoint_SetPointError_length st.grSigmaVsSigma mX.1
    ((fitter (blockData x y ind blockSize b).2 mY.1 mY.2).par 2 /
      (fitter (blockData x y ind blockSize b).2 mY.1 mY.2).par 1) mX.2
    ((fitter (blockData x y ind blockSize b).2 mY.1 mY.2).parError 2 /
      (fitter (blockData x y ind blockSize b).2 mY.1 mY.2).par 1)
  rw [hm] at e1
  rw [hs] at e2
  rw [e1, e2]
  rfl

theorem lenient_blockBody_of_not_ok (sqrt : α → α) (fitter : Fitter α) (x y : List α)
    (ind : List Nat) (blockSize : ℤ) (b : Nat) (st : State α)
    (hok : ¬ blockOk sqrt x y ind blockSize b) :
    ∃ e, blockBody sqrt fitter x y ind blockSize b st = .error e := by
  cases hX : MeanSigma sqrt (blockData x y ind blockSize b).1 with
  | error e => exact ⟨e, by simp only [blockBody, hX]⟩
  | ok mX =>
    cases hY : MeanSigma sqrt (blockData x y ind blockSize b).2 with
    | error e => exact ⟨e, by simp only [blockBody, hX, hY]⟩
    | ok mY => exact absurd ⟨⟨mX, hX⟩, ⟨mY, hY⟩⟩ hok

theorem lenient_blockLoop_ok_iff (sqrt : α → α) (fitter : Fitter α) (x y : List α) (ind : List Nat)
    (blockSize : ℤ) (n b : Nat) (st st2 : State α)
    (hm : st.grMeanVsMean.length = b) (hs : st.grSigmaVsSigma.length = b) :
    blockLoop (blockBody sqrt fitter x y ind blockSize) n b st = .ok st2 ↔
      (∀ c, b ≤ c → c < b + n → blockOk sqrt x y ind blockSize c) ∧
      st2.grMeanVsMean = st.grMeanVsMean ++
        (List.range' b n).map
          (fun c => meanPoint (blockEstX sqrt x y ind blockSize c)
            (blockFit sqrt fitter x y ind blockSize c)) ∧
      st2.grSigmaVsSigma = st.grSigmaVsSigma ++
        (List.range' b n).map
          (fun c => sigmaPoint (blockEstX sqrt x y ind blockSize c)
            (blockFit sqrt fitter x y ind blockSize c)) := by
  induction n generalizing b st with
  | zero =>
    simp only [blockLoop, List.range'_zero, List.map_nil, List.append_nil]
    constructor
    · intro h
      injection h with h
      subst h
      exact ⟨fun c h1 h2 => absurd h2 (by omega), rfl, rfl⟩
    · rintro ⟨_, h1, h2⟩
      obtain ⟨g1, g2⟩ := st
      obtain ⟨g3, g4⟩ := st2
      simp only at h1 h2
      subst h1 h2
      rfl
  | succ n ih =>
    rw [blockLoop]
    by_cases hok : blockOk sqrt x y ind blockSize b
    · rw [lenient_blockBody_of_ok sqrt fitter x y ind blockSize b st hok hm hs]
      simp only []
      have hall : (∀ c, b ≤ c → c < b + (n + 1) → blockOk sqrt x y ind blockSize c) ↔
          (∀ c, b + 1 ≤ c → c < b + 1 + n → blockOk sqrt x y ind blockSize c) := by
        constructor
        · intro h c h1 h2
          exact h c (by omega) (by omega)
        · intro h c h1 h2
          rcases Nat.eq_or_lt_of_le h1 with he | hlt
          · subst he
            exact hok
          · exact h c (by omega) (by omega)
      rw [ih (b + 1) _ (by simp [hm]) (by simp [hs])]
      simp only [List.range'_succ, List.map_cons, List.append_assoc, List.singleton_append,
        hall]
    · obtain ⟨e, he⟩ := lenient_blockBody_of_not_ok sqrt fitter x y ind blockSize b st hok
      rw [he]
      constructor
      · intro h
        exact Except.noConfusion h
      · rintro ⟨h, _⟩
        exact absurd (h b (le_refl b) (by omega)) hok

theorem lenient_fit_slices_real_ok_iff (sqrt : α → α) (fitter : Fitter α) (x y : List α)
    (ind : List Nat) (blockSize : ℤ) (st : State α) (hL : 1 ≤ x.length) :
    fit_slices_real sqrt fitter x y ind blockSize = .ok st ↔
      (∀ c, c < (nblocks x.length blockSize).toNat → blockOk sqrt x y ind blockSize c) ∧
      st.grMeanVsMean =
        (List.range (nblocks x.length blockSize).toNat).map
          (fun c => meanPoint (blockEstX sqrt x y ind blockSize c)
            (blockFit sqrt fitter x y ind blockSize c)) ∧
      st.grSigmaVsSigma =
        (List.range (nblocks x.length blockSize).toNat).map
          (fun c => sigmaPoint (blockEstX sqrt x y ind blockSize c)
            (blockFit sqrt fitter x y ind blockSize c)) := by
  have hlt : ¬ x.length < 1 := by omega
  rw [fit_slices_real, if_neg hlt,
    lenient_blockLoop_ok_iff sqrt fitter x y ind blockSize _ 0 ⟨[], []⟩ st rfl rfl]
  simp [List.range_eq_range']

theorem lenient_blockBody_error (sqrt : α → α) (fitter : Fitter α) (x y : List α)
    (ind : List Nat) (blockSize : ℤ) (b : Nat) (st : State α) (e : Fatal)
    (h : blockBody sqrt fitter x y ind blockSize b st = .error e) :
    e = Fatal.didNotConverge := by
  cases hX : MeanSigma sqrt (blockData x y ind blockSize b).1 with
  | error e1 =>
    simp only [blockBody, hX] at h
    injection h with h
    rw [← h]
    exact MeanSigma_error sqrt _ e1 hX
  | ok mX =>
    cases hY : MeanSigma sqrt (blockData x y ind blockSize b).2 with
    | error e1 =>
      simp only [blockBody, hX, hY] at h
      injection h with h
      rw [← h]
      exact MeanSigma_error sqrt _ e1 hY
    | ok mY =>
      simp only [blockBody, hX, hY] at h
      exact Except.noConfusion h

theorem lenient_fit_slices_real_error (sqrt : α → α) (fitter : Fitter α) (x y : List α)
    (ind : List Nat) (blockSize : ℤ) (e : Fatal) (hL : 1 ≤ x.length)
    (h : fit_slices_real sqrt fitter x y ind blockSize = .error e) :
    e = Fatal.didNotConverge := by
  have hlt : ¬ x.length < 1 := by omega
  rw [fit_slices_real, if_neg hlt] at h
  exact blockLoop_error _
    (fun b st e he => lenient_blockBody_error sqrt fitter x y ind blockSize b st e he)
    _ _ _ e h

end LoopLemmas

end DrawMvaPars

section BlockOrderLemmas

variable {α : Type} [LinearOrderedField α]

theorem blocks_le_of_lt (x y : List α) (ind : List Nat) (bs c c2 : Nat)
    (hind : IsSortIndex x ind) (hcc : c < c2) :
    ∀ u ∈ (blockData x y ind (bs : ℤ) c).1, ∀ v ∈ (blockData x y ind (bs : ℤ) c2).1,
      u ≤ v := by
  intro u hu v hv
  rw [blockData_eq] at hu hv
  simp only [List.mem_map] at hu hv
  obtain ⟨k, hk, rfl⟩ := hu
  obtain ⟨k2, hk2, rfl⟩ := hv
  rw [mem_specPositions] at hk hk2
  have : (c + 1) * bs ≤ c2 * bs := Nat.mul_le_mul_right bs hcc
  exact hind.mono (by omega) hk2.2.2

theorem pairwise_map_filter_range {β : Type} (N : ℕ) (q : ℕ → Bool) (f : ℕ → β)
    (R : β → β → Prop) (h : ∀ c c2, c < c2 → c2 < N → R (f c) (f c2)) :
    (((List.range N).filter q).map f).Pairwise R := by
  rw [List.pairwise_map]
  refine List.Pairwise.sublist (List.filter_sublist _) ?_
  have hr : (List.range N).Pairwise (· < ·) := List.pairwise_lt_range N
  have hall : ∀ c ∈ List.range N, c < N := fun c hc => List.mem_range.mp hc
  exact (List.pairwise_and_iff.mpr ⟨hr, List.pairwise_of_forall_mem_list
    (r := fun _ c2 => c2 < N) (fun _ _ c2 hc2 => hall c2 hc2)⟩).imp
    (fun {c c2} hcc => h c c2 hcc.1 hcc.2)

end BlockOrderLemmas

section BlockMeanLemmas

variable {α : Type} [LinearOrderedField α] [FloorRing α]

/-- The robust means of the x-values of two blocks are ordered like the
blocks. -/
theorem blockEstX_mono (sqrt : α → α) (x y : List α) (ind : List Nat) (bs : ℕ)
    (hind : IsSortIndex x ind) (c c2 : ℕ) (hcc : c < c2)
    (hok : blockOk sqrt x y ind (bs : ℤ) c) (hok2 : blockOk sqrt x y ind (bs : ℤ) c2) :
    (blockEstX sqrt x y ind (bs : ℤ) c).1 ≤ (blockEstX sqrt x y ind (bs : ℤ) c2).1 := by
  obtain ⟨⟨mX, hX⟩, _⟩ := hok
  obtain ⟨⟨mX2, hX2⟩, _⟩ := hok2
  have hle := blocks_le_of_lt x y ind bs c c2 hind hcc
  simp only [blockEstX, hX, hX2, estimate]
  apply le_MeanSigma_mean sqrt _ mX2 hX2
  intro v hv
  apply MeanSigma_mean_le sqrt _ mX hX
  intro u hu
  exact hle u hu v hv

end BlockMeanLemmas

section Examples

theorem fmul32_one : fmul32 (1 : ℝ) 1 = some (1 * 1) :=
  fmul32_exact 1 1 0 8388608 (by norm_num) (by norm_num) (by norm_num) (by norm_num)
    (by norm_num) (by norm_num)

theorem fmul32_two : fmul32 (2 : ℝ) 2 = some (2 * 2) :=
  fmul32_exact 2 2 2 8388608 (by norm_num) (by norm_num) (by norm_num) (by norm_num)
    (by norm_num) (by norm_num)

theorem fmul32_three : fmul32 (3 : ℝ) 3 = some (3 * 3) :=
  fmul32_exact 3 3 3 9437184 (by norm_num) (by norm_num) (by norm_num) (by norm_num)
    (by norm_num) (by norm_num)

/-- A one-element sample holding `1`, `2` or `3`. -/
theorem MeanSigma_small (c : ℝ) (hc : c = 1 ∨ c = 2 ∨ c = 3) :
    MeanSigma Real.sqrt [c] = .ok (c, 0) := by
  rcases hc with rfl | rfl | rfl
  · exact MeanSigma_singleton Real.sqrt Real.sqrt_zero 1 fmul32_one
  · exact MeanSigma_singleton Real.sqrt Real.sqrt_zero 2 fmul32_two
  · exact MeanSigma_singleton Real.sqrt Real.sqrt_zero 3 fmul32_three

theorem example_values (c : ℕ) (hc : c < 3) :
    (([1, 2, 3] : List ℝ).getD c 0 = 1 ∨ ([1, 2, 3] : List ℝ).getD c 0 = 2 ∨
      ([1, 2, 3] : List ℝ).getD c 0 = 3) ∧
    (([1, 3, 1] : List ℝ).getD c 0 = 1 ∨ ([1, 3, 1] : List ℝ).getD c 0 = 2 ∨
      ([1, 3, 1] : List ℝ).getD c 0 = 3) := by
  interval_cases c <;> simp

/-- Worked example: three pairs, block size 1. Each block is one pair; the
block with `y = 3` is rejected by the test on the relative errors. -/
theorem example_blocks (c : ℕ) (hc : c < 3) :
    blockData ([1, 2, 3] : List ℝ) [1, 3, 1] [0, 1, 2] 1 c =
      ([([1, 2, 3] : List ℝ).getD c 0], [([1, 3, 1] : List ℝ).getD c 0]) := by
  interval_cases c <;> rfl

theorem example_blockOk (c : ℕ) (hc : c < 3) :
    blockOk Real.sqrt ([1, 2, 3] : List ℝ) [1, 3, 1] [0, 1, 2] 1 c := by
  rw [blockOk, example_blocks c hc]
  exact ⟨⟨_, MeanSigma_small _ (example_values c hc).1⟩,
    ⟨_, MeanSigma_small _ (example_values c hc).2⟩⟩

theorem example_blockEstX (c : ℕ) (hc : c < 3) :
    blockEstX Real.sqrt ([1, 2, 3] : List ℝ) [1, 3, 1] [0, 1, 2] 1 c =
      (([1, 2, 3] : List ℝ).getD c 0, 0) := by
  rw [blockEstX, example_blocks c hc, MeanSigma_small _ (example_values c hc).1]
  rfl

theorem example_blockFit (c : ℕ) (hc : c < 3) :
    blockFit Real.sqrt exampleFitter ([1, 2, 3] : List ℝ) [1, 3, 1] [0, 1, 2] 1 c =
      ⟨fun _ => 1, fun _ => if ([1, 3, 1] : List ℝ).getD c 0 < 2 then 0.1 else 0.2, 0⟩ := by
  rw [blockFit, example_blocks c hc, MeanSigma_small _ (example_values c hc).2]
  rfl

theorem example_nblocks : (nblocks ([1, 2, 3] : List ℝ).length 1).toNat = 3 := by
  have := nblocks_toNat 3 1 (by norm_num) (by norm_num)
  simpa using this

theorem example_goodFit :
    goodFit (blockFit Real.sqrt exampleFitter ([1, 2, 3] : List ℝ) [1, 3, 1] [0, 1, 2] 1 0)
      = true ∧
    goodFit (blockFit Real.sqrt exampleFitter ([1, 2, 3] : List ℝ) [1, 3, 1] [0, 1, 2] 1 1)
      = false ∧
    goodFit (blockFit Real.sqrt exampleFitter ([1, 2, 3] : List ℝ) [1, 3, 1] [0, 1, 2] 1 2)
      = true := by
  rw [example_blockFit 0 (by norm_num), example_blockFit 1 (by norm_num),
    example_blockFit 2 (by norm_num)]
  refine ⟨?_, ?_, ?_⟩ <;> simp [goodFit, quotientLt] <;> norm_num

theorem example_meanPoints :
    meanPoint (blockEstX Real.sqrt ([1, 2, 3] : List ℝ) [1, 3, 1] [0, 1, 2] 1 0)
      (blockFit Real.sqrt exampleFitter ([1, 2, 3] : List ℝ) [1, 3, 1] [0, 1, 2] 1 0)
      = ⟨1, 1, 0, 0.1⟩ ∧
    meanPoint (blockEstX Real.sqrt ([1, 2, 3] : List ℝ) [1, 3, 1] [0, 1, 2] 1 1)
      (blockFit Real.sqrt exampleFitter ([1, 2, 3] : List ℝ) [1, 3, 1] [0, 1, 2] 1 1)
      = ⟨2, 1, 0, 0.2⟩ ∧
    meanPoint (blockEstX Real.sqrt ([1, 2, 3] : List ℝ) [1, 3, 1] [0, 1, 2] 1 2)
      (blockFit Real.sqrt exampleFitter ([1, 2, 3] : List ℝ) [1, 3, 1] [0, 1, 2] 1 2)
      = ⟨3, 1, 0, 0.1⟩ := by
  rw [example_blockFit 0 (by norm_num), example_blockFit 1 (by norm_num),
    example_blockFit 2 (by norm_num), example_blockEstX 0 (by norm_num),
    example_blockEstX 1 (by norm_num), example_blockEstX 2 (by norm_num)]
  refine ⟨?_, ?_, ?_⟩ <;> norm_num [meanPoint]

theorem example_sigmaPoints :
    sigmaPoint (blockEstX Real.sqrt ([1, 2, 3] : List ℝ) [1, 3, 1] [0, 1, 2] 1 0)
      (blockFit Real.sqrt exampleFitter ([1, 2, 3] : List ℝ) [1, 3, 1] [0, 1, 2] 1 0)
      = ⟨1, 1 / 1, 0, 0.1 / 1⟩ ∧
    sigmaPoint (blockEstX Real.sqrt ([1, 2, 3] : List ℝ) [1, 3, 1] [0, 1, 2] 1 1)
      (blockFit Real.sqrt exampleFitter ([1, 2, 3] : List ℝ) [1, 3, 1] [0, 1, 2] 1 1)
      = ⟨2, 1 / 1, 0, 0.2 / 1⟩ ∧
    sigmaPoint (blockEstX Real.sqrt ([1, 2, 3] : List ℝ) [1, 3, 1] [0, 1, 2] 1 2)
      (blockFit Real.sqrt exampleFitter ([1, 2, 3] : List ℝ) [1, 3, 1] [0, 1, 2] 1 2)
      = ⟨3, 1 / 1, 0, 0.1 / 1⟩ := by
  rw [example_blockFit 0 (by norm_num), example_blockFit 1 (by norm_num),
    example_blockFit 2 (by norm_num), example_blockEstX 0 (by norm_num),
    example_blockEstX 1 (by norm_num), example_blockEstX 2 (by norm_num)]
  refine ⟨?_, ?_, ?_⟩ <;> norm_num [sigmaPoint]

theorem strict_example_run :
    DrawResultsHelper.fit_slices_real Real.sqrt exampleFitter
        ([1, 2, 3] : List ℝ) [1, 3, 1] [0, 1, 2] 1 =
      .ok ⟨[⟨1, 1, 0, 0.1⟩, ⟨3, 1, 0, 0.1⟩], [⟨1, 1 / 1, 0, 0.1 / 1⟩, ⟨3, 1 / 1, 0, 0.1 / 1⟩], 2⟩ := by
  rw [DrawResultsHelper.fit_slices_real_ok_iff _ _ _ _ _ _ _ (by simp), example_nblocks]
  have hr : List.range 3 = [0, 1, 2] := rfl
  obtain ⟨g0, g1, g2⟩ := example_goodFit
  obtain ⟨m0, _, m2⟩ := example_meanPoints
  obtain ⟨s0, _, s2⟩ := example_sigmaPoints
  refine ⟨fun c hc => example_blockOk c hc, ?_, ?_, ?_⟩
  · simp only [hr, List.filter_cons, List.filter_nil, g0, g1, g2, if_true, if_false,
      Bool.false_eq_true, List.map_cons, List.map_nil, m0, m2]
  · simp only [hr, List.filter_cons, List.filter_nil, g0, g1, g2, if_true, if_false,
      Bool.false_eq_true, List.map_cons, List.map_nil, s0, s2]
  · simp only [hr, List.filter_cons, List.filter_nil, g0, g1, g2, if_true, if_false,
      Bool.false_eq_true, List.length_cons, List.length_nil]

theorem lenient_example_run :
    DrawMvaPars.fit_slices_real Real.sqrt exampleFitter
        ([1, 2, 3] : List ℝ) [1, 3, 1] [0, 1, 2] 1 =
      .ok ⟨[⟨1, 1, 0, 0.1⟩, ⟨2, 1, 0, 0.2⟩, ⟨3, 1, 0, 0.1⟩],
        [⟨1, 1 / 1, 0, 0.1 / 1⟩, ⟨2, 1 / 1, 0, 0.2 / 1⟩, ⟨3, 1 / 1, 0, 0.1 / 1⟩]⟩ := by
  rw [DrawMvaPars.lenient_fit_slices_real_ok_iff _ _ _ _ _ _ _ (by simp), example_nblocks]
  have hr : List.range 3 = [0, 1, 2] := rfl
  obtain ⟨m0, m1, m2⟩ := example_meanPoints
  obtain ⟨s0, s1, s2⟩ := example_sigmaPoints
  refine ⟨fun c hc => example_blockOk c hc, ?_, ?_⟩
  · simp only [hr, List.map_cons, List.map_nil, m0, m1, m2]
  · simp only [hr, List.map_cons, List.map_nil, s0, s1, s2]

theorem example_sortIndex : IsSortIndex ([1, 2, 3] : List ℝ) [0, 1, 2] := by
  refine ⟨List.Perm.refl _, ?_⟩
  simp
  norm_num

theorem MeanSigma_one_three : MeanSigma Real.sqrt ([1, 3] : List ℝ) = .ok (2, 1) := by
  have hst : stats Real.sqrt ([1, 3] : List ℝ) = (some 2, some 1) := by
    simp only [stats, sumProducts, List.foldl_cons, List.foldl_nil, fmul32_one, fmul32_three,
      addProduct, List.sum_cons, List.sum_nil, List.length_cons, List.length_nil, finish]
    norm_num
  have hw : codeWindow ([1, 3] : List ℝ) (some 2, some 1) = [1, 3] := by
    simp [codeWindow, windowBounds, outside]
    norm_num
  have h1 : codeIterate Real.sqrt ([1, 3] : List ℝ) 1 = (some 2, some 1) := by
    rw [codeIterate_succ, codeIterate_zero, hst, hw, hst]
  rw [MeanSigma_ok_iff_codeTol]
  refine ⟨1, le_refl 1, by norm_num, ?_, fun j hj1 hj2 => absurd hj2 (by omega), ?_⟩
  · rw [codeTol, h1, codeIterate_zero, hst]
    simp [converged]
    norm_num
  · rw [h1]
    rfl

end Examples

section PeakShapeLemmas

theorem rpow_mul_rpow_neg_of_pos (b n : ℝ) (hb : 0 < b) :
    Real.rpow b n * Real.rpow b (-n) = 1 := by
  show b ^ n * b ^ (-n) = 1
  rw [← Real.rpow_add hb, add_neg_cancel, Real.rpow_zero]

theorem rpow_two_eq (v : ℝ) : Real.rpow v 2 = v ^ 2 := by
  show v ^ (2 : ℝ) = v ^ 2
  exact Real.rpow_two v

/-- At `z = -alphaL` the left-tail branch has the value `exp(-alphaL^2/2)`
when `n / alphaL` is positive. -/
theorem leftBranch_at_join (p : ℕ → ℝ) (x : ℝ) (hz : (x - p 1) / p 2 = -(p 3))
    (hpos : 0 < p 4 / p 3) :
    leftBranch Real.exp Real.rpow p x = Real.exp (-(p 3 ^ 2) / 2) := by
  have hz2 : -(x - p 1) / p 2 = p 3 := by rw [neg_div, hz, neg_neg]
  have hb : -(x - p 1) / p 2 - p 3 + p 4 / p 3 = p 4 / p 3 := by rw [hz2]; ring
  have he : (-0.5 : ℝ) * p 3 ^ 2 = -(p 3 ^ 2) / 2 := by ring
  rw [leftBranch, hb, rpow_two_eq, he, mul_right_comm, rpow_mul_rpow_neg_of_pos _ _ hpos, one_mul]

theorem coreBranch_eq (p : ℕ → ℝ) (x : ℝ) :
    coreBranch Real.exp Real.rpow p x = Real.exp (-(((x - p 1) / p 2) ^ 2) / 2) := by
  have h : -((x - p 1) ^ 2) / (2 * p 2 * p 2) = -(((x - p 1) / p 2) ^ 2) / 2 := by
    rw [div_pow, neg_div, neg_div, div_div]
    congr 2
    ring
  rw [coreBranch, rpow_two_eq, h]

theorem rightBranch_eq (p : ℕ → ℝ) (x : ℝ) :
    rightBranch Real.exp p x = Real.exp (p 5 ^ 2 / 2 - p 5 * ((x - p 1) / p 2)) := by
  rw [rightBranch]
  congr 1
  ring

theorem leftBranch_eq (p : ℕ → ℝ) (x : ℝ) :
    leftBranch Real.exp Real.rpow p x =
      Real.rpow (p 4 / p 3) (p 4) * Real.exp (-(p 3 ^ 2) / 2) *
        Real.rpow (-((x - p 1) / p 2) - p 3 + p 4 / p 3) (-(p 4)) := by
  have he : (-0.5 : ℝ) * p 3 ^ 2 = -(p 3 ^ 2) / 2 := by ring
  have hz : -(x - p 1) / p 2 = -((x - p 1) / p 2) := neg_div _ _
  rw [leftBranch, rpow_two_eq, he, hz]

end PeakShapeLemmas

section RunLemmas

variable {α : Type} [LinearOrderedField α]

theorem position_mem_own_block {L bs pos : ℕ} (hbs : 0 < bs) (hpos : pos < L) :
    pos ∈ specPositions L bs (pos / bs) := by
  rw [mem_specPositions]
  refine ⟨Nat.div_mul_le_self pos bs, ?_, hpos⟩
  have h1 := Nat.div_add_mod pos bs
  have h2 := Nat.mod_lt pos hbs
  rw [Nat.add_mul, one_mul, Nat.mul_comm]
  omega

theorem exists_position_of_index {x : List α} {ind : List Nat} (hind : IsSortIndex x ind)
    {j : ℕ} (hj : j < x.length) : ∃ pos, pos < x.length ∧ ind.getD pos 0 = j := by
  have hjm : j ∈ ind := hind.1.symm.subset (List.mem_range.mpr hj)
  obtain ⟨pos, hpos, rfl⟩ := List.getElem_of_mem hjm
  exact ⟨pos, by rw [← hind.length_eq]; exact hpos, List.getD_eq_getElem ind 0 hpos⟩

end RunLemmas

section PointAtLemmas

variable {α : Type} [LinearOrderedField α] [FloorRing α]

theorem strict_point_at (sqrt : α → α) (fitter : Fitter α) (x y : List α) (ind : List Nat)
    (blockSize : ℤ) (hL : 1 ≤ x.length) (st : DrawResultsHelper.State α)
    (hst : DrawResultsHelper.fit_slices_real sqrt fitter x y ind blockSize = .ok st)
    (i : ℕ) (hi : i < st.grMean.length) :
    ∃ (b : ℕ) (mX mY : α × α), (b : ℤ) < nblocks x.length blockSize ∧
      MeanSigma sqrt (blockData x y ind blockSize b).1 = .ok mX ∧
      MeanSigma sqrt (blockData x y ind blockSize b).2 = .ok mY ∧
      st.grMean[i]? = some
        ⟨mX.1, (fitter (blockData x y ind blockSize b).2 mY.1 mY.2).par 1,
         mX.2, (fitter (blockData x y ind blockSize b).2 mY.1 mY.2).parError 1⟩ ∧
      st.grSigma[i]? = some
        ⟨mX.1, (fitter (blockData x y ind blockSize b).2 mY.1 mY.2).par 2 /
            (fitter (blockData x y ind blockSize b).2 mY.1 mY.2).par 1,
         mX.2, (fitter (blockData x y ind blockSize b).2 mY.1 mY.2).parError 2 /
            (fitter (blockData x y ind blockSize b).2 mY.1 mY.2).par 1⟩ := by
  obtain ⟨hok, hM, hS, _⟩ :=
    (DrawResultsHelper.fit_slices_real_ok_iff sqrt fitter x y ind blockSize st hL).mp hst
  rw [hM, List.length_map] at hi
  have hb : ((List.range (nblocks x.length blockSize).toNat).filter fun c =>
      goodFit (blockFit sqrt fitter x y ind blockSize c))[i] ∈
      (List.range (nblocks x.length blockSize).toNat).filter fun c =>
        goodFit (blockFit sqrt fitter x y ind blockSize c) := List.getElem_mem hi
  have hbN := List.mem_range.mp (List.mem_filter.mp hb).1
  obtain ⟨⟨mX, hX⟩, ⟨mY, hY⟩⟩ := hok _ hbN
  refine ⟨_, mX, mY, Int.lt_toNat.mp hbN, hX, hY, ?_, ?_⟩
  · rw [hM, List.getElem?_map, List.getElem?_eq_getElem hi, Option.map_some',
      meanPoint_of_ok sqrt fitter x y ind blockSize _ mX mY hX hY]
  · rw [hS, List.getElem?_map, List.getElem?_eq_getElem hi, Option.map_some',
      sigmaPoint_of_ok sqrt fitter x y ind blockSize _ mX mY hX hY]

theorem lenient_point_at (sqrt : α → α) (fitter : Fitter α) (x y : List α) (ind : List Nat)
    (blockSize : ℤ) (hL : 1 ≤ x.length) (st : DrawMvaPars.State α)
    (hst : DrawMvaPars.fit_slices_real sqrt fitter x y ind blockSize = .ok st)
    (i : ℕ) (hi : i < st.grMeanVsMean.length) :
    ∃ (mX mY : α × α), (i : ℤ) < nblocks x.length blockSize ∧
      MeanSigma sqrt (blockData x y ind blockSize i).1 = .ok mX ∧
      MeanSigma sqrt (blockData x y ind blockSize i).2 = .ok mY ∧
      st.grMeanVsMean[i]? = some
        ⟨mX.1, (fitter (blockData x y ind blockSize i).2 mY.1 mY.2).par 1,
         mX.2, (fitter (blockData x y ind blockSize i).2 mY.1 mY.2).parError 1⟩ ∧
      st.grSigmaVsSigma[i]? = some
        ⟨mX.1, (fitter (blockData x y ind blockSize i).2 mY.1 mY.2).par 2 /
            (fitter (blockData x y ind blockSize i).2 mY.1 mY.2).par 1,
         mX.2, (fitter (blockData x y ind blockSize i).2 mY.1 mY.2).parError 2 /
            (fitter (blockData x y ind blockSize i).2 mY.1 mY.2).par 1⟩ := by
  obtain ⟨hok, hM, hS⟩ :=
    (DrawMvaPars.lenient_fit_slices_real_ok_iff sqrt fitter x y ind blockSize st hL).mp hst
  rw [hM, List.length_map, List.length_range] at hi
  obtain ⟨⟨mX, hX⟩, ⟨mY, hY⟩⟩ := hok i hi
  have hr : (List.range (nblocks x.length blockSize).toNat)[i]? = some i :=
    List.getElem?_range hi
  refine ⟨mX, mY, Int.lt_toNat.mp hi, hX, hY, ?_, ?_⟩
  · rw [hM, List.getElem?_map, hr, Option.map_some',
      meanPoint_of_ok sqrt fitter x y ind blockSize _ mX mY hX hY]
  · rw [hS, List.getElem?_map, hr, Option.map_some',
      sigmaPoint_of_ok sqrt fitter x y ind blockSize _ mX mY hX hY]

end PointAtLemmas

section RunExamples

/-- Worked example: one pair, block size 1, the fit reporting position 2 with
error 0.2. -/
theorem lenient_example2_run :
    DrawMvaPars.fit_slices_real Real.sqrt exampleFitter2 ([1] : List ℝ) [1] [0] 1 =
      .ok ⟨[⟨1, 2, 0, 0.2⟩], [⟨1, 2 / 2, 0, 0.2 / 2⟩]⟩ := by
  have hb : blockData ([1] : List ℝ) [1] [0] 1 0 = ([1], [1]) := rfl
  have hn : (nblocks ([1] : List ℝ).length 1).toNat = 1 := by
    have := nblocks_toNat 1 1 (by norm_num) (by norm_num)
    simpa using this
  have hok : blockOk Real.sqrt ([1] : List ℝ) [1] [0] 1 0 := by
    rw [blockOk, hb]
    exact ⟨⟨_, MeanSigma_singleton Real.sqrt Real.sqrt_zero 1 fmul32_one⟩,
      ⟨_, MeanSigma_singleton Real.sqrt Real.sqrt_zero 1 fmul32_one⟩⟩
  have hX : blockEstX Real.sqrt ([1] : List ℝ) [1] [0] 1 0 = (1, 0) := by
    rw [blockEstX, hb, MeanSigma_singleton Real.sqrt Real.sqrt_zero 1 fmul32_one]
    rfl
  rw [DrawMvaPars.lenient_fit_slices_real_ok_iff _ _ _ _ _ _ _ (by simp), hn]
  have hr : List.range 1 = [0] := rfl
  refine ⟨fun c hc => by rw [Nat.lt_one_iff.mp hc]; exact hok, ?_, ?_⟩
  · simp only [hr, List.map_cons, List.map_nil, hX, meanPoint, blockFit, exampleFitter2]
  · simp only [hr, List.map_cons, List.map_nil, hX, sigmaPoint, blockFit, exampleFitter2]

end RunExamples

section PermutationLemmas

variable {α : Type} [LinearOrderedField α]

theorem map_getD_range {β : Type} (l : List β) (d : β) :
    (List.range l.length).map (fun j => l.getD j d) = l := by
  apply List.ext_getElem
  · simp
  · intro n h1 h2
    simp only [List.getElem_map, List.getElem_range]
    exact List.getD_eq_getElem l d h2

theorem getD_map_fst (ps : List (α × α)) (j : ℕ) :
    (ps.map Prod.fst).getD j 0 = (ps.getD j (0, 0)).1 := by
  have := List.getD_map (l := ps) (d := ((0 : α), (0 : α))) (n := j) Prod.fst
  simpa using this

theorem getD_map_snd (ps : List (α × α)) (j : ℕ) :
    (ps.map Prod.snd).getD j 0 = (ps.getD j (0, 0)).2 := by
  have := List.getD_map (l := ps) (d := ((0 : α), (0 : α))) (n := j) Prod.snd
  simpa using this

/-- The pairs in sorted order are a permutation of the pairs. -/
theorem sortedPairs_perm (ps : List (α × α)) (ind : List Nat)
    (hind : IsSortIndex (ps.map Prod.fst) ind) :
    (ind.map fun j => ps.getD j (0, 0)).Perm ps := by
  have h := hind.1.map (fun j => ps.getD j ((0 : α), (0 : α)))
  rw [List.length_map, map_getD_range] at h
  exact h

/-- With pairwise distinct x the pairs in sorted order are strictly
increasing in x. -/
theorem sortedPairs_strict (ps : List (α × α)) (ind : List Nat)
    (hnd : (ps.map Prod.fst).Nodup) (hind : IsSortIndex (ps.map Prod.fst) ind) :
    (ind.map fun j => ps.getD j (0, 0)).Pairwise (fun p q => p.1 < q.1) := by
  have hle : ((ind.map fun j => ps.getD j ((0 : α), (0 : α))).map Prod.fst).Pairwise
      (· ≤ ·) := by
    have h2 := hind.2
    rw [List.map_map]
    refine (List.map_congr_left ?_) ▸ h2
    intro j _
    exact getD_map_fst ps j
  have hnd2 : ((ind.map fun j => ps.getD j ((0 : α), (0 : α))).map Prod.fst).Nodup :=
    (((sortedPairs_perm ps ind hind).map Prod.fst).nodup_iff).mpr hnd
  have hlt : ((ind.map fun j => ps.getD j ((0 : α), (0 : α))).map Prod.fst).Pairwise
      (· < ·) := List.Sorted.lt_of_le hle hnd2
  exact List.pairwise_map.mp hlt

theorem sortedPairs_unique (ps ps2 : List (α × α)) (ind ind2 : List Nat)
    (hperm : ps2.Perm ps) (hnd : (ps.map Prod.fst).Nodup)
    (hind : IsSortIndex (ps.map Prod.fst) ind)
    (hind2 : IsSortIndex (ps2.map Prod.fst) ind2) :
    (ind2.map fun j => ps2.getD j (0, 0)) = ind.map fun j => ps.getD j (0, 0) := by
  haveI : IsAntisymm (α × α) (fun p q => p.1 < q.1) :=
    ⟨fun _ _ h1 h2 => absurd h1 (lt_asymm h2)⟩
  have hnd2 : (ps2.map Prod.fst).Nodup := ((hperm.map Prod.fst).nodup_iff).mpr hnd
  exact List.eq_of_perm_of_sorted
    (((sortedPairs_perm ps2 ind2 hind2).trans hperm).trans (sortedPairs_perm ps ind hind).symm)
    (sortedPairs_strict ps2 ind2 hnd2 hind2) (sortedPairs_strict ps ind hnd hind)

theorem blockData_eq_sortedPairs (ps : List (α × α)) (ind : List Nat) (bs b : ℕ)
    (hind : IsSortIndex (ps.map Prod.fst) ind) :
    blockData (ps.map Prod.fst) (ps.map Prod.snd) ind (bs : ℤ) b =
      ((specPositions ps.length bs b).map
          fun k => ((ind.map fun j => ps.getD j (0, 0)).getD k (0, 0)).1,
       (specPositions ps.length bs b).map
          fun k => ((ind.map fun j => ps.getD j (0, 0)).getD k (0, 0)).2) := by
  have hl : ind.length = ps.length := by rw [hind.length_eq, List.length_map]
  have hk : ∀ k ∈ specPositions ps.length bs b,
      (ind.map fun j => ps.getD j ((0 : α), (0 : α))).getD k (0, 0) =
        ps.getD (ind.getD k 0) (0, 0) := by
    intro k hk
    have hkl : k < ind.length := by rw [hl]; exact (mem_specPositions.mp hk).2.2
    rw [List.getD_eq_getElem _ _ (by rw [List.length_map]; exact hkl), List.getElem_map,
      List.getD_eq_getElem ind 0 hkl]
  rw [blockData_eq, List.length_map]
  congr 1
  · apply List.map_congr_left
    intro k hkm
    rw [hk k hkm, getD_map_fst]
  · apply List.map_congr_left
    intro k hkm
    rw [hk k hkm, getD_map_snd]

theorem blockData_toNat (x y : List α) (ind : List Nat) (blockSize : ℤ) (b : ℕ) :
    blockData x y ind blockSize b = blockData x y ind ((blockSize.toNat : ℕ) : ℤ) b := by
  simp only [blockData, Int.toNat_natCast]

theorem perm_range_two (ind : List ℕ) (h : ind.Perm (List.range 2)) :
    ind = [0, 1] ∨ ind = [1, 0] := by
  have hl := h.length_eq
  simp at hl
  rcases ind with _ | ⟨a, _ | ⟨b, _ | _⟩⟩ <;> simp at hl
  have ha : a ∈ List.range 2 := h.subset (by simp)
  have hb : b ∈ List.range 2 := h.subset (by simp)
  have hnd : [a, b].Nodup := h.nodup_iff.mpr (List.nodup_range 2)
  simp at ha hb hnd
  interval_cases a <;> interval_cases b <;> simp_all

end PermutationLemmas

section FitLemmas

variable {α : Type} [LinearOrderedField α]

theorem parStatus_limited (f : TF1 α) (i : ℕ) (lo hi : α) (h1 : f.parMin i = lo)
    (h2 : f.parMax i = hi) (hlt : lo < hi) : parStatus f i = ParStatus.limited lo hi := by
  have hn : ¬ (f.parMin i * f.parMax i ≠ 0 ∧ f.parMin i ≥ f.parMax i) := by
    rw [h1, h2]
    exact fun h => absurd hlt (not_lt.mpr h.2)
  rw [parStatus, if_neg hn, h1, h2, if_pos hlt]

theorem parStatus_fixed (f : TF1 α) (i : ℕ) (v : α) (h1 : f.parMin i = v)
    (h2 : f.parMax i = v) (hv : v ≠ 0) : parStatus f i = ParStatus.fixed := by
  have hp : f.parMin i * f.parMax i ≠ 0 ∧ f.parMin i ≥ f.parMax i := by
    rw [h1, h2]
    exact ⟨mul_ne_zero hv hv, le_refl v⟩
  rw [parStatus, if_pos hp]

theorem parStatus_free (f : TF1 α) (i : ℕ) (h1 : f.parMin i = 0) (h2 : f.parMax i = 0) :
    parStatus f i = ParStatus.free := by
  have hn : ¬ (f.parMin i * f.parMax i ≠ 0 ∧ f.parMin i ≥ f.parMax i) := by
    rw [h1, h2]
    simp
  have hn2 : ¬ (f.parMin i < f.parMax i) := by
    rw [h1, h2]
    exact lt_irrefl 0
  rw [parStatus, if_neg hn, if_neg hn2]

/-- Limits and fixed values at the first `Fit` call of the strict variant. -/
theorem fitSetup1_limits (hmax meanY sigmaY : α) :
    ((DrawResultsHelper.fitSetup1 hmax meanY sigmaY).parMin 0 = 0.33 * hmax ∧
     (DrawResultsHelper.fitSetup1 hmax meanY sigmaY).parMax 0 = 2 * hmax) ∧
    ((DrawResultsHelper.fitSetup1 hmax meanY sigmaY).parMin 1 = meanY - sigmaY ∧
     (DrawResultsHelper.fitSetup1 hmax meanY sigmaY).parMax 1 = meanY + sigmaY) ∧
    ((DrawResultsHelper.fitSetup1 hmax meanY sigmaY).parMin 2 = 0.1 * sigmaY ∧
     (DrawResultsHelper.fitSetup1 hmax meanY sigmaY).parMax 2 = 1.1 * sigmaY) ∧
    ((DrawResultsHelper.fitSetup1 hmax meanY sigmaY).parMin 3 = 1.5 ∧
     (DrawResultsHelper.fitSetup1 hmax meanY sigmaY).parMax 3 = 1.5 ∧
     (DrawResultsHelper.fitSetup1 hmax meanY sigmaY).par 3 = 1.5) ∧
    ((DrawResultsHelper.fitSetup1 hmax meanY sigmaY).parMin 4 = 5 ∧
     (DrawResultsHelper.fitSetup1 hmax meanY sigmaY).parMax 4 = 5 ∧
     (DrawResultsHelper.fitSetup1 hmax meanY sigmaY).par 4 = 5) ∧
    ((DrawResultsHelper.fitSetup1 hmax meanY sigmaY).parMin 5 = 1.5 ∧
     (DrawResultsHelper.fitSetup1 hmax meanY sigmaY).parMax 5 = 1.5 ∧
     (DrawResultsHelper.fitSetup1 hmax meanY sigmaY).par 5 = 1.5) := by
  have h15 : (1.5 : α) ≠ 0 := by norm_num
  have h5 : (5 : α) ≠ 0 := by norm_num
  simp [DrawResultsHelper.fitSetup1, FixParameter, SetParLimits, SetParameters, SetParameter,
    newTF1, Function.update, h15, h5]

/-- Limits at the second `Fit` call of the strict variant. -/
theorem fitSetup2_limits (f : TF1 α) :
    ((DrawResultsHelper.fitSetup2 f).parMin 0 = f.parMin 0 ∧
     (DrawResultsHelper.fitSetup2 f).parMax 0 = f.parMax 0) ∧
    ((DrawResultsHelper.fitSetup2 f).parMin 1 = f.parMin 1 ∧
     (DrawResultsHelper.fitSetup2 f).parMax 1 = f.parMax 1) ∧
    ((DrawResultsHelper.fitSetup2 f).parMin 2 = f.parMin 2 ∧
     (DrawResultsHelper.fitSetup2 f).parMax 2 = f.parMax 2) ∧
    ((DrawResultsHelper.fitSetup2 f).parMin 3 = 0.4 ∧
     (DrawResultsHelper.fitSetup2 f).parMax 3 = 10) ∧
    ((DrawResultsHelper.fitSetup2 f).parMin 4 = 1.01 ∧
     (DrawResultsHelper.fitSetup2 f).parMax 4 = 100) ∧
    ((DrawResultsHelper.fitSetup2 f).parMin 5 = 0.4 ∧
     (DrawResultsHelper.fitSetup2 f).parMax 5 = 10) := by
  simp [DrawResultsHelper.fitSetup2, SetParLimits, Function.update]

/-- Limits at the third `Fit` call of the strict variant. -/
theorem fitSetup3_limits (sigmaY : α) (f : TF1 α) :
    ((DrawResultsHelper.fitSetup3 sigmaY f).parMin 0 = 0 ∧
     (DrawResultsHelper.fitSetup3 sigmaY f).parMax 0 = 0) ∧
    ((DrawResultsHelper.fitSetup3 sigmaY f).parMin 1 = 0.65 ∧
     (DrawResultsHelper.fitSetup3 sigmaY f).parMax 1 = 1.2) ∧
    ((DrawResultsHelper.fitSetup3 sigmaY f).parMin 2 = 0 ∧
     (DrawResultsHelper.fitSetup3 sigmaY f).parMax 2 = 1.1 * sigmaY) ∧
    ((DrawResultsHelper.fitSetup3 sigmaY f).parMin 3 = 0 ∧
     (DrawResultsHelper.fitSetup3 sigmaY f).parMax 3 = 0) ∧
    ((DrawResultsHelper.fitSetup3 sigmaY f).parMin 4 = 0 ∧
     (DrawResultsHelper.fitSetup3 sigmaY f).parMax 4 = 0) ∧
    ((DrawResultsHelper.fitSetup3 sigmaY f).parMin 5 = 0 ∧
     (DrawResultsHelper.fitSetup3 sigmaY f).parMax 5 = 0) := by
  simp [DrawResultsHelper.fitSetup3, ReleaseParameter, SetParLimits, Function.update]

/-- Limits at the `Fit` calls of the lenient variant. -/
theorem lenient_fitSetup_limits (hmax meanY sigmaY : α) :
    ((DrawMvaPars.fitSetup hmax meanY sigmaY).parMin 0 = 0.33 * hmax ∧
     (DrawMvaPars.fitSetup hmax meanY sigmaY).parMax 0 = 3 * hmax) ∧
    ((DrawMvaPars.fitSetup hmax meanY sigmaY).parMin 1 = 0.65 ∧
     (DrawMvaPars.fitSetup hmax meanY sigmaY).parMax 1 = 1.2) ∧
    ((DrawMvaPars.fitSetup hmax meanY sigmaY).parMin 2 = 0.33 * sigmaY ∧
     (DrawMvaPars.fitSetup hmax meanY sigmaY).parMax 2 = 1.5 * sigmaY) ∧
    ((DrawMvaPars.fitSetup hmax meanY sigmaY).parMin 3 = 0 ∧
     (DrawMvaPars.fitSetup hmax meanY sigmaY).parMax 3 = 10) ∧
    ((DrawMvaPars.fitSetup hmax meanY sigmaY).parMin 4 = 1.01 ∧
     (DrawMvaPars.fitSetup hmax meanY sigmaY).parMax 4 = 100) ∧
    ((DrawMvaPars.fitSetup hmax meanY sigmaY).parMin 5 = 0 ∧
     (DrawMvaPars.fitSetup hmax meanY sigmaY).parMax 5 = 10) := by
  simp [DrawMvaPars.fitSetup, SetParLimits, SetParameters, SetParameter, newTF1,
    Function.update]

theorem parStatus_eq_fixed_iff (f : TF1 α) (i : ℕ) :
    parStatus f i = ParStatus.fixed ↔
      f.parMin i * f.parMax i ≠ 0 ∧ f.parMin i ≥ f.parMax i := by
  unfold parStatus
  split_ifs with h1 h2
  · exact ⟨fun _ => h1, fun _ => rfl⟩
  · exact ⟨fun h => (by cases h), fun h => absurd h h1⟩
  · exact ⟨fun h => (by cases h), fun h => absurd h h1⟩

theorem parStatus_ne_fixed_of_scaled (f : TF1 α) (i : ℕ) (a b v : α) (hab : a < b)
    (hv : 0 ≤ v) (h1 : f.parMin i = a * v) (h2 : f.parMax i = b * v) :
    parStatus f i ≠ ParStatus.fixed := by
  rw [Ne, parStatus_eq_fixed_iff, h1, h2]
  rintro ⟨hne, hge⟩
  rcases hv.eq_or_lt with h0 | hpos
  · rw [← h0] at hne
    simp at hne
  · exact absurd (mul_lt_mul_of_pos_right hab hpos) (not_lt.mpr hge)

/-- Parameter values at the first `Fit` call of the strict variant. -/
theorem fitSetup1_par (hmax meanY sigmaY : α) :
    (DrawResultsHelper.fitSetup1 hmax meanY sigmaY).par 0 = hmax ∧
    (DrawResultsHelper.fitSetup1 hmax meanY sigmaY).par 1 = meanY ∧
    (DrawResultsHelper.fitSetup1 hmax meanY sigmaY).par 2 = 0.5 * sigmaY ∧
    (DrawResultsHelper.fitSetup1 hmax meanY sigmaY).par 3 = 1.5 ∧
    (DrawResultsHelper.fitSetup1 hmax meanY sigmaY).par 4 = 5 ∧
    (DrawResultsHelper.fitSetup1 hmax meanY sigmaY).par 5 = 1.5 := by
  have h15 : (1.5 : α) ≠ 0 := by norm_num
  have h5 : (5 : α) ≠ 0 := by norm_num
  simp [DrawResultsHelper.fitSetup1, FixParameter, SetParLimits, SetParameters, SetParameter,
    newTF1, Function.update, h15, h5]

/-- Parameter values at the first `Fit` call of the lenient variant. -/
theorem lenient_fitSetup_par (hmax meanY sigmaY : α) :
    (DrawMvaPars.fitSetup hmax meanY sigmaY).par 0 = hmax ∧
    (DrawMvaPars.fitSetup hmax meanY sigmaY).par 1 = meanY ∧
    (DrawMvaPars.fitSetup hmax meanY sigmaY).par 2 = sigmaY ∧
    (DrawMvaPars.fitSetup hmax meanY sigmaY).par 3 = 1.5 ∧
    (DrawMvaPars.fitSetup hmax meanY sigmaY).par 4 = 5 ∧
    (DrawMvaPars.fitSetup hmax meanY sigmaY).par 5 = 1.5 := by
  simp [DrawMvaPars.fitSetup, SetParLimits, SetParameters, SetParameter, newTF1,
    Function.update]

theorem fitObjective_QEM : fitObjective "QEM" = Objective.leastSquares := by
  decide

theorem fitObjective_QEML : fitObjective "QEML" = Objective.likelihood := by
  decide

theorem parStatus_congr (f g : TF1 α) (i : ℕ) (h1 : g.parMin = f.parMin)
    (h2 : g.parMax = f.parMax) : parStatus g i = parStatus f i := by
  simp only [parStatus, h1, h2]

end FitLemmas

section TrailingLemmas

variable {α : Type} [LinearOrderedField α]

theorem blockLoop_congr {σ : Type} (body body2 : Nat → σ → Except Fatal σ) (n : Nat) :
    ∀ (b : Nat) (st : σ), (∀ c, b ≤ c → c < b + n → ∀ s, body c s = body2 c s) →
      blockLoop body n b st = blockLoop body2 n b st := by
  induction n with
  | zero =>
    intro b st _
    rfl
  | succ n ih =>
    intro b st h
    rw [blockLoop, blockLoop, h b (le_refl b) (by omega) st]
    cases body2 b st with
    | error e => rfl
    | ok st1 => exact ih (b + 1) st1 (fun c hc1 hc2 s => h c (by omega) (by omega) s)

theorem blockData_congr (x x2 y y2 : List α) (ind : List Nat) (bs b : ℕ)
    (hlen : x2.length = x.length)
    (hx : ∀ k, k < (b + 1) * bs → k < x.length →
      x2.getD (ind.getD k 0) 0 = x.getD (ind.getD k 0) 0)
    (hy : ∀ k, k < (b + 1) * bs → k < x.length →
      y2.getD (ind.getD k 0) 0 = y.getD (ind.getD k 0) 0) :
    blockData x2 y2 ind (bs : ℤ) b = blockData x y ind (bs : ℤ) b := by
  rw [blockData_eq, blockData_eq, hlen]
  congr 1
  · apply List.map_congr_left
    intro k hk
    rw [mem_specPositions] at hk
    exact hx k hk.2.1 hk.2.2
  · apply List.map_congr_left
    intro k hk
    rw [mem_specPositions] at hk
    exact hy k hk.2.1 hk.2.2

/-- A processed block starts at least half a block before the end of the
data, and every processed block but the last is followed by a full block. -/
theorem processed_block_bounds (L bs b : ℕ) (hbs : 0 < bs)
    (hb : b < (2 * L + bs) / (2 * bs)) :
    2 * (b * bs) + bs ≤ 2 * L ∧ (b + 1 < (2 * L + bs) / (2 * bs) → (b + 1) * bs ≤ L) := by
  have h1 : (2 * L + bs) / (2 * bs) * (2 * bs) ≤ 2 * L + bs := Nat.div_mul_le_self _ _
  constructor
  · have h2 : (b + 1) * (2 * bs) ≤ (2 * L + bs) / (2 * bs) * (2 * bs) :=
      Nat.mul_le_mul_right _ hb
    have h3 : (b + 1) * (2 * bs) = 2 * (b * bs) + 2 * bs := by ring
    omega
  · intro hb2
    have h2 : (b + 2) * (2 * bs) ≤ (2 * L + bs) / (2 * bs) * (2 * bs) :=
      Nat.mul_le_mul_right _ hb2
    have h3 : (b + 2) * (2 * bs) = 2 * (b * bs) + 4 * bs := by ring
    have h4 : (b + 1) * bs = b * bs + bs := by ring
    omega

theorem nblocks_eq_zero_of_short (L bs : ℕ) (hshort : 2 * L < bs) (hL : L < 2 ^ 23) :
    nblocks L (bs : ℤ) = 0 := by
  rw [nblocks_eq_div L bs (by omega) hL, Nat.div_eq_of_lt (by omega)]
  rfl

end TrailingLemmas

section EvalLemmas

variable {α : Type} [LinearOrderedField α]

theorem loadedTraining_zero : (loadedTraining 0 : Training α) = ⟨1, -1, -1⟩ := by
  simp [loadedTraining]

theorem loadedTraining_one : (loadedTraining 1 : Training α) = ⟨2, -1, -1⟩ := by
  simp [loadedTraining]

theorem loadedTraining_two : (loadedTraining 2 : Training α) = ⟨3, 0, 5⟩ := by
  simp [loadedTraining]

theorem loadedTraining_three : (loadedTraining 3 : Training α) = ⟨3, 4, 20⟩ := by
  simp [loadedTraining]

theorem loadedTraining_four : (loadedTraining 4 : Training α) = ⟨3, 16, -1⟩ := by
  simp [loadedTraining]

theorem eval_iS_one (pfPt : α) : eval_iS 1 pfPt = .ok 0 := by
  simp [eval_iS]

theorem eval_iS_two (pfPt : α) : eval_iS 2 pfPt = .ok 1 := by
  simp [eval_iS]

theorem eval_iS_large (pfSize5x5_ZS : ℤ) (pfPt : α) (h : 3 ≤ pfSize5x5_ZS) :
    eval_iS pfSize5x5_ZS pfPt =
      if pfPt ≥ 4.5 ∧ pfPt < 18 then .ok 3 else if pfPt ≥ 18 then .ok 4 else .ok 2 := by
  have h1 : ¬ pfSize5x5_ZS ≤ 0 := by omega
  have h2 : pfSize5x5_ZS > 2 := by omega
  simp only [eval_iS, if_neg h1, if_pos h2, if_true]

end EvalLemmas

section JoinLemmas

/-- Gluing two functions with the same derivative at a point. -/
theorem hasDerivAt_glue (f g h : ℝ → ℝ) (x0 d : ℝ) (hg : HasDerivAt g d x0)
    (hh : HasDerivAt h d x0)
    (hl : Filter.Eventually (fun x => x ≤ x0 → f x = g x) (nhds x0))
    (hr : Filter.Eventually (fun x => x0 ≤ x → f x = h x) (nhds x0)) :
    HasDerivWithinAt f d (Set.Iic x0) x0 ∧ HasDerivWithinAt f d (Set.Ici x0) x0 ∧
      HasDerivAt f d x0 := by
  have hl0 : f x0 = g x0 := hl.self_of_nhds (le_refl x0)
  have hr0 : f x0 = h x0 := hr.self_of_nhds (le_refl x0)
  have h1 : HasDerivWithinAt f d (Set.Iic x0) x0 :=
    hg.hasDerivWithinAt.congr_of_eventuallyEq (eventually_nhdsWithin_iff.mpr hl) hl0
  have h2 : HasDerivWithinAt f d (Set.Ici x0) x0 :=
    hh.hasDerivWithinAt.congr_of_eventuallyEq (eventually_nhdsWithin_iff.mpr hr) hr0
  refine ⟨h1, h2, ?_⟩
  have h3 := h1.union h2
  rw [Set.Iic_union_Ici] at h3
  exact hasDerivWithinAt_univ.mp h3

theorem hasDerivAt_z (mu sigma x0 : ℝ) :
    HasDerivAt (fun x => (x - mu) / sigma) (1 / sigma) x0 :=
  ((hasDerivAt_id x0).sub_const mu).div_const sigma

/-- Derivative of the Gaussian core. -/
theorem hasDerivAt_core (A mu sigma x0 : ℝ) :
    HasDerivAt (fun x => A * Real.exp (-(((x - mu) / sigma) ^ 2) / 2))
      (-(A * Real.exp (-(((x0 - mu) / sigma) ^ 2) / 2) * (((x0 - mu) / sigma) / sigma))) x0 := by
  have h := ((((hasDerivAt_z mu sigma x0).pow 2).neg.div_const 2).exp).const_mul A
  convert h using 1
  simp only [Nat.cast_ofNat, Nat.add_one_sub_one, pow_one]
  ring

/-- Derivative of the exponential right tail. -/
theorem hasDerivAt_right (A mu sigma alphaR x0 : ℝ) :
    HasDerivAt (fun x => A * Real.exp (alphaR ^ 2 / 2 - alphaR * ((x - mu) / sigma)))
      (-(A * Real.exp (alphaR ^ 2 / 2 - alphaR * ((x0 - mu) / sigma)) * (alphaR / sigma)))
      x0 := by
  have h := ((((hasDerivAt_z mu sigma x0).const_mul alphaR).const_sub (alphaR ^ 2 / 2)).exp).const_mul A
  convert h using 1
  ring

/-- Derivative of the power-law left tail where its base is positive. -/
theorem hasDerivAt_left (A mu sigma alphaL n x0 : ℝ)
    (hb : 0 < -((x0 - mu) / sigma) - alphaL + n / alphaL) :
    HasDerivAt (fun x => A * ((n / alphaL) ^ n * Real.exp (-(alphaL ^ 2) / 2) *
        (-((x - mu) / sigma) - alphaL + n / alphaL) ^ (-n)))
      (A * ((n / alphaL) ^ n * Real.exp (-(alphaL ^ 2) / 2) *
        (n / sigma * (-((x0 - mu) / sigma) - alphaL + n / alphaL) ^ (-n - 1)))) x0 := by
  have hbase : HasDerivAt (fun x => -((x - mu) / sigma) - alphaL + n / alphaL)
      (-(1 / sigma)) x0 := (((hasDerivAt_z mu sigma x0).neg).sub_const alphaL).add_const _
  have hpow : HasDerivAt (fun x => (-((x - mu) / sigma) - alphaL + n / alphaL) ^ (-n))
      (-(1 / sigma) * (-n) * (-((x0 - mu) / sigma) - alphaL + n / alphaL) ^ (-n - 1)) x0 :=
    hbase.rpow_const (Or.inl hb.ne.symm)
  have h := (hpow.const_mul ((n / alphaL) ^ n * Real.exp (-(alphaL ^ 2) / 2))).const_mul A
  convert h using 1
  ring

theorem fitExpr_paramArray (A mu sigma alphaL n alphaR x : ℝ) :
    fitExpr Real.exp Real.rpow (paramArray A mu sigma alphaL n alphaR) x =
      if (x - mu) / sigma > -alphaL then
        (if (x - mu) / sigma < alphaR then A * Real.exp (-(((x - mu) / sigma) ^ 2) / 2)
          else A * Real.exp (alphaR ^ 2 / 2 - alphaR * ((x - mu) / sigma)))
      else A * ((n / alphaL) ^ n * Real.exp (-(alphaL ^ 2) / 2) *
        (-((x - mu) / sigma) - alphaL + n / alphaL) ^ (-n)) := by
  have hcore := coreBranch_eq (paramArray A mu sigma alphaL n alphaR) x
  have hright := rightBranch_eq (paramArray A mu sigma alphaL n alphaR) x
  have hleft := leftBranch_eq (paramArray A mu sigma alphaL n alphaR) x
  simp only [paramArray] at hcore hright hleft
  simp only [fitExpr, paramArray, hcore, hright, hleft]
  split_ifs <;> rfl

theorem z_gt_iff (mu sigma a x : ℝ) (hsigma : 0 < sigma) :
    (x - mu) / sigma > a ↔ mu + a * sigma < x := by
  rw [gt_iff_lt, lt_div_iff₀ hsigma]
  constructor <;> intro h <;> linarith

theorem z_lt_iff (mu sigma a x : ℝ) (hsigma : 0 < sigma) :
    (x - mu) / sigma < a ↔ x < mu + a * sigma := by
  rw [div_lt_iff₀ hsigma]
  constructor <;> intro h <;> linarith

theorem z_at (mu sigma a : ℝ) (hsigma : 0 < sigma) : (mu + a * sigma - mu) / sigma = a := by
  field_simp

/-- Value of the left tail at the left join. -/
theorem left_value_at_join (A alphaL n E : ℝ) (hL : 0 < alphaL) (hn : 0 < n) :
    A * ((n / alphaL) ^ n * E * (-(-alphaL) - alphaL + n / alphaL) ^ (-n)) = A * E := by
  have hpos : 0 < n / alphaL := div_pos hn hL
  have hb : -(-alphaL) - alphaL + n / alphaL = n / alphaL := by ring
  have h1 : (n / alphaL) ^ n * (n / alphaL) ^ (-n) = 1 := by
    rw [← Real.rpow_add hpos, add_neg_cancel, Real.rpow_zero]
  rw [hb, mul_right_comm, h1, one_mul]

/-- Slope of the left tail at the left join. -/
theorem left_slope_at_join (A sigma alphaL n E : ℝ) (hL : 0 < alphaL) (hn : 0 < n) :
    A * ((n / alphaL) ^ n * E * (n / sigma * (-(-alphaL) - alphaL + n / alphaL) ^ (-n - 1))) =
      A * E * (alphaL / sigma) := by
  have hpos : 0 < n / alphaL := div_pos hn hL
  have hb : -(-alphaL) - alphaL + n / alphaL = n / alphaL := by ring
  have h1 : (n / alphaL) ^ n * (n / alphaL) ^ (-n - 1) = alphaL / n := by
    rw [← Real.rpow_add hpos]
    have h2 : n + (-n - 1) = -1 := by ring
    rw [h2, Real.rpow_neg_one, inv_div]
  have h3 : A * ((n / alphaL) ^ n * E * (n / sigma * (n / alphaL) ^ (-n - 1))) =
      A * E * (n / sigma) * ((n / alphaL) ^ n * (n / alphaL) ^ (-n - 1)) := by ring
  have h4 : n / sigma * (alphaL / n) = alphaL / sigma := by
    rw [div_mul_div_comm, mul_comm n alphaL, mul_div_mul_right _ _ hn.ne.symm]
  rw [hb, h3, h1, mul_assoc (A * E), h4]

/-- The fit expression has the derivative `A exp(-alphaL^2/2) alphaL / sigma`
at the left join, from both sides. -/
theorem hasDerivAt_left_join (A mu sigma alphaL n alphaR : ℝ) (hsigma : 0 < sigma)
    (hL : 0 < alphaL) (hn : 0 < n) (hR : -alphaL ≤ alphaR) :
    HasDerivWithinAt (fitExpr Real.exp Real.rpow (paramArray A mu sigma alphaL n alphaR))
      (A * Real.exp (-(alphaL ^ 2) / 2) * (alphaL / sigma)) (Set.Iic (mu + -alphaL * sigma))
      (mu + -alphaL * sigma) ∧
    HasDerivWithinAt (fitExpr Real.exp Real.rpow (paramArray A mu sigma alphaL n alphaR))
      (A * Real.exp (-(alphaL ^ 2) / 2) * (alphaL / sigma)) (Set.Ici (mu + -alphaL * sigma))
      (mu + -alphaL * sigma) ∧
    HasDerivAt (fitExpr Real.exp Real.rpow (paramArray A mu sigma alphaL n alphaR))
      (A * Real.exp (-(alphaL ^ 2) / 2) * (alphaL / sigma)) (mu + -alphaL * sigma) := by
  have hz0 := z_at mu sigma (-alphaL) hsigma
  have hpos : 0 < n / alphaL := div_pos hn hL
  have hg := hasDerivAt_left A mu sigma alphaL n (mu + -alphaL * sigma)
    (by rw [hz0]; linarith)
  rw [hz0, left_slope_at_join A sigma alphaL n _ hL hn] at hg
  have hl : Filter.Eventually (fun x => x ≤ mu + -alphaL * sigma →
      fitExpr Real.exp Real.rpow (paramArray A mu sigma alphaL n alphaR) x =
        A * ((n / alphaL) ^ n * Real.exp (-(alphaL ^ 2) / 2) *
          (-((x - mu) / sigma) - alphaL + n / alphaL) ^ (-n))) (nhds (mu + -alphaL * sigma)) := by
    apply Filter.Eventually.of_forall
    intro x hx
    have h1 : ¬ (x - mu) / sigma > -alphaL := by
      rw [z_gt_iff mu sigma _ x hsigma]
      exact not_lt.mpr hx
    rw [fitExpr_paramArray, if_neg h1]
  rcases hR.lt_or_eq with hlt | heq
  · have hh := hasDerivAt_core A mu sigma (mu + -alphaL * sigma)
    have hd : -(A * Real.exp (-((-alphaL) ^ 2) / 2) * (-alphaL / sigma)) =
        A * Real.exp (-(alphaL ^ 2) / 2) * (alphaL / sigma) := by
      rw [neg_sq]
      ring
    rw [hz0, hd] at hh
    have hx01 : mu + -alphaL * sigma < mu + alphaR * sigma := by
      have := mul_lt_mul_of_pos_right hlt hsigma
      linarith
    have hr : Filter.Eventually (fun x => mu + -alphaL * sigma ≤ x →
        fitExpr Real.exp Real.rpow (paramArray A mu sigma alphaL n alphaR) x =
          A * Real.exp (-(((x - mu) / sigma) ^ 2) / 2)) (nhds (mu + -alphaL * sigma)) := by
      apply Filter.eventually_of_mem (Iio_mem_nhds hx01)
      intro x hx1 hx0
      rcases hx0.lt_or_eq with h0 | h0
      · rw [fitExpr_paramArray, if_pos ((z_gt_iff mu sigma _ x hsigma).mpr h0),
          if_pos ((z_lt_iff mu sigma _ x hsigma).mpr hx1)]
      · have h1 : ¬ (x - mu) / sigma > -alphaL := by
          rw [z_gt_iff mu sigma _ x hsigma, ← h0]
          exact lt_irrefl _
        rw [fitExpr_paramArray, if_neg h1, ← h0, hz0, left_value_at_join A alphaL n _ hL hn,
          neg_sq]
    exact hasDerivAt_glue _ _ _ _ _ hg hh hl hr
  · have hh := hasDerivAt_right A mu sigma alphaR (mu + -alphaL * sigma)
    have hd : -(A * Real.exp (alphaR ^ 2 / 2 - alphaR * -alphaL) * (alphaR / sigma)) =
        A * Real.exp (-(alphaL ^ 2) / 2) * (alphaL / sigma) := by
      rw [← heq]
      have he : (-alphaL) ^ 2 / 2 - -alphaL * -alphaL = -(alphaL ^ 2) / 2 := by ring
      rw [he]
      ring
    rw [hz0, hd] at hh
    have hr : Filter.Eventually (fun x => mu + -alphaL * sigma ≤ x →
        fitExpr Real.exp Real.rpow (paramArray A mu sigma alphaL n alphaR) x =
          A * Real.exp (alphaR ^ 2 / 2 - alphaR * ((x - mu) / sigma)))
        (nhds (mu + -alphaL * sigma)) := by
      apply Filter.Eventually.of_forall
      intro x hx0
      rcases hx0.lt_or_eq with h0 | h0
      · have h2 : ¬ (x - mu) / sigma < alphaR := by
          rw [z_lt_iff mu sigma _ x hsigma, ← heq]
          exact not_lt.mpr hx0
        rw [fitExpr_paramArray, if_pos ((z_gt_iff mu sigma _ x hsigma).mpr h0), if_neg h2]
      · have h1 : ¬ (x - mu) / sigma > -alphaL := by
          rw [z_gt_iff mu sigma _ x hsigma, ← h0]
          exact lt_irrefl _
        rw [fitExpr_paramArray, if_neg h1, ← h0, hz0, left_value_at_join A alphaL n _ hL hn,
          ← heq]
        congr 2
        ring
    exact hasDerivAt_glue _ _ _ _ _ hg hh hl hr

/-- The fit expression has the derivative `-A exp(-alphaR^2/2) alphaR / sigma`
at the right join, from both sides. -/
theorem hasDerivAt_right_join (A mu sigma alphaL n alphaR : ℝ) (hsigma : 0 < sigma)
    (hL : 0 < alphaL) (hn : 0 < n) (hR : -alphaL ≤ alphaR) :
    HasDerivWithinAt (fitExpr Real.exp Real.rpow (paramArray A mu sigma alphaL n alphaR))
      (-(A * Real.exp (-(alphaR ^ 2) / 2) * (alphaR / sigma))) (Set.Iic (mu + alphaR * sigma))
      (mu + alphaR * sigma) ∧
    HasDerivWithinAt (fitExpr Real.exp Real.rpow (paramArray A mu sigma alphaL n alphaR))
      (-(A * Real.exp (-(alphaR ^ 2) / 2) * (alphaR / sigma))) (Set.Ici (mu + alphaR * sigma))
      (mu + alphaR * sigma) ∧
    HasDerivAt (fitExpr Real.exp Real.rpow (paramArray A mu sigma alphaL n alphaR))
      (-(A * Real.exp (-(alphaR ^ 2) / 2) * (alphaR / sigma))) (mu + alphaR * sigma) := by
  rcases hR.lt_or_eq with hlt | heq
  · have hz1 := z_at mu sigma alphaR hsigma
    have hx01 : mu + -alphaL * sigma < mu + alphaR * sigma := by
      have := mul_lt_mul_of_pos_right hlt hsigma
      linarith
    have hg := hasDerivAt_core A mu sigma (mu + alphaR * sigma)
    rw [hz1] at hg
    have hh := hasDerivAt_right A mu sigma alphaR (mu + alphaR * sigma)
    have he : alphaR ^ 2 / 2 - alphaR * alphaR = -(alphaR ^ 2) / 2 := by ring
    rw [hz1, he] at hh
    have hl : Filter.Eventually (fun x => x ≤ mu + alphaR * sigma →
        fitExpr Real.exp Real.rpow (paramArray A mu sigma alphaL n alphaR) x =
          A * Real.exp (-(((x - mu) / sigma) ^ 2) / 2)) (nhds (mu + alphaR * sigma)) := by
      apply Filter.eventually_of_mem (Ioi_mem_nhds hx01)
      intro x hx0 hx1
      rcases hx1.lt_or_eq with h1 | h1
      · rw [fitExpr_paramArray, if_pos ((z_gt_iff mu sigma _ x hsigma).mpr hx0),
          if_pos ((z_lt_iff mu sigma _ x hsigma).mpr h1)]
      · have h2 : ¬ (x - mu) / sigma < alphaR := by
          rw [z_lt_iff mu sigma _ x hsigma, h1]
          exact lt_irrefl _
        rw [fitExpr_paramArray, if_pos ((z_gt_iff mu sigma _ x hsigma).mpr hx0), if_neg h2, h1,
          hz1, he]
    have hr : Filter.Eventually (fun x => mu + alphaR * sigma ≤ x →
        fitExpr Real.exp Real.rpow (paramArray A mu sigma alphaL n alphaR) x =
          A * Real.exp (alphaR ^ 2 / 2 - alphaR * ((x - mu) / sigma)))
        (nhds (mu + alphaR * sigma)) := by
      apply Filter.eventually_of_mem (Ioi_mem_nhds hx01)
      intro x hx0 hx1
      have h2 : ¬ (x - mu) / sigma < alphaR := by
        rw [z_lt_iff mu sigma _ x hsigma]
        exact not_lt.mpr hx1
      rw [fitExpr_paramArray, if_pos ((z_gt_iff mu sigma _ x hsigma).mpr hx0), if_neg h2]
    exact hasDerivAt_glue _ _ _ _ _ hg hh hl hr
  · subst heq
    obtain ⟨h1, h2, h3⟩ := hasDerivAt_left_join A mu sigma alphaL n (-alphaL) hsigma hL hn
      (le_refl _)
    have hd : A * Real.exp (-(alphaL ^ 2) / 2) * (alphaL / sigma) =
        -(A * Real.exp (-((-alphaL) ^ 2) / 2) * (-alphaL / sigma)) := by
      rw [neg_sq]
      ring
    exact ⟨h1.congr_deriv hd, h2.congr_deriv hd, h3.congr_deriv hd⟩

/-- With `alphaR < -alphaL` the fit expression jumps at the left join: for
`A = 1, mu = 0, sigma = 1, alphaL = 1, n = 1, alphaR = -2` it is
`exp(-1/2) < 1` at `x = -1` and above 1 right of it. -/
theorem fitExpr_jump_example :
    fitExpr Real.exp Real.rpow (paramArray 1 0 1 1 1 (-2)) (-1) < 1 ∧
    ∀ x : ℝ, -1 < x → 1 < fitExpr Real.exp Real.rpow (paramArray 1 0 1 1 1 (-2)) x := by
  constructor
  · have h1 : ¬ ((-1 : ℝ) - 0) / 1 > -1 := by norm_num
    have hv := left_value_at_join 1 1 1 (Real.exp (-(1 ^ 2) / 2)) one_pos one_pos
    have hz : ((-1 : ℝ) - 0) / 1 = -1 := by norm_num
    rw [fitExpr_paramArray, if_neg h1, hz, hv, one_mul]
    rw [← Real.exp_zero]
    exact Real.exp_lt_exp.mpr (by norm_num)
  · intro x hx
    have h1 : (x - 0) / 1 > -1 := by
      rw [sub_zero, div_one]
      exact hx
    have h2 : ¬ (x - 0) / 1 < -2 := by
      rw [sub_zero, div_one]
      exact not_lt.mpr (by linarith)
    rw [fitExpr_paramArray, if_pos h1, if_neg h2, one_mul, sub_zero, div_one]
    rw [← Real.exp_zero]
    exact Real.exp_lt_exp.mpr (by nlinarith)

theorem not_continuousAt_of_jump (f : ℝ → ℝ) (a : ℝ) (h0 : f a < 1)
    (h1 : ∀ x, a < x → 1 < f x) : ¬ ContinuousAt f a := by
  intro hc
  have hev : Filter.Eventually (fun x => f x < 1) (nhds a) :=
    hc.eventually (Iio_mem_nhds h0)
  obtain ⟨ε, hε, hball⟩ := Metric.eventually_nhds_iff.mp hev
  have hd : dist (a + ε / 2) a < ε := by
    rw [Real.dist_eq, add_sub_cancel_left, abs_of_pos (by linarith)]
    linarith
  have h2 := hball hd
  have h3 := h1 (a + ε / 2) (by linarith)
  exact absurd h2 (not_lt.mpr h3.le)

end JoinLemmas

section FloatExamples

/-- The `float` square of `1 + 2^-12` is `1 + 2^-11`: the exact square
`1 + 2^-11 + 2^-24` lies halfway between two floats and is rounded to the
even one. -/
theorem fmul32_example : fmul32 (4097 / 4096 : ℝ) (4097 / 4096) = some (8392704 / 8388608) := by
  apply fmul32_eq_of
  · have h := fl32_eq_of ((4097 / 4096 : ℝ) * (4097 / 4096)) 0 8392704 (by norm_num)
      (by norm_num) (by norm_num) (by norm_num)
      (by
        have e : (4097 / 4096 : ℝ) * (4097 / 4096) / 2 ^ ((0 : ℤ) - 23) =
            ((8392704 : ℤ) : ℝ) + 1 / 2 := by norm_num
        rw [e]
        exact roundEven_tie_down 8392704 (by norm_num))
    rw [h]
    norm_num
  · rw [abs_of_pos (by norm_num)]
    norm_num

/-- The `float` square of `1 + 3 * 2^-12` is `1 + 3 * 2^-11 + 2^-21`: the
exact square lies halfway between two floats. -/
theorem fmul32_example2 :
    fmul32 (4099 / 4096 : ℝ) (4099 / 4096) = some (8400900 / 8388608) := by
  apply fmul32_eq_of
  · have h := fl32_eq_of ((4099 / 4096 : ℝ) * (4099 / 4096)) 0 8400900 (by norm_num)
      (by norm_num) (by norm_num) (by norm_num)
      (by
        have e : (4099 / 4096 : ℝ) * (4099 / 4096) / 2 ^ ((0 : ℤ) - 23) =
            ((8400900 : ℤ) : ℝ) + 1 / 2 := by norm_num
        rw [e]
        exact roundEven_tie_down 8400900 (by norm_num))
    rw [h]
    norm_num
  · rw [abs_of_pos (by norm_num)]
    norm_num

/-- On the sample `[1 + 2^-12, 1 + 3 * 2^-12]` the `float` squares give the
zero-order pair `(1 + 2^-11, 0)`. -/
theorem stats_example_pair :
    stats Real.sqrt [(4097 / 4096 : ℝ), 4099 / 4096] = (some (2049 / 2048), some 0) := by
  simp only [stats, sumProducts, List.foldl_cons, List.foldl_nil, fmul32_example,
    fmul32_example2, addProduct, List.sum_cons, List.sum_nil, List.length_cons,
    List.length_nil, finish]
  norm_num

/-- The window of the pair `(1 + 2^-11, 0)` holds neither sample. -/
theorem codeWindow_example_pair :
    codeWindow [(4097 / 4096 : ℝ), 4099 / 4096] (some (2049 / 2048), some 0) = [] := by
  simp [codeWindow, windowBounds, outside]
  norm_num

theorem MeanSigma_example_pair_fatal :
    MeanSigma Real.sqrt [(4097 / 4096 : ℝ), 4099 / 4096] = .error Fatal.didNotConverge := by
  apply MeanSigma_error_of_empty_window Real.sqrt _ 0 (fun j hj => absurd hj (by omega))
  rw [Function.iterate_zero, id, zeroOrder_eq, stats_example_pair]
  exact codeWindow_example_pair

end FloatExamples

section BlockCountExamples

theorem nblocks_example_large : nblocks 8393728 2049 = 4097 := by
  have ha : fl32 ((8393728 : ℕ) : ℚ) = 8393728 := by
    have := fl32_natCast (α := ℚ) 8393728 (by norm_num)
    simpa using this
  have hb : fl32 ((2049 : ℤ) : ℚ) = 2049 := by
    have := fl32_natCast (α := ℚ) 2049 (by norm_num)
    simpa using this
  have hq : fl32 ((8393728 : ℚ) / 2049) = 8389632 / 2048 := by
    rw [fl32_eq_of ((8393728 : ℚ) / 2049) 12 8389632 (by norm_num) (by norm_num) (by norm_num)
      (by norm_num) (roundEven_of_lt _ _ (by norm_num) (by norm_num))]
    norm_num
  exact nblocks_eq_of 8393728 2049 _ _ _ 4097 ha hb hq (by norm_num) (by norm_num)
    (by norm_num)

/-- The conversion `(float)16777217` gives `16777216`. -/
theorem fl32_example_down : fl32 (16777217 : ℚ) = 16777216 := by
  rw [fl32_eq_of (16777217 : ℚ) 24 8388608 (by norm_num) (by norm_num) (by norm_num)
    (by norm_num)
    (by
      have e : (16777217 : ℚ) / 2 ^ ((24 : ℤ) - 23) = ((8388608 : ℤ) : ℚ) + 1 / 2 := by
        norm_num
      rw [e]
      exact roundEven_tie_down 8388608 (by norm_num))]
  norm_num

/-- The conversion `(float)16777219` gives `16777220`. -/
theorem fl32_example_up : fl32 (16777219 : ℚ) = 16777220 := by
  rw [fl32_eq_of (16777219 : ℚ) 24 8388610 (by norm_num) (by norm_num) (by norm_num)
    (by norm_num)
    (by
      have e : (16777219 : ℚ) / 2 ^ ((24 : ℤ) - 23) = ((8388610 : ℤ) : ℚ) - 1 / 2 := by
        norm_num
      rw [e]
      exact roundEven_tie_up 8388610 (by norm_num))]
  norm_num

theorem fl32_one_rat : fl32 ((1 : ℤ) : ℚ) = 1 := by
  have := fl32_natCast (α := ℚ) 1 (by norm_num)
  simpa using this

theorem nblocks_example_multiple : nblocks 16777217 1 = 16777216 := by
  have ha : fl32 ((16777217 : ℕ) : ℚ) = 16777216 := by
    have := fl32_example_down
    simpa using this
  have hq : fl32 ((16777216 : ℚ) / 1) = 16777216 := by
    rw [div_one]
    exact fl32_exact _ 24 8388608 (by norm_num) (by norm_num) (by norm_num) (by norm_num)
      (by norm_num)
  exact nblocks_eq_of 16777217 1 _ _ _ 16777216 ha fl32_one_rat hq (by norm_num) (by norm_num)
    (by norm_num)

theorem nblocks_example_empty_block : nblocks 16777219 1 = 16777220 := by
  have ha : fl32 ((16777219 : ℕ) : ℚ) = 16777220 := by
    have := fl32_example_up
    simpa using this
  have hq : fl32 ((16777220 : ℚ) / 1) = 16777220 := by
    rw [div_one]
    exact fl32_exact _ 24 8388610 (by norm_num) (by norm_num) (by norm_num) (by norm_num)
      (by norm_num)
  exact nblocks_eq_of 16777219 1 _ _ _ 16777220 ha fl32_one_rat hq (by norm_num) (by norm_num)
    (by norm_num)

theorem nblocks_example_short : nblocks 8388608 16777217 = 1 := by
  have ha : fl32 ((8388608 : ℕ) : ℚ) = 8388608 := by
    have := fl32_natCast (α := ℚ) 8388608 (by norm_num)
    simpa using this
  have hb : fl32 ((16777217 : ℤ) : ℚ) = 16777216 := by
    have := fl32_example_down
    simpa using this
  have hq : fl32 ((8388608 : ℚ) / 16777216) = 1 / 2 := by
    have e : (8388608 : ℚ) / 16777216 = 1 / 2 := by norm_num
    rw [e]
    exact fl32_exact _ (-1) 8388608 (by norm_num) (by norm_num) (by norm_num) (by norm_num)
      (by norm_num)
  exact nblocks_eq_of 8388608 16777217 _ _ _ 1 ha hb hq (by norm_num) (by norm_num)
    (by norm_num)

/-- The conversion `(float)16777221` gives `16777220`. -/
theorem fl32_example_tie : fl32 (16777221 : ℚ) = 16777220 := by
  rw [fl32_eq_of (16777221 : ℚ) 24 8388610 (by norm_num) (by norm_num) (by norm_num)
    (by norm_num)
    (by
      have e : (16777221 : ℚ) / 2 ^ ((24 : ℤ) - 23) = ((8388610 : ℤ) : ℚ) + 1 / 2 := by
        norm_num
      rw [e]
      exact roundEven_tie_down 8388610 (by norm_num))]
  norm_num

theorem nblocks_example_half : nblocks 16777221 11184814 = 1 := by
  have ha : fl32 ((16777221 : ℕ) : ℚ) = 16777220 := by
    have := fl32_example_tie
    simpa using this
  have hb : fl32 ((11184814 : ℤ) : ℚ) = 11184814 := by
    have := fl32_natCast (α := ℚ) 11184814 (by norm_num)
    simpa using this
  have hq : fl32 ((16777220 : ℚ) / 11184814) = 12582911 / 8388608 := by
    rw [fl32_eq_of ((16777220 : ℚ) / 11184814) 0 12582911 (by norm_num) (by norm_num)
      (by norm_num) (by norm_num) (roundEven_of_lt _ _ (by norm_num) (by norm_num))]
    norm_num
  exact nblocks_eq_of 16777221 11184814 _ _ _ 1 ha hb hq (by norm_num) (by norm_num)
    (by norm_num)

end BlockCountExamples

section WindowLemmas

variable {α : Type} [LinearOrderedField α]

theorem codeWindow_eq_specWindow (numbers : List α) (m s : α) :
    codeWindow numbers (some m, some s) = specWindow numbers (m, s) := by
  rw [codeWindow, specWindow]
  apply List.filter_congr
  intro v _
  rw [Bool.eq_iff_iff]
  simp only [windowBounds, outside, Bool.not_eq_true', decide_eq_false_iff_not,
    decide_eq_true_eq, not_or, not_lt, gt_iff_lt]

end WindowLemmas

section ExactSquares

variable {α : Type} [LinearOrderedField α] [FloorRing α]

/-- When the `float` square of every sample is its exact square, `sigma`
accumulates the sum of the squares. -/
theorem sumProducts_of_exact (w : List α) (hw : ∀ v ∈ w, fmul32 v v = some (v * v))
    (acc : α) : sumProducts w (some acc) = some (acc + (w.map fun v => v ^ 2).sum) := by
  induction w generalizing acc with
  | nil => simp [sumProducts]
  | cons a w ih =>
    have ha := hw a (List.mem_cons_self a w)
    have hw2 : ∀ v ∈ w, fmul32 v v = some (v * v) :=
      fun v hv => hw v (List.mem_cons_of_mem a hv)
    have h := ih hw2 (acc + a * a)
    rw [sumProducts] at h ⊢
    rw [List.foldl_cons, ha, List.map_cons, List.sum_cons, pow_two, ← add_assoc]
    exact h

theorem stats_of_exact (sqrt : α → α) (w : List α) (hne : w ≠ [])
    (hw : ∀ v ∈ w, fmul32 v v = some (v * v)) :
    stats sqrt w = (some (specMean w), some (specSigma sqrt w)) := by
  have hl : w.length ≠ 0 := fun h0 => hne (List.length_eq_zero.mp h0)
  have hv := variance_nonneg w hne
  rw [specMean, pow_two] at hv
  rw [stats, sumProducts_of_exact w hw 0, zero_add]
  unfold finish
  rw [if_neg hl]
  simp only [if_neg (not_lt.mpr hv)]
  rw [specSigma, specMean, pow_two]

/-- On a non-empty sample whose `float` squares are exact the pair held
after `k` passes is iterate `k` of the specification. -/
theorem codeIterate_of_exact (sqrt : α → α) (hs0 : ∀ v, 0 ≤ sqrt v)
    (hs2 : ∀ v, 0 ≤ v → sqrt v * sqrt v = v) (numbers : List α) (hne : numbers ≠ [])
    (hex : ∀ v ∈ numbers, fmul32 v v = some (v * v)) (k : ℕ) :
    codeIterate sqrt numbers k =
      (some (specIterate sqrt numbers k).1, some (specIterate sqrt numbers k).2) := by
  induction k with
  | zero =>
    rw [codeIterate_zero, stats_of_exact sqrt numbers hne hex]
    rfl
  | succ k ih =>
    have hw := specWindow_ne_nil sqrt hs0 hs2 numbers hne k
    rw [codeIterate_succ, ih, codeWindow_eq_specWindow, stats_of_exact sqrt _ hw]
    · rfl
    · intro v hv
      rw [specWindow] at hv
      exact hex v (List.mem_filter.mp hv).1

end ExactSquares

section ScaleLemmas

variable {α : Type} [LinearOrderedField α]

end ScaleLemmas

section RealSqrtLemmas

end RealSqrtLemmas

section ExactScale

variable {α : Type} [LinearOrderedField α] [FloorRing α]

end ExactScale

section ExactExamples

end ExactExamples

section FitCallLemmas

variable {α : Type} [LinearOrderedField α]

/-- The record of the `Fit` calls of the strict variant. -/
theorem strict_fitBlock_calls (getMax : List α → α) (m : Minimizer α) (by_ : List α)
    (meanY sigmaY : α) :
    (DrawResultsHelper.fitBlock getMax m by_ meanY sigmaY).calls =
      [("QEM", DrawResultsHelper.fitSetup1 (getMax by_) meanY sigmaY),
       ("QEM", DrawResultsHelper.fitSetup2
          (Fit m "QEM" by_ ⟨DrawResultsHelper.fitSetup1 (getMax by_) meanY sigmaY, 0, []⟩).fit),
       ("QEML", DrawResultsHelper.fitSetup3 sigmaY
          (Fit m "QEM" by_ ⟨DrawResultsHelper.fitSetup2
            (Fit m "QEM" by_
              ⟨DrawResultsHelper.fitSetup1 (getMax by_) meanY sigmaY, 0, []⟩).fit,
            0, []⟩).fit)] :=
  rfl

/-- The record of the `Fit` calls of the lenient variant. -/
theorem lenient_fitBlock_calls (getMax : List α → α) (m : Minimizer α) (by_ : List α)
    (meanY sigmaY : α) :
    (DrawMvaPars.fitBlock getMax m by_ meanY sigmaY).calls =
      [("QEM", DrawMvaPars.fitSetup (getMax by_) meanY sigmaY),
       ("QEML", (Fit m "QEM" by_ ⟨DrawMvaPars.fitSetup (getMax by_) meanY sigmaY, 0, []⟩).fit)] :=
  rfl

end FitCallLemmas

/-! ## Claims -/

section ClaimsPartition

variable {α : Type} [LinearOrderedField α]

/-! ### C1 -/

/-- C2: for a paired sample of length at least 1, a block size of at least 1
and an index array `ind` sorting `x` in ascending order, block `b` of
`fit_slices_real` holds exactly the values `x[ind[k]]` and `y[ind[k]]` (the
same input index for both, so each x keeps its own y) for the sorted
positions `k` of `[b * blockSize, min ((b + 1) * blockSize, L))`, in that
order; all these reads are inside the vectors; and every x of block `b` is
at most every x of block `b + 1`. -/
theorem block_holds_sorted_positions (x y : List α) (ind : List Nat) (blockSize : ℤ)
    (hlen : y.length = x.length) (hL : 1 ≤ x.length) (hbs : 1 ≤ blockSize)
    (hind : IsSortIndex x ind) (b : Nat) (hb : (b : ℤ) < nblocks x.length blockSize) :
    blockData x y ind blockSize b =
      ((List.range' (b * blockSize.toNat)
          (min ((b + 1) * blockSize.toNat) x.length - b * blockSize.toNat)).map
            fun k => x.getD (ind.getD k 0) 0,
       (List.range' (b * blockSize.toNat)
          (min ((b + 1) * blockSize.toNat) x.length - b * blockSize.toNat)).map
            fun k => y.getD (ind.getD k 0) 0) ∧
    (∀ k, b * blockSize.toNat ≤ k → k < min ((b + 1) * blockSize.toNat) x.length →
      k < ind.length ∧ ind.getD k 0 < x.length ∧ ind.getD k 0 < y.length) ∧
    (∀ k k2, k < k2 → k2 < x.length →
      x.getD (ind.getD k 0) 0 ≤ x.getD (ind.getD k2 0) 0) ∧
    (∀ u ∈ (blockData x y ind blockSize b).1,
      ∀ v ∈ (blockData x y ind blockSize (b + 1)).1, u ≤ v) := by
  have _ := hL
  have _ := hb
  obtain ⟨bs, rfl⟩ := Int.eq_ofNat_of_zero_le (by omega : 0 ≤ blockSize)
  simp only [Int.toNat_natCast]
  refine ⟨?_, ?_, ?_, blocks_le_next x y ind bs b hind⟩
  · rw [blockData_eq]
    rfl
  · intro k _ hk
    have hkl : k < x.length := by omega
    refine ⟨by rw [hind.length_eq]; exact hkl, hind.getD_lt hkl, ?_⟩
    rw [hlen]
    exact hind.getD_lt hkl
  · intro k k2 hkk hk2
    exact hind.mono hkk hk2

/-- Witness for C2: five pairs, block size 2, block 1 holds the third and
fourth smallest x with their y. -/
theorem block_holds_sorted_positions_witness :
    IsSortIndex ([5, 3, 8, 1, 9] : List ℚ) [3, 1, 0, 2, 4] ∧
    ((1 : ℕ) : ℤ) < nblocks 5 2 ∧
    blockData ([5, 3, 8, 1, 9] : List ℚ) [50, 30, 80, 10, 90] [3, 1, 0, 2, 4] 2 1
      = ([5, 8], [50, 80]) := by
  have hs : IsSortIndex ([5, 3, 8, 1, 9] : List ℚ) [3, 1, 0, 2, 4] := by
    unfold IsSortIndex
    decide
  have hn : ((1 : ℕ) : ℤ) < nblocks ([5, 3, 8, 1, 9] : List ℚ).length 2 := by
    have := nblocks_eq_div 5 2 (by norm_num) (by norm_num)
    simp only [List.length_cons, List.length_nil]
    norm_num at this ⊢
    rw [this]
    norm_num
  have h := (block_holds_sorted_positions ([5, 3, 8, 1, 9] : List ℚ) [50, 30, 80, 10, 90]
    [3, 1, 0, 2, 4] 2 rfl (by simp) (by norm_num) hs 1 hn).1
  refine ⟨hs, by simpa using hn, ?_⟩
  rw [h]
  decide

/-! ### C3 -/

/-- C3, failing input: 8393728 pairs with block size 2049. The quotient
`8393728 / 2049 = 4096.4997...` is below `4096.5`, its nearest integer is
4096; the `float` quotient of the code is `4096.5`, `round` takes it to 4097,
and the block count is 4097. With fewer than `2^23` elements the code agrees
with the claim: the count is the quotient rounded to the nearest integer,
halves up. -/
theorem nblocks_float_quotient_diverges :
    nblocks 8393728 2049 = 4097 ∧
    round ((8393728 : ℚ) / 2049) = 4096 ∧
    ¬ |(8393728 : ℚ) / 2049 - ((nblocks 8393728 2049 : ℤ) : ℚ)| ≤ 1 / 2 ∧
    (∀ L bs : ℕ, 0 < bs → L < 2 ^ 23 →
      nblocks L (bs : ℤ) = round ((L : ℚ) / (bs : ℚ)) ∧
      |(L : ℚ) / (bs : ℚ) - ((nblocks L (bs : ℤ) : ℤ) : ℚ)| ≤ 1 / 2) := by
  refine ⟨nblocks_example_large, ?_, ?_, ?_⟩
  · rw [round_eq, Int.floor_eq_iff]
    norm_num
  · rw [nblocks_example_large, abs_le]
    norm_num
  · intro L bs hbs hL
    have hr : nblocks L (bs : ℤ) = round ((L : ℚ) / (bs : ℚ)) := by
      rw [nblocks_eq_div L bs hbs hL, round_eq]
      have hb : (bs : ℚ) ≠ 0 := by exact_mod_cast hbs.ne'
      have : (L : ℚ) / (bs : ℚ) + 1 / 2 = (((2 * L + bs : ℕ) : ℚ)) / ((2 * bs : ℕ) : ℚ) := by
        push_cast
        field_simp
        ring
      rw [this, Rat.floor_natCast_div_natCast]
      norm_cast
    refine ⟨hr, ?_⟩
    rw [hr]
    exact abs_sub_round _

/-! ### C4 -/

/-- C4, counterexample: five pairs with block size 4 give one block (5/4
rounds to 1) holding the sorted positions 0..3; input index 4, the largest
x, belongs to no block. -/
theorem cover_fails_for_short_remainder :
    IsSortIndex ([1, 2, 3, 4, 5] : List ℚ) [0, 1, 2, 3, 4] ∧
    nblocks ([1, 2, 3, 4, 5] : List ℚ).length 4 = 1 ∧
    ¬ ∃ b : ℕ, (b : ℤ) < nblocks ([1, 2, 3, 4, 5] : List ℚ).length 4 ∧
      4 ∈ blockIndices [0, 1, 2, 3, 4] ([1, 2, 3, 4, 5] : List ℚ).length 4 b := by
  have hn : nblocks ([1, 2, 3, 4, 5] : List ℚ).length 4 = 1 := by
    have := nblocks_eq_div 5 4 (by norm_num) (by norm_num)
    simp only [List.length_cons, List.length_nil]
    norm_num at this ⊢
    exact this
  refine ⟨by unfold IsSortIndex; decide, hn, ?_⟩
  rintro ⟨b, hb, hmem⟩
  rw [hn] at hb
  have hb0 : b = 0 := by omega
  subst hb0
  revert hmem
  decide

/-- C4, amended: for a non-empty paired sample, `blockSize ≥ 1` and an index
array sorting `x`, no input index occurs twice in a block or in two blocks;
the input index at sorted position `k` belongs to a block exactly when
`k < nblocks * blockSize`; so every input index belongs to a block exactly
when `L ≤ nblocks * blockSize`; and with fewer than `2^23` elements that is
the case exactly when the trailing remainder `L mod blockSize` is zero or at
least half of `blockSize`. -/
theorem blocks_cover_positions_below_bound (x : List α) (ind : List Nat) (blockSize : ℤ)
    (hL : 1 ≤ x.length) (hbs : 1 ≤ blockSize) (hind : IsSortIndex x ind) :
    (∀ b, (blockIndices ind x.length blockSize b).Nodup) ∧
    (∀ j b b2, j ∈ blockIndices ind x.length blockSize b →
      j ∈ blockIndices ind x.length blockSize b2 → b = b2) ∧
    (∀ k, k < x.length →
      ((∃ b : ℕ, (b : ℤ) < nblocks x.length blockSize ∧
          ind.getD k 0 ∈ blockIndices ind x.length blockSize b) ↔
        (k : ℤ) < nblocks x.length blockSize * blockSize)) ∧
    ((∀ j, j < x.length → ∃ b : ℕ, (b : ℤ) < nblocks x.length blockSize ∧
          j ∈ blockIndices ind x.length blockSize b) ↔
      (x.length : ℤ) ≤ nblocks x.length blockSize * blockSize) ∧
    (x.length < 2 ^ 23 →
      ((∀ j, j < x.length → ∃ b : ℕ, (b : ℤ) < nblocks x.length blockSize ∧
            j ∈ blockIndices ind x.length blockSize b) ↔
        (x.length % blockSize.toNat = 0 ∨
          blockSize.toNat ≤ 2 * (x.length % blockSize.toNat)))) := by
  obtain ⟨bs, rfl⟩ := Int.eq_ofNat_of_zero_le (by omega : 0 ≤ blockSize)
  have hbs0 : 0 < bs := by exact_mod_cast hbs
  simp only [Int.toNat_natCast]
  have hl := hind.length_eq
  -- every member of a block is `ind[k]` for a position `k` of the block
  have hmem : ∀ j b, j ∈ blockIndices ind x.length (bs : ℤ) b →
      ∃ k, k ∈ specPositions x.length bs b ∧ ind.getD k 0 = j := by
    intro j b hj
    rw [blockIndices_eq, List.mem_map] at hj
    exact hj
  have hcover : ∀ k, k < x.length →
      ((∃ b : ℕ, (b : ℤ) < nblocks x.length (bs : ℤ) ∧
          ind.getD k 0 ∈ blockIndices ind x.length (bs : ℤ) b) ↔
        (k : ℤ) < nblocks x.length (bs : ℤ) * (bs : ℤ)) := by
    intro k hk
    constructor
    · rintro ⟨b, hb, hm⟩
      rw [mem_blockIndices_iff hind bs b hk, mem_specPositions] at hm
      have h1 : ((b : ℤ) + 1) * (bs : ℤ) ≤ nblocks x.length (bs : ℤ) * (bs : ℤ) :=
        mul_le_mul_of_nonneg_right (by omega) (by omega)
      have h2 : (k : ℤ) < ((b : ℤ) + 1) * (bs : ℤ) := by exact_mod_cast hm.2.1
      omega
    · intro hlt
      have hbsZ : (0 : ℤ) < (bs : ℤ) := by exact_mod_cast hbs0
      refine ⟨k / bs, ?_, ?_⟩
      · have h1 : ((k / bs : ℕ) : ℤ) * (bs : ℤ) ≤ (k : ℤ) := by
          exact_mod_cast Nat.div_mul_le_self k bs
        by_contra hge
        have h2 : nblocks x.length (bs : ℤ) * (bs : ℤ) ≤ ((k / bs : ℕ) : ℤ) * (bs : ℤ) :=
          mul_le_mul_of_nonneg_right (not_lt.mp hge) hbsZ.le
        omega
      · rw [mem_blockIndices_iff hind bs _ hk]
        exact position_mem_own_block hbs0 hk
  have hall : (∀ j, j < x.length → ∃ b : ℕ, (b : ℤ) < nblocks x.length (bs : ℤ) ∧
        j ∈ blockIndices ind x.length (bs : ℤ) b) ↔
      (x.length : ℤ) ≤ nblocks x.length (bs : ℤ) * (bs : ℤ) := by
    constructor
    · intro hall
      have hk : x.length - 1 < x.length := by omega
      obtain ⟨b, hb, hm⟩ := hall _ (hind.getD_lt hk)
      have := (hcover _ hk).mp ⟨b, hb, hm⟩
      omega
    · intro hge j hj
      obtain ⟨k, hk, rfl⟩ := exists_position_of_index hind hj
      exact (hcover k hk).mpr (by omega)
  refine ⟨?_, ?_, hcover, hall, ?_⟩
  · intro b
    rw [blockIndices_eq]
    refine (List.nodup_range' _ _).map_on ?_
    intro k hk k2 hk2 he
    exact hind.getD_inj (mem_specPositions.mp hk).2.2 (mem_specPositions.mp hk2).2.2 he
  · intro j b b2 hj hj2
    obtain ⟨k, hk, rfl⟩ := hmem j b hj
    obtain ⟨k2, hk2, he⟩ := hmem _ b2 hj2
    rw [mem_specPositions] at hk hk2
    have := hind.getD_inj hk2.2.2 hk.2.2 he
    subst this
    rw [← block_of_position hk.1 hk.2.1, ← block_of_position hk2.1 hk2.2.1]
  · intro hL23
    rw [hall, nblocks_eq_div x.length bs hbs0 hL23]
    have hcases := nblocks_cases x.length bs hbs0
    have hdm := Nat.div_add_mod x.length bs
    have hr := Nat.mod_lt x.length hbs0
    have hcast : ((x.length : ℤ) ≤ (((2 * x.length + bs) / (2 * bs) : ℕ) : ℤ) * (bs : ℤ)) ↔
        x.length ≤ (2 * x.length + bs) / (2 * bs) * bs := by
      constructor
      · intro h
        exact_mod_cast h
      · intro h
        exact_mod_cast h
    rw [hcast]
    constructor
    · intro hge
      by_contra hcon
      push_neg at hcon
      obtain ⟨hr0, hr2⟩ := hcon
      rw [hcases.1 hr2, Nat.mul_comm] at hge
      omega
    · intro hrem
      rcases Nat.lt_or_ge (2 * (x.length % bs)) bs with h | h
      · have h0 : x.length % bs = 0 := by omega
        rw [hcases.1 h, Nat.mul_comm]
        omega
      · rw [hcases.2 h, Nat.add_mul, one_mul, Nat.mul_comm]
        omega

/-- Witness for C4 (amended): six pairs with block size 4 (remainder 2, half
a block) are sorted by the identity index array, and every input index
belongs to a block. -/
theorem blocks_cover_positions_below_bound_witness :
    1 ≤ ([1, 2, 3, 4, 5, 6] : List ℚ).length ∧ (1 : ℤ) ≤ 4 ∧
    IsSortIndex ([1, 2, 3, 4, 5, 6] : List ℚ) [0, 1, 2, 3, 4, 5] ∧
    ∀ j, j < ([1, 2, 3, 4, 5, 6] : List ℚ).length →
      ∃ b : ℕ, (b : ℤ) < nblocks ([1, 2, 3, 4, 5, 6] : List ℚ).length 4 ∧
        j ∈ blockIndices [0, 1, 2, 3, 4, 5] ([1, 2, 3, 4, 5, 6] : List ℚ).length 4 b := by
  have hs : IsSortIndex ([1, 2, 3, 4, 5, 6] : List ℚ) [0, 1, 2, 3, 4, 5] := by
    unfold IsSortIndex
    decide
  refine ⟨by simp, by norm_num, hs, ?_⟩
  exact ((blocks_cover_positions_below_bound ([1, 2, 3, 4, 5, 6] : List ℚ) [0, 1, 2, 3, 4, 5] 4
    (by simp) (by norm_num) hs).2.2.2.2 (by simp)).mpr (by decide)

end ClaimsPartition

section ClaimsCurve

variable {α : Type} [LinearOrderedField α] [FloorRing α]

/-! ### C5 -/

/-- C6: in both variants, when `fit_slices_real` returns, the two graphs have
the same number of points and the points at index `i` come from one block
`b`: with `(meanX, sigmaX)` and `(meanY, sigmaY)` the results of `MeanSigma`
on the block's x- and y-values and `fit` the fit outcome, the response graph
holds `(meanX, position, sigmaX, position error)` and the resolution graph
`(meanX, width / position, sigmaX, width error / position)`. -/
theorem appended_point_fields (sqrt : α → α) (fitter : Fitter α) (x y : List α)
    (ind : List Nat) (blockSize : ℤ) (hL : 1 ≤ x.length) :
    (∀ st, DrawResultsHelper.fit_slices_real sqrt fitter x y ind blockSize = .ok st →
      st.grMean.length = st.grSigma.length ∧
      ∀ i, i < st.grMean.length →
        ∃ (b : ℕ) (mX mY : α × α), (b : ℤ) < nblocks x.length blockSize ∧
          MeanSigma sqrt (blockData x y ind blockSize b).1 = .ok mX ∧
          MeanSigma sqrt (blockData x y ind blockSize b).2 = .ok mY ∧
          st.grMean[i]? = some
            ⟨mX.1, (fitter (blockData x y ind blockSize b).2 mY.1 mY.2).par 1,
             mX.2, (fitter (blockData x y ind blockSize b).2 mY.1 mY.2).parError 1⟩ ∧
          st.grSigma[i]? = some
            ⟨mX.1, (fitter (blockData x y ind blockSize b).2 mY.1 mY.2).par 2 /
                (fitter (blockData x y ind blockSize b).2 mY.1 mY.2).par 1,
             mX.2, (fitter (blockData x y ind blockSize b).2 mY.1 mY.2).parError 2 /
                (fitter (blockData x y ind blockSize b).2 mY.1 mY.2).par 1⟩) ∧
    (∀ st, DrawMvaPars.fit_slices_real sqrt fitter x y ind blockSize = .ok st →
      st.grMeanVsMean.length = st.grSigmaVsSigma.length ∧
      ∀ i, i < st.grMeanVsMean.length →
        ∃ (mX mY : α × α), (i : ℤ) < nblocks x.length blockSize ∧
          MeanSigma sqrt (blockData x y ind blockSize i).1 = .ok mX ∧
          MeanSigma sqrt (blockData x y ind blockSize i).2 = .ok mY ∧
          st.grMeanVsMean[i]? = some
            ⟨mX.1, (fitter (blockData x y ind blockSize i).2 mY.1 mY.2).par 1,
             mX.2, (fitter (blockData x y ind blockSize i).2 mY.1 mY.2).parError 1⟩ ∧
          st.grSigmaVsSigma[i]? = some
            ⟨mX.1, (fitter (blockData x y ind blockSize i).2 mY.1 mY.2).par 2 /
                (fitter (blockData x y ind blockSize i).2 mY.1 mY.2).par 1,
             mX.2, (fitter (blockData x y ind blockSize i).2 mY.1 mY.2).parError 2 /
                (fitter (blockData x y ind blockSize i).2 mY.1 mY.2).par 1⟩) := by
  constructor
  · intro st hst
    obtain ⟨hok, hM, hS, _⟩ :=
      (DrawResultsHelper.fit_slices_real_ok_iff sqrt fitter x y ind blockSize st hL).mp hst
    refine ⟨by rw [hM, hS, List.length_map, List.length_map], ?_⟩
    intro i hi
    rw [hM, List.length_map] at hi
    have hb : ((List.range (nblocks x.length blockSize).toNat).filter fun c =>
        goodFit (blockFit sqrt fitter x y ind blockSize c))[i] ∈
        (List.range (nblocks x.length blockSize).toNat).filter fun c =>
          goodFit (blockFit sqrt fitter x y ind blockSize c) := List.getElem_mem hi
    have hbN := List.mem_range.mp (List.mem_filter.mp hb).1
    obtain ⟨⟨mX, hX⟩, ⟨mY, hY⟩⟩ := hok _ hbN
    refine ⟨_, mX, mY, Int.lt_toNat.mp hbN, hX, hY, ?_, ?_⟩
    · rw [hM, List.getElem?_map, List.getElem?_eq_getElem hi, Option.map_some',
        meanPoint_of_ok sqrt fitter x y ind blockSize _ mX mY hX hY]
    · rw [hS, List.getElem?_map, List.getElem?_eq_getElem hi, Option.map_some',
        sigmaPoint_of_ok sqrt fitter x y ind blockSize _ mX mY hX hY]
  · intro st hst
    obtain ⟨hok, hM, hS⟩ :=
      (DrawMvaPars.lenient_fit_slices_real_ok_iff sqrt fitter x y ind blockSize st hL).mp hst
    refine ⟨by rw [hM, hS, List.length_map, List.length_map], ?_⟩
    intro i hi
    rw [hM, List.length_map, List.length_range] at hi
    obtain ⟨⟨mX, hX⟩, ⟨mY, hY⟩⟩ := hok i hi
    have hr : (List.range (nblocks x.length blockSize).toNat)[i]? = some i :=
      List.getElem?_range hi
    refine ⟨mX, mY, Int.lt_toNat.mp hi, hX, hY, ?_, ?_⟩
    · rw [hM, List.getElem?_map, hr, Option.map_some',
        meanPoint_of_ok sqrt fitter x y ind blockSize _ mX mY hX hY]
    · rw [hS, List.getElem?_map, hr, Option.map_some',
        sigmaPoint_of_ok sqrt fitter x y ind blockSize _ mX mY hX hY]

/-- Witness for C6: on the worked example both variants return, and each
graph of the lenient run has one point per pair. -/
theorem appended_point_fields_witness :
    (∃ st, DrawResultsHelper.fit_slices_real Real.sqrt exampleFitter
        ([1, 2, 3] : List ℝ) [1, 3, 1] [0, 1, 2] 1 = .ok st ∧
      st.grMean.length = st.grSigma.length) ∧
    (∃ st, DrawMvaPars.fit_slices_real Real.sqrt exampleFitter
        ([1, 2, 3] : List ℝ) [1, 3, 1] [0, 1, 2] 1 = .ok st ∧
      st.grMeanVsMean.length = st.grSigmaVsSigma.length) :=
  ⟨⟨_, strict_example_run,
      ((appended_point_fields Real.sqrt exampleFitter ([1, 2, 3] : List ℝ) [1, 3, 1]
        [0, 1, 2] 1 (by simp)).1 _ strict_example_run).1⟩,
    ⟨_, lenient_example_run,
      ((appended_point_fields Real.sqrt exampleFitter ([1, 2, 3] : List ℝ) [1, 3, 1]
        [0, 1, 2] 1 (by simp)).2 _ lenient_example_run).1⟩⟩

/-! ### C7 -/

/-- C7: when the strict `fit_slices_real` returns, each graph holds exactly
one point per block accepted by the test on the relative errors, at
consecutive indices in block order, `b0` is the number of points and is at
most the number of blocks; a rejected block leaves the state unchanged and an
accepted block appends one point to each graph behind the points already
there; and a fit that reports the same parameters and errors with any other
status gives the same result. -/
theorem strict_curve_is_accepted_blocks (sqrt : α → α) (fitter : Fitter α) (x y : List α)
    (ind : List Nat) (blockSize : ℤ) (hL : 1 ≤ x.length) (st : DrawResultsHelper.State α)
    (hst : DrawResultsHelper.fit_slices_real sqrt fitter x y ind blockSize = .ok st) :
    st.grMean =
      ((List.range (nblocks x.length blockSize).toNat).filter fun c =>
          goodFit (blockFit sqrt fitter x y ind blockSize c)).map
        (fun c => meanPoint (blockEstX sqrt x y ind blockSize c)
          (blockFit sqrt fitter x y ind blockSize c)) ∧
    st.grSigma =
      ((List.range (nblocks x.length blockSize).toNat).filter fun c =>
          goodFit (blockFit sqrt fitter x y ind blockSize c)).map
        (fun c => sigmaPoint (blockEstX sqrt x y ind blockSize c)
          (blockFit sqrt fitter x y ind blockSize c)) ∧
    st.b0 = st.grMean.length ∧ st.b0 = st.grSigma.length ∧
    st.b0 ≤ (nblocks x.length blockSize).toNat ∧
    (∀ b st0, blockOk sqrt x y ind blockSize b →
      goodFit (blockFit sqrt fitter x y ind blockSize b) = false →
      DrawResultsHelper.blockBody sqrt fitter x y ind blockSize b st0 = .ok st0) ∧
    (∀ b st0, blockOk sqrt x y ind blockSize b →
      goodFit (blockFit sqrt fitter x y ind blockSize b) = true →
      st0.b0 = st0.grMean.length → st0.b0 = st0.grSigma.length →
      DrawResultsHelper.blockBody sqrt fitter x y ind blockSize b st0 = .ok
        { grMean := st0.grMean ++ [meanPoint (blockEstX sqrt x y ind blockSize b)
            (blockFit sqrt fitter x y ind blockSize b)]
          grSigma := st0.grSigma ++ [sigmaPoint (blockEstX sqrt x y ind blockSize b)
            (blockFit sqrt fitter x y ind blockSize b)]
          b0 := st0.b0 + 1 }) ∧
    (∀ fitter2 : Fitter α,
      (∀ v m s, (fitter2 v m s).par = (fitter v m s).par ∧
        (fitter2 v m s).parError = (fitter v m s).parError) →
      DrawResultsHelper.fit_slices_real sqrt fitter2 x y ind blockSize = .ok st) := by
  obtain ⟨_, hM, hS, hb0⟩ :=
    (DrawResultsHelper.fit_slices_real_ok_iff sqrt fitter x y ind blockSize st hL).mp hst
  refine ⟨hM, hS, ?_, ?_, ?_, ?_, ?_, ?_⟩
  · rw [hb0, hM, List.length_map]
  · rw [hb0, hS, List.length_map]
  · rw [hb0]
    exact (List.length_filter_le _ _).trans_eq (List.length_range _)
  · intro b st0 hok hg
    exact DrawResultsHelper.blockBody_rejected sqrt fitter x y ind blockSize b st0 hok hg
  · intro b st0 hok hg h1 h2
    rw [DrawResultsHelper.blockBody_of_ok sqrt fitter x y ind blockSize b st0 hok h1 h2,
      if_pos hg]
  · intro fitter2 h
    rw [DrawResultsHelper.fit_slices_real,
      DrawResultsHelper.blockBody_congr_fitter sqrt fitter fitter2 x y ind blockSize h]
    exact hst

/-- Witness for C7: the worked example has three blocks, the second is
rejected, and the curve holds the two accepted points in block order. -/
theorem strict_curve_is_accepted_blocks_witness :
    ∃ st, DrawResultsHelper.fit_slices_real Real.sqrt exampleFitter
        ([1, 2, 3] : List ℝ) [1, 3, 1] [0, 1, 2] 1 = .ok st ∧
      st.grMean = [⟨1, 1, 0, 0.1⟩, ⟨3, 1, 0, 0.1⟩] ∧ st.b0 = st.grMean.length ∧
      st.b0 ≤ (nblocks ([1, 2, 3] : List ℝ).length 1).toNat :=
  ⟨_, strict_example_run, rfl,
    (strict_curve_is_accepted_blocks Real.sqrt exampleFitter ([1, 2, 3] : List ℝ) [1, 3, 1]
      [0, 1, 2] 1 (by simp) _ strict_example_run).2.2.1,
    (strict_curve_is_accepted_blocks Real.sqrt exampleFitter ([1, 2, 3] : List ℝ) [1, 3, 1]
      [0, 1, 2] 1 (by simp) _ strict_example_run).2.2.2.2.1⟩

/-! ### C8 -/

/-- C8: for a non-empty paired sample, `blockSize ≥ 1` and an index array
sorting `x`, whenever `fit_slices_real` returns (in either variant) the x
values of the points of both graphs are non-decreasing in point order. -/
theorem curve_x_nondecreasing (fitter : Fitter ℝ) (x y : List ℝ) (ind : List Nat)
    (blockSize : ℤ) (hL : 1 ≤ x.length) (hbs : 1 ≤ blockSize) (hind : IsSortIndex x ind) :
    (∀ st, DrawResultsHelper.fit_slices_real Real.sqrt fitter x y ind blockSize = .ok st →
      (st.grMean.map fun p => p.fX).Pairwise (· ≤ ·) ∧
      (st.grSigma.map fun p => p.fX).Pairwise (· ≤ ·)) ∧
    (∀ st, DrawMvaPars.fit_slices_real Real.sqrt fitter x y ind blockSize = .ok st →
      (st.grMeanVsMean.map fun p => p.fX).Pairwise (· ≤ ·) ∧
      (st.grSigmaVsSigma.map fun p => p.fX).Pairwise (· ≤ ·)) := by
  obtain ⟨bs, rfl⟩ := Int.eq_ofNat_of_zero_le (by omega : 0 ≤ blockSize)
  have hmono : ∀ (q : ℕ → Bool),
      (∀ c, c < (nblocks x.length (bs : ℤ)).toNat → blockOk Real.sqrt x y ind (bs : ℤ) c) →
      (((List.range (nblocks x.length (bs : ℤ)).toNat).filter q).map
        fun c => (blockEstX Real.sqrt x y ind (bs : ℤ) c).1).Pairwise (· ≤ ·) := by
    intro q hok
    apply pairwise_map_filter_range
    intro c c2 hcc hc2
    exact blockEstX_mono Real.sqrt x y ind bs hind c c2 hcc (hok c (by omega)) (hok c2 hc2)
  constructor
  · intro st hst
    obtain ⟨hok, hM, hS, _⟩ :=
      (DrawResultsHelper.fit_slices_real_ok_iff Real.sqrt fitter x y ind _ st hL).mp hst
    rw [hM, hS, List.map_map, List.map_map]
    exact ⟨hmono _ hok, hmono _ hok⟩
  · intro st hst
    obtain ⟨hok, hM, hS⟩ :=
      (DrawMvaPars.lenient_fit_slices_real_ok_iff Real.sqrt fitter x y ind _ st hL).mp hst
    have h := hmono (fun _ => true) hok
    rw [List.filter_true] at h
    rw [hM, hS, List.map_map, List.map_map]
    exact ⟨h, h⟩

/-- Witness for C8: the worked example is sorted by the identity index
array, both variants return, and the x values of the response graphs are in
non-decreasing order. -/
theorem curve_x_nondecreasing_witness :
    IsSortIndex ([1, 2, 3] : List ℝ) [0, 1, 2] ∧
    (∃ st, DrawResultsHelper.fit_slices_real Real.sqrt exampleFitter
        ([1, 2, 3] : List ℝ) [1, 3, 1] [0, 1, 2] 1 = .ok st ∧
      (st.grMean.map fun p => p.fX).Pairwise (· ≤ ·)) ∧
    (∃ st, DrawMvaPars.fit_slices_real Real.sqrt exampleFitter
        ([1, 2, 3] : List ℝ) [1, 3, 1] [0, 1, 2] 1 = .ok st ∧
      (st.grMeanVsMean.map fun p => p.fX).Pairwise (· ≤ ·)) :=
  ⟨example_sortIndex,
    ⟨_, strict_example_run,
      ((curve_x_nondecreasing exampleFitter ([1, 2, 3] : List ℝ) [1, 3, 1] [0, 1, 2] 1
        (by simp) (by norm_num) example_sortIndex).1 _ strict_example_run).1⟩,
    ⟨_, lenient_example_run,
      ((curve_x_nondecreasing exampleFitter ([1, 2, 3] : List ℝ) [1, 3, 1] [0, 1, 2] 1
        (by simp) (by norm_num) example_sortIndex).2 _ lenient_example_run).1⟩⟩

/-! ### C9 -/

/-- C9, counterexample: with `A = 1, mu = 0, sigma = 1, alphaL = 1, n = 1`
and `alphaR = -2` (so `sigma, alphaL, n > 0`), at `x = -1`, that is
`z = -alphaL`, the point lies only in the right-tail region `z ≥ alphaR` of
the specified model, whose value there is `1`, while the code takes its
left-tail branch, whose value is `exp(-1/2)`. -/
theorem fitExpr_ne_specModel_negative_alphaR :
    (0 : ℝ) < 1 ∧
    fitExpr Real.exp Real.rpow (paramArray 1 0 1 1 1 (-2)) (-1) = Real.exp (-(1 / 2)) ∧
    specModel Real.exp Real.rpow 1 0 1 1 1 (-2) (-1) = 1 ∧
    fitExpr Real.exp Real.rpow (paramArray 1 0 1 1 1 (-2)) (-1) ≠
      specModel Real.exp Real.rpow 1 0 1 1 1 (-2) (-1) := by
  have hc : fitExpr Real.exp Real.rpow (paramArray 1 0 1 1 1 (-2)) (-1)
      = Real.exp (-(1 / 2)) := by
    have hl := leftBranch_at_join (paramArray 1 0 1 1 1 (-2)) (-1)
      (by norm_num [paramArray]) (by norm_num [paramArray])
    have hcond : ¬ (((-1 : ℝ) - paramArray 1 0 1 1 1 (-2) 1) / paramArray 1 0 1 1 1 (-2) 2
        > -(paramArray 1 0 1 1 1 (-2) 3)) := by
      norm_num [paramArray]
    rw [fitExpr, if_neg hcond, hl]
    norm_num [paramArray]
  have hsp : specModel Real.exp Real.rpow 1 0 1 1 1 (-2) (-1) = 1 := by
    norm_num [specModel, specRightTail]
  refine ⟨by norm_num, hc, hsp, ?_⟩
  rw [hc, hsp]
  intro h
  have := Real.exp_eq_one_iff (-(1 / 2))
  rw [this] at h
  norm_num at h

/-- C9, amended: for all real `x` and all parameters with `sigma > 0`,
`alphaL > 0`, `n > 0` and `alphaR ≥ -alphaL`, the fit expression equals the
specified three-region model; at `z = -alphaL` with `-alphaL < alphaR` the
code evaluates its left-tail branch and the specification its core, and both
give `A exp(-alphaL^2/2)`. -/
theorem fitExpr_eq_specModel (A mu sigma alphaL n alphaR x : ℝ) (hsigma : 0 < sigma)
    (hL : 0 < alphaL) (hn : 0 < n) (hR : -alphaL ≤ alphaR) :
    fitExpr Real.exp Real.rpow (paramArray A mu sigma alphaL n alphaR) x =
      specModel Real.exp Real.rpow A mu sigma alphaL n alphaR x ∧
    ((x - mu) / sigma = -alphaL → -alphaL < alphaR →
      fitExpr Real.exp Real.rpow (paramArray A mu sigma alphaL n alphaR) x =
        A * leftBranch Real.exp Real.rpow (paramArray A mu sigma alphaL n alphaR) x ∧
      specModel Real.exp Real.rpow A mu sigma alphaL n alphaR x =
        specCore Real.exp A ((x - mu) / sigma) ∧
      specCore Real.exp A ((x - mu) / sigma) = A * Real.exp (-(alphaL ^ 2) / 2) ∧
      A * leftBranch Real.exp Real.rpow (paramArray A mu sigma alphaL n alphaR) x =
        A * Real.exp (-(alphaL ^ 2) / 2)) := by
  have _ := hsigma
  have hpos : 0 < (paramArray A mu sigma alphaL n alphaR) 4 /
      (paramArray A mu sigma alphaL n alphaR) 3 := div_pos hn hL
  have hcore := coreBranch_eq (paramArray A mu sigma alphaL n alphaR) x
  have hright := rightBranch_eq (paramArray A mu sigma alphaL n alphaR) x
  have hleft := leftBranch_eq (paramArray A mu sigma alphaL n alphaR) x
  have hjoin : (x - mu) / sigma = -alphaL →
      leftBranch Real.exp Real.rpow (paramArray A mu sigma alphaL n alphaR) x =
        Real.exp (-(alphaL ^ 2) / 2) := fun hz =>
    leftBranch_at_join (paramArray A mu sigma alphaL n alphaR) x hz hpos
  simp only [paramArray] at hcore hright hleft
  constructor
  · simp only [fitExpr, specModel, specCore, specLeftTail, specRightTail, paramArray]
    by_cases h1 : (x - mu) / sigma > -alphaL
    · have h1le : -alphaL ≤ (x - mu) / sigma := le_of_lt h1
      by_cases h2 : (x - mu) / sigma < alphaR
      · rw [if_pos h1, if_pos h2, if_pos ⟨h1le, h2⟩, hcore]
      · have h3 : ¬ (-alphaL ≤ (x - mu) / sigma ∧ (x - mu) / sigma < alphaR) :=
          fun h => h2 h.2
        have h4 : ¬ ((x - mu) / sigma < -alphaL) := not_lt.mpr h1le
        rw [if_pos h1, if_neg h2, if_neg h3, if_neg h4, hright]
    · rw [if_neg h1]
      rcases lt_or_eq_of_le (not_lt.mp h1) with h2 | h2
      · have h3 : ¬ (-alphaL ≤ (x - mu) / sigma ∧ (x - mu) / sigma < alphaR) :=
          fun h => absurd h2 (not_lt.mpr h.1)
        rw [if_neg h3, if_pos h2, hleft]
        ring
      · rw [hjoin h2]
        by_cases h5 : (x - mu) / sigma < alphaR
        · rw [if_pos ⟨h2.ge, h5⟩, h2]
          congr 2
          ring
        · have h3 : ¬ (-alphaL ≤ (x - mu) / sigma ∧ (x - mu) / sigma < alphaR) :=
            fun h => h5 h.2
          have h4 : ¬ ((x - mu) / sigma < -alphaL) := by rw [h2]; exact lt_irrefl _
          have hRe : alphaR = -alphaL := le_antisymm (by rw [← h2]; exact not_lt.mp h5) hR
          rw [if_neg h3, if_neg h4, h2, hRe]
          congr 2
          ring
  · intro hz hlt
    have h1 : ¬ ((x - mu) / sigma > -alphaL) := by rw [hz]; exact lt_irrefl _
    refine ⟨?_, ?_, ?_, ?_⟩
    · simp only [fitExpr, paramArray, if_neg h1]
    · have h2 : -alphaL ≤ (x - mu) / sigma ∧ (x - mu) / sigma < alphaR := by
        rw [hz]
        exact ⟨le_refl _, hlt⟩
      simp only [specModel, if_pos h2]
    · rw [specCore, hz]
      congr 2
      ring
    · rw [hjoin hz]

/-- Witness for C9 (amended): parameters `A = 1, mu = 0, sigma = 1,
alphaL = 1, n = 1, alphaR = 1` at `x = -1`, the left join. -/
theorem fitExpr_eq_specModel_witness :
    fitExpr Real.exp Real.rpow (paramArray 1 0 1 1 1 1) (-1) =
      specModel Real.exp Real.rpow 1 0 1 1 1 1 (-1) :=
  (fitExpr_eq_specModel 1 0 1 1 1 1 (-1) (by norm_num) (by norm_num) (by norm_num)
    (by norm_num)).1

/-! ### C10 -/

/-- C10, counterexample: with `alphaL = 0` (the lower limit of `[3]` in
`draw_mva_pars.cc`), `mu = 1`, `sigma = 1`, `A = 1` and the seeds `n = 5`,
`alphaR = 1.5`, at `x = 1`, that is `z = -alphaL`, the Gaussian branch has
the value `1` while the left-tail branch, whose factor `([4]/[3])^[4]`
divides by zero, has not: in the exact-arithmetic embedding it evaluates to
`0` (in floating point to `inf * 0`). -/
theorem left_join_fails_at_zero_alphaL :
    ((1 : ℝ) - paramArray 1 1 1 0 5 1.5 1) / paramArray 1 1 1 0 5 1.5 2
      = -(paramArray 1 1 1 0 5 1.5 3) ∧
    paramArray (1 : ℝ) 1 1 0 5 1.5 0 * coreBranch Real.exp Real.rpow (paramArray 1 1 1 0 5 1.5) 1
      = 1 ∧
    paramArray (1 : ℝ) 1 1 0 5 1.5 0 * leftBranch Real.exp Real.rpow (paramArray 1 1 1 0 5 1.5) 1
      = 0 ∧
    paramArray (1 : ℝ) 1 1 0 5 1.5 0 * leftBranch Real.exp Real.rpow (paramArray 1 1 1 0 5 1.5) 1
      ≠ paramArray (1 : ℝ) 1 1 0 5 1.5 0 *
        coreBranch Real.exp Real.rpow (paramArray 1 1 1 0 5 1.5) 1 := by
  have hcore : paramArray (1 : ℝ) 1 1 0 5 1.5 0 *
      coreBranch Real.exp Real.rpow (paramArray 1 1 1 0 5 1.5) 1 = 1 := by
    rw [coreBranch_eq]
    norm_num [paramArray]
  have hz : Real.rpow 0 5 = 0 := by
    show (0 : ℝ) ^ (5 : ℝ) = 0
    exact Real.zero_rpow (by norm_num)
  have hleft : paramArray (1 : ℝ) 1 1 0 5 1.5 0 *
      leftBranch Real.exp Real.rpow (paramArray 1 1 1 0 5 1.5) 1 = 0 := by
    simp only [leftBranch, paramArray, div_zero, hz, zero_mul, mul_zero]
  refine ⟨by norm_num [paramArray], hcore, hleft, ?_⟩
  rw [hcore, hleft]
  norm_num

/-- C10, amended: for parameter values with `sigma ≠ 0` the model has no
jump at its joins wherever `n / alphaL > 0` (in particular for `alphaL > 0`
and `n > 0`): at `z = -alphaL` the value of the power-law branch equals the
value of the Gaussian branch, and at `z = alphaR`, for all values of the
other parameters, the value of the exponential branch equals the value of the
Gaussian branch. -/
theorem branches_agree_at_joins (p : ℕ → ℝ) (x : ℝ) (hsigma : p 2 ≠ 0) :
    ((x - p 1) / p 2 = -(p 3) → 0 < p 4 / p 3 →
      p 0 * leftBranch Real.exp Real.rpow p x = p 0 * coreBranch Real.exp Real.rpow p x) ∧
    ((x - p 1) / p 2 = p 5 →
      p 0 * rightBranch Real.exp p x = p 0 * coreBranch Real.exp Real.rpow p x) := by
  have _ := hsigma
  constructor
  · intro hz hpos
    rw [leftBranch_at_join p x hz hpos, coreBranch_eq, hz]
    congr 2
    ring
  · intro hz
    rw [rightBranch_eq, coreBranch_eq, hz]
    congr 2
    ring

/-- Witness for C10 (amended): the seeds `alphaL = 1.5, n = 5, alphaR = 1.5`
with `A = 1, mu = 0, sigma = 1`, at the left join `x = -1.5`. -/
theorem branches_agree_at_joins_witness :
    paramArray (1 : ℝ) 0 1 1.5 5 1.5 2 ≠ 0 ∧
    paramArray (1 : ℝ) 0 1 1.5 5 1.5 0 *
        leftBranch Real.exp Real.rpow (paramArray 1 0 1 1.5 5 1.5) (-1.5) =
      paramArray (1 : ℝ) 0 1 1.5 5 1.5 0 *
        coreBranch Real.exp Real.rpow (paramArray 1 0 1 1.5 5 1.5) (-1.5) :=
  ⟨by norm_num [paramArray],
    (branches_agree_at_joins (paramArray 1 0 1 1.5 5 1.5) (-1.5)
      (by norm_num [paramArray])).1 (by norm_num [paramArray]) (by norm_num [paramArray])⟩

/-! ### C11 -/

/-- C11: for a non-empty real sample on which `MeanSigma` returns, the
returned sigma is non-negative and the returned mean lies between the
smallest and the largest value of the sample. -/
theorem MeanSigma_result_in_range (numbers : List ℝ) (hne : numbers ≠ []) (r : ℝ × ℝ)
    (hr : MeanSigma Real.sqrt numbers = .ok r) :
    0 ≤ r.2 ∧ sampleMin numbers ≤ r.1 ∧ r.1 ≤ sampleMax numbers ∧
    sampleMin numbers ∈ numbers ∧ sampleMax numbers ∈ numbers ∧
    ∀ v ∈ numbers, sampleMin numbers ≤ v ∧ v ≤ sampleMax numbers := by
  obtain ⟨hminmem, hmin⟩ := sampleMin_spec numbers hne
  obtain ⟨hmaxmem, hmax⟩ := sampleMax_spec numbers hne
  refine ⟨?_, ?_, ?_, hminmem, hmaxmem, fun v hv => ⟨hmin v hv, hmax v hv⟩⟩
  · obtain ⟨_, _, _, _, arg, _, hs⟩ := MeanSigma_ok_stats Real.sqrt numbers r hr
    rw [hs]
    exact Real.sqrt_nonneg _
  · exact le_MeanSigma_mean Real.sqrt numbers r hr _ hmin
  · exact MeanSigma_mean_le Real.sqrt numbers r hr _ hmax

/-- Witness for C11: the sample `[1, 3]` gives mean 2 and sigma 1. -/
theorem MeanSigma_result_in_range_witness :
    ([1, 3] : List ℝ) ≠ [] ∧ MeanSigma Real.sqrt ([1, 3] : List ℝ) = .ok (2, 1) ∧
    (0 : ℝ) ≤ ((2 : ℝ), (1 : ℝ)).2 ∧ sampleMin ([1, 3] : List ℝ) ≤ ((2 : ℝ), (1 : ℝ)).1 ∧
    ((2 : ℝ), (1 : ℝ)).1 ≤ sampleMax ([1, 3] : List ℝ) :=
  ⟨by simp, MeanSigma_one_three,
    (MeanSigma_result_in_range [1, 3] (by simp) (2, 1) MeanSigma_one_three).1,
    (MeanSigma_result_in_range [1, 3] (by simp) (2, 1) MeanSigma_one_three).2.1,
    (MeanSigma_result_in_range [1, 3] (by simp) (2, 1) MeanSigma_one_three).2.2.1⟩

/-! ### C12 -/

/-- C12: in both variants `fit_slices_real` ends in `FATAL("x.size() < 1")`
when `x` has length 0, whatever the index array, the fit, `y` and the block
size are (nothing of the sorting, the blocks or the fits enters the result);
and when the length is at least 1 it never ends in that error. -/
theorem empty_input_is_fatal (sqrt : α → α) (fitter : Fitter α) (x y : List α)
    (ind : List Nat) (blockSize : ℤ) :
    (x.length = 0 →
      DrawResultsHelper.fit_slices_real sqrt fitter x y ind blockSize
        = .error Fatal.emptyInput ∧
      DrawMvaPars.fit_slices_real sqrt fitter x y ind blockSize = .error Fatal.emptyInput) ∧
    (1 ≤ x.length →
      DrawResultsHelper.fit_slices_real sqrt fitter x y ind blockSize
        ≠ .error Fatal.emptyInput ∧
      DrawMvaPars.fit_slices_real sqrt fitter x y ind blockSize ≠ .error Fatal.emptyInput) := by
  constructor
  · intro h0
    have hlt : x.length < 1 := by omega
    simp only [DrawResultsHelper.fit_slices_real, DrawMvaPars.fit_slices_real, if_pos hlt,
      and_self]
  · intro hL
    constructor
    · intro h
      have := DrawResultsHelper.fit_slices_real_error sqrt fitter x y ind blockSize _ hL h
      exact Fatal.noConfusion this
    · intro h
      have := DrawMvaPars.lenient_fit_slices_real_error sqrt fitter x y ind blockSize _ hL h
      exact Fatal.noConfusion this

/-- Witness for C12: the empty sample is fatal in both variants, the worked
example of three pairs is not. -/
theorem empty_input_is_fatal_witness :
    (DrawResultsHelper.fit_slices_real Real.sqrt exampleFitter ([] : List ℝ) [] [] 1
        = .error Fatal.emptyInput ∧
      DrawMvaPars.fit_slices_real Real.sqrt exampleFitter ([] : List ℝ) [] [] 1
        = .error Fatal.emptyInput) ∧
    (DrawResultsHelper.fit_slices_real Real.sqrt exampleFitter
        ([1, 2, 3] : List ℝ) [1, 3, 1] [0, 1, 2] 1 ≠ .error Fatal.emptyInput ∧
      DrawMvaPars.fit_slices_real Real.sqrt exampleFitter
        ([1, 2, 3] : List ℝ) [1, 3, 1] [0, 1, 2] 1 ≠ .error Fatal.emptyInput) :=
  ⟨(empty_input_is_fatal Real.sqrt exampleFitter ([] : List ℝ) [] [] 1).1 rfl,
    (empty_input_is_fatal Real.sqrt exampleFitter ([1, 2, 3] : List ℝ) [1, 3, 1] [0, 1, 2]
      1).2 (by simp)⟩

/-! ### C13 -/

/-- C13: `MeanSigma` ends in the fatal "did not converge" exit exactly when
none of the passes 1..1000 of its loop meets the test of the `1e-6`
tolerance on both mean and sigma; that exit is its only failure; and when
some pass meets the test it returns the pair `(mean, sigma)` held after the
first pass that does. The test of pass `k` holds exactly when the pairs after
`k` and after `k - 1` passes are finite and the change of the mean and of
sigma is within `1e-6` times the new value. -/
theorem MeanSigma_fails_iff_no_iterate_converges (sqrt : α → α) (numbers : List α) :
    (MeanSigma sqrt numbers = .error Fatal.didNotConverge ↔
      ∀ k, 1 ≤ k → k ≤ 1000 → ¬ codeTol sqrt numbers k) ∧
    (∀ e, MeanSigma sqrt numbers = .error e → e = Fatal.didNotConverge) ∧
    ((∃ k, 1 ≤ k ∧ k ≤ 1000 ∧ codeTol sqrt numbers k) →
      ∃ k, 1 ≤ k ∧ k ≤ 1000 ∧ codeTol sqrt numbers k ∧
        (∀ j, 1 ≤ j → j < k → ¬ codeTol sqrt numbers j) ∧
        ∃ m s, codeIterate sqrt numbers k = (some m, some s) ∧
          MeanSigma sqrt numbers = .ok (m, s)) ∧
    (∀ k, codeTol sqrt numbers k ↔
      ∃ m s mp sp, codeIterate sqrt numbers k = (some m, some s) ∧
        codeIterate sqrt numbers (k - 1) = (some mp, some sp) ∧
        |m - mp| ≤ 1e-6 * |m| ∧ |s - sp| ≤ 1e-6 * |s|) := by
  refine ⟨MeanSigma_error_iff_codeTol sqrt numbers,
    fun e he => MeanSigma_error sqrt numbers e he, ?_, ?_⟩
  · intro h
    obtain ⟨k, h1, h2, ht, hfirst⟩ := exists_first_codeTol sqrt numbers h
    obtain ⟨m, s, mp, sp, hcur, _, _, _⟩ := converged_eq_true _ _ ht
    refine ⟨k, h1, h2, ht, hfirst, m, s, hcur, ?_⟩
    rw [MeanSigma_ok_iff_codeTol]
    exact ⟨k, h1, h2, ht, hfirst, by rw [hcur]; rfl⟩
  · intro k
    constructor
    · intro h
      exact converged_eq_true _ _ h
    · rintro ⟨m, s, mp, sp, h1, h2, h3, h4⟩
      rw [codeTol, h1, h2, converged, decide_eq_true_eq]
      exact ⟨h3, h4⟩

/-- Witness for C13: the sample `[1, 3]` returns, so it does not end in the
fatal exit, and some pass in 1..1000 meets the test. -/
theorem MeanSigma_fails_iff_no_iterate_converges_witness :
    MeanSigma Real.sqrt ([1, 3] : List ℝ) ≠ .error Fatal.didNotConverge ∧
    ¬ ∀ k, 1 ≤ k → k ≤ 1000 → ¬ codeTol Real.sqrt ([1, 3] : List ℝ) k := by
  have hne : MeanSigma Real.sqrt ([1, 3] : List ℝ) ≠ .error Fatal.didNotConverge := by
    rw [MeanSigma_one_three]
    exact fun h => Except.noConfusion h
  exact ⟨hne, fun h =>
    hne ((MeanSigma_fails_iff_no_iterate_converges Real.sqrt [1, 3]).1.mpr h)⟩

end ClaimsCurve

section ClaimsBlocks

variable {α : Type} [LinearOrderedField α]

/-! ### C14 -/

/-- C14, counterexample: for a sample of 25 elements and block size 10 the
code computes 3 blocks, not 2: the quotient 2.5 is rounded by the C function
`round`, which takes halves away from zero. -/
theorem twentyfive_by_ten_is_three_blocks : nblocks 25 10 = 3 ∧ nblocks 25 10 ≠ 2 := by
  have h := nblocks_eq_div 25 10 (by norm_num) (by norm_num)
  norm_num at h
  rw [h]
  exact ⟨rfl, by norm_num⟩

/-- C14, amended: for block size 10 and every 25-element paired sample the
partition has 3 blocks, holding 10, 10 and 5 elements. -/
theorem twentyfive_by_ten_block_sizes (x y : List α) (ind : List Nat)
    (hlen : x.length = 25) :
    nblocks x.length 10 = 3 ∧
    (blockData x y ind 10 0).1.length = 10 ∧ (blockData x y ind 10 0).2.length = 10 ∧
    (blockData x y ind 10 1).1.length = 10 ∧ (blockData x y ind 10 1).2.length = 10 ∧
    (blockData x y ind 10 2).1.length = 5 ∧ (blockData x y ind 10 2).2.length = 5 := by
  have h := nblocks_eq_div 25 10 (by norm_num) (by norm_num)
  norm_num at h
  have h0 := blockData_length x y ind 10 0
  have h1 := blockData_length x y ind 10 1
  have h2 := blockData_length x y ind 10 2
  rw [hlen] at h0 h1 h2 ⊢
  norm_num at h0 h1 h2
  exact ⟨h, h0.1, h0.2, h1.1, h1.2, h2.1, h2.2⟩

/-- Witness for C14 (amended): a sample of 25 equal pairs. -/
theorem twentyfive_by_ten_block_sizes_witness :
    (List.replicate 25 (1 : ℚ)).length = 25 ∧
    nblocks (List.replicate 25 (1 : ℚ)).length 10 = 3 ∧
    (blockData (List.replicate 25 (1 : ℚ)) (List.replicate 25 (1 : ℚ)) (List.range 25)
      10 2).1.length = 5 :=
  ⟨by simp,
    (twentyfive_by_ten_block_sizes (List.replicate 25 (1 : ℚ)) (List.replicate 25 (1 : ℚ))
      (List.range 25) (by simp)).1,
    (twentyfive_by_ten_block_sizes (List.replicate 25 (1 : ℚ)) (List.replicate 25 (1 : ℚ))
      (List.range 25) (by simp)).2.2.2.2.2.1⟩

/-! ### C15 -/

/-- C15, counterexample: twelve pairs with block size 10 (remainder 2, less
than half a block) give one block; it holds exactly 10 elements, and the
input indices at the sorted positions 10 and 11 belong to no block: the
remainder is left out, not merged. -/
theorem short_remainder_is_not_merged :
    IsSortIndex ([1, 2, 3, 4, 5, 6, 7, 8, 9, 10, 11, 12] : List ℚ)
      [0, 1, 2, 3, 4, 5, 6, 7, 8, 9, 10, 11] ∧
    nblocks ([1, 2, 3, 4, 5, 6, 7, 8, 9, 10, 11, 12] : List ℚ).length 10 = 1 ∧
    (blockData ([1, 2, 3, 4, 5, 6, 7, 8, 9, 10, 11, 12] : List ℚ)
      [1, 2, 3, 4, 5, 6, 7, 8, 9, 10, 11, 12]
      [0, 1, 2, 3, 4, 5, 6, 7, 8, 9, 10, 11] 10 0).1 = [1, 2, 3, 4, 5, 6, 7, 8, 9, 10] ∧
    10 ∉ blockIndices [0, 1, 2, 3, 4, 5, 6, 7, 8, 9, 10, 11] 12 10 0 ∧
    11 ∉ blockIndices [0, 1, 2, 3, 4, 5, 6, 7, 8, 9, 10, 11] 12 10 0 := by
  have hn : nblocks ([1, 2, 3, 4, 5, 6, 7, 8, 9, 10, 11, 12] : List ℚ).length 10 = 1 := by
    have := nblocks_eq_div 12 10 (by norm_num) (by norm_num)
    simp only [List.length_cons, List.length_nil]
    norm_num at this ⊢
    exact this
  refine ⟨by unfold IsSortIndex; decide, hn, by decide, by decide, by decide⟩

/-- C15, amended: when the length is not a multiple of `blockSize` and the
trailing remainder has fewer than `blockSize / 2` elements, no block holds
more than `blockSize` elements, each of the first `L / blockSize` blocks
holds exactly `blockSize` elements, and the input indices at the sorted
positions of the remainder belong to no block but the one numbered
`L / blockSize`. For a length below `2 ^ 23` the block count is the floor
`L / blockSize`, so that the remainder belongs to no block the loop
processes: it is left out, not merged. -/
theorem short_remainder_is_excluded (x y : List α) (ind : List Nat) (bs : ℕ)
    (hbs : 1 ≤ bs) (hrem : 0 < x.length % bs) (hhalf : 2 * (x.length % bs) < bs)
    (hind : IsSortIndex x ind) :
    (∀ b, (blockData x y ind (bs : ℤ) b).1.length ≤ bs) ∧
    (∀ b, b < x.length / bs →
      (blockData x y ind (bs : ℤ) b).1.length = bs ∧
      (blockData x y ind (bs : ℤ) b).2.length = bs) ∧
    (∀ k, x.length / bs * bs ≤ k → k < x.length →
      ∀ b, ind.getD k 0 ∈ blockIndices ind x.length (bs : ℤ) b → b = x.length / bs) ∧
    (x.length < 2 ^ 23 →
      nblocks x.length (bs : ℤ) = ((x.length / bs : ℕ) : ℤ) ∧
      ∀ k, x.length / bs * bs ≤ k → k < x.length →
        ∀ b : ℕ, (b : ℤ) < nblocks x.length (bs : ℤ) →
          ind.getD k 0 ∉ blockIndices ind x.length (bs : ℤ) b) := by
  have _ := hrem
  have hq := (nblocks_cases x.length bs hbs).1 hhalf
  have hown : ∀ k, x.length / bs * bs ≤ k → k < x.length →
      ∀ b, ind.getD k 0 ∈ blockIndices ind x.length (bs : ℤ) b → b = x.length / bs := by
    intro k hk hkl b hmem
    rw [mem_blockIndices_iff hind bs b hkl, mem_specPositions] at hmem
    have hdm := Nat.div_add_mod x.length bs
    have hr := Nat.mod_lt x.length hbs
    rcases Nat.lt_trichotomy b (x.length / bs) with h | h | h
    · have h1 : (b + 1) * bs ≤ x.length / bs * bs := Nat.mul_le_mul_right bs h
      omega
    · exact h
    · have h1 : (x.length / bs + 1) * bs ≤ b * bs := Nat.mul_le_mul_right bs h
      have h2 : (x.length / bs + 1) * bs = bs * (x.length / bs) + bs := by ring
      omega
  refine ⟨fun b => blockData_length_le x y ind bs b, ?_, hown, ?_⟩
  · intro b hb
    apply blockData_length_full
    have h1 : (b + 1) * bs ≤ x.length / bs * bs := Nat.mul_le_mul_right bs hb
    exact h1.trans (Nat.div_mul_le_self _ _)
  · intro hL
    have hN := nblocks_eq_div x.length bs hbs hL
    rw [hq] at hN
    refine ⟨hN, ?_⟩
    intro k hk hkl b hb hmem
    rw [hN] at hb
    have hb2 : b < x.length / bs := by exact_mod_cast hb
    have := hown k hk hkl b hmem
    omega

/-- Witness for C15 (amended): twelve pairs with block size 10; the block
count is 1 and the index at the sorted position 11 is in no processed
block. -/
theorem short_remainder_is_excluded_witness :
    IsSortIndex ([1, 2, 3, 4, 5, 6, 7, 8, 9, 10, 11, 12] : List ℚ)
      [0, 1, 2, 3, 4, 5, 6, 7, 8, 9, 10, 11] ∧
    nblocks ([1, 2, 3, 4, 5, 6, 7, 8, 9, 10, 11, 12] : List ℚ).length ((10 : ℕ) : ℤ)
      = ((([1, 2, 3, 4, 5, 6, 7, 8, 9, 10, 11, 12] : List ℚ).length / 10 : ℕ) : ℤ) ∧
    ∀ b : ℕ, (b : ℤ) <
        nblocks ([1, 2, 3, 4, 5, 6, 7, 8, 9, 10, 11, 12] : List ℚ).length ((10 : ℕ) : ℤ) →
      ([0, 1, 2, 3, 4, 5, 6, 7, 8, 9, 10, 11] : List ℕ).getD 11 0 ∉
        blockIndices [0, 1, 2, 3, 4, 5, 6, 7, 8, 9, 10, 11]
          ([1, 2, 3, 4, 5, 6, 7, 8, 9, 10, 11, 12] : List ℚ).length ((10 : ℕ) : ℤ) b := by
  have hs : IsSortIndex ([1, 2, 3, 4, 5, 6, 7, 8, 9, 10, 11, 12] : List ℚ)
      [0, 1, 2, 3, 4, 5, 6, 7, 8, 9, 10, 11] := by
    unfold IsSortIndex
    decide
  have h := (short_remainder_is_excluded ([1, 2, 3, 4, 5, 6, 7, 8, 9, 10, 11, 12] : List ℚ)
    [1, 2, 3, 4, 5, 6, 7, 8, 9, 10, 11, 12] [0, 1, 2, 3, 4, 5, 6, 7, 8, 9, 10, 11] 10
    (by norm_num) (by decide) (by decide) hs).2.2.2 (by simp)
  exact ⟨hs, h.1, fun b hb => h.2 11 (by decide) (by decide) b hb⟩

/-! ### C16 -/

/-- C16, counterexample: the pairs `(1, 10), (1, 20)` have equal x. Swapping
them leaves the x vector `[1, 1]` as it was, so `TMath::Sort` returns the same
index array, whichever of the two possible ones that is; with block size 1
block 0 then holds the y-value of the other pair, so the blocks of the
permuted input are not those of the original. -/
theorem partition_depends_on_order_of_ties :
    ([((1 : ℚ), (20 : ℚ)), (1, 10)]).Perm [(1, 10), (1, 20)] ∧
    ([((1 : ℚ), (20 : ℚ)), (1, 10)]).map Prod.fst = [((1 : ℚ), (10 : ℚ)), (1, 20)].map Prod.fst ∧
    nblocks ([((1 : ℚ), (10 : ℚ)), (1, 20)].map Prod.fst).length 1 = 2 ∧
    ∀ ind, IsSortIndex ([((1 : ℚ), (10 : ℚ)), (1, 20)].map Prod.fst) ind →
      ¬ (blockData ([((1 : ℚ), (20 : ℚ)), (1, 10)].map Prod.fst)
          ([((1 : ℚ), (20 : ℚ)), (1, 10)].map Prod.snd) ind 1 0).2.Perm
        (blockData ([((1 : ℚ), (10 : ℚ)), (1, 20)].map Prod.fst)
          ([((1 : ℚ), (10 : ℚ)), (1, 20)].map Prod.snd) ind 1 0).2 := by
  refine ⟨by decide, by decide, ?_, ?_⟩
  · have := nblocks_eq_div 2 1 (by norm_num) (by norm_num)
    simp only [List.map_cons, List.map_nil, List.length_cons, List.length_nil]
    norm_num at this ⊢
    exact this
  · intro ind hind
    have h := hind.1
    simp only [List.map_cons, List.map_nil, List.length_cons, List.length_nil] at h
    rcases perm_range_two ind h with rfl | rfl <;> decide

/-- C16, amended: for every paired sample whose x values are pairwise
distinct and every permutation of its pairs, with index arrays sorting each
input, the partition has the same number of blocks and every block holds the
same `(x, y)` pairs, in the same order, for the permuted input as for the
original. -/
theorem partition_permutation_invariant (ps ps2 : List (α × α)) (ind ind2 : List Nat)
    (blockSize : ℤ) (hperm : ps2.Perm ps) (hnd : (ps.map Prod.fst).Nodup)
    (hind : IsSortIndex (ps.map Prod.fst) ind)
    (hind2 : IsSortIndex (ps2.map Prod.fst) ind2) :
    nblocks (ps2.map Prod.fst).length blockSize = nblocks (ps.map Prod.fst).length blockSize ∧
    ∀ b, blockData (ps2.map Prod.fst) (ps2.map Prod.snd) ind2 blockSize b =
      blockData (ps.map Prod.fst) (ps.map Prod.snd) ind blockSize b := by
  have hl : ps2.length = ps.length := hperm.length_eq
  refine ⟨by rw [List.length_map, List.length_map, hl], ?_⟩
  intro b
  rw [blockData_toNat _ _ ind2, blockData_toNat _ _ ind,
    blockData_eq_sortedPairs ps2 ind2 _ b hind2, blockData_eq_sortedPairs ps ind _ b hind,
    sortedPairs_unique ps ps2 ind ind2 hperm hnd hind hind2, hl]

/-- Witness for C16 (amended): the pairs `(2, 20), (1, 10)` and their swap,
with block size 1. -/
theorem partition_permutation_invariant_witness :
    ([((1 : ℚ), (10 : ℚ)), (2, 20)]).Perm [(2, 20), (1, 10)] ∧
    ([((2 : ℚ), (20 : ℚ)), (1, 10)].map Prod.fst).Nodup ∧
    IsSortIndex ([((2 : ℚ), (20 : ℚ)), (1, 10)].map Prod.fst) [1, 0] ∧
    IsSortIndex ([((1 : ℚ), (10 : ℚ)), (2, 20)].map Prod.fst) [0, 1] ∧
    blockData ([((1 : ℚ), (10 : ℚ)), (2, 20)].map Prod.fst)
        ([((1 : ℚ), (10 : ℚ)), (2, 20)].map Prod.snd) [0, 1] 1 0 =
      blockData ([((2 : ℚ), (20 : ℚ)), (1, 10)].map Prod.fst)
        ([((2 : ℚ), (20 : ℚ)), (1, 10)].map Prod.snd) [1, 0] 1 0 := by
  have hp : ([((1 : ℚ), (10 : ℚ)), (2, 20)]).Perm [(2, 20), (1, 10)] := by decide
  have hn : ([((2 : ℚ), (20 : ℚ)), (1, 10)].map Prod.fst).Nodup := by decide
  have h1 : IsSortIndex ([((2 : ℚ), (20 : ℚ)), (1, 10)].map Prod.fst) [1, 0] := by
    unfold IsSortIndex
    decide
  have h2 : IsSortIndex ([((1 : ℚ), (10 : ℚ)), (2, 20)].map Prod.fst) [0, 1] := by
    unfold IsSortIndex
    decide
  exact ⟨hp, hn, h1, h2,
    (partition_permutation_invariant [(2, 20), (1, 10)] [(1, 10), (2, 20)] [1, 0] [0, 1] 1
      hp hn h1 h2).2 0⟩

end ClaimsBlocks

section ClaimsRuns

variable {α : Type} [LinearOrderedField α] [FloorRing α]

/-! ### C17 -/

/-- C17: the length `16777217 = 16777217 * 1` is a multiple of the block
size 1 with `k = 16777217`, and the code counts 16777216 blocks, not `k`:
the cast `(float)siz` rounds the length to 16777216. For every sample of
that length the input index at the last sorted position belongs to no
processed block, and a lenient run that returns has 16777216 points in its
graphs. For a length `k * blockSize` below `2 ^ 23` the code does what the
claim says: `k` blocks of `blockSize` elements, every index in a block, `k`
points from the lenient variant and from the strict variant when every block
passes; for 10,000 pairs and block size 500 it counts 20 blocks. -/
theorem exact_multiple_block_count_diverges :
    (16777217 : ℕ) = 16777217 * 1 ∧
    nblocks 16777217 1 = 16777216 ∧
    (∀ (x : List α) (ind : List Nat), x.length = 16777217 → IsSortIndex x ind →
      ∀ b : ℕ, (b : ℤ) < nblocks x.length 1 →
        ind.getD 16777216 0 ∉ blockIndices ind x.length 1 b) ∧
    (∀ (sqrt : α → α) (fitter : Fitter α) (x y : List α) (ind : List Nat)
      (st : DrawMvaPars.State α), x.length = 16777217 →
      DrawMvaPars.fit_slices_real sqrt fitter x y ind 1 = .ok st →
      st.grMeanVsMean.length = 16777216 ∧ st.grSigmaVsSigma.length = 16777216) ∧
    (∀ (sqrt : α → α) (fitter : Fitter α) (x y : List α) (ind : List Nat) (bs k : ℕ),
      1 ≤ k → 1 ≤ bs → x.length = k * bs → x.length < 2 ^ 23 → IsSortIndex x ind →
      nblocks x.length (bs : ℤ) = (k : ℤ) ∧
      (∀ b, b < k →
        (blockData x y ind (bs : ℤ) b).1.length = bs ∧
        (blockData x y ind (bs : ℤ) b).2.length = bs) ∧
      (∀ j, j < x.length → ∃ b, b < k ∧ j ∈ blockIndices ind x.length (bs : ℤ) b) ∧
      (∀ st, DrawMvaPars.fit_slices_real sqrt fitter x y ind (bs : ℤ) = .ok st →
        st.grMeanVsMean.length = k ∧ st.grSigmaVsSigma.length = k) ∧
      (∀ st, DrawResultsHelper.fit_slices_real sqrt fitter x y ind (bs : ℤ) = .ok st →
        (∀ b, b < k → goodFit (blockFit sqrt fitter x y ind (bs : ℤ) b) = true) →
        st.grMean.length = k ∧ st.grSigma.length = k)) ∧
    nblocks 10000 500 = 20 := by
  refine ⟨rfl, nblocks_example_multiple, ?_, ?_, ?_, ?_⟩
  · intro x ind hlen hind b hb hmem
    rw [hlen, nblocks_example_multiple] at hb
    have hb2 : b < 16777216 := by exact_mod_cast hb
    have hk : 16777216 < x.length := by omega
    have h := (mem_blockIndices_iff hind 1 b hk).mp (by simpa using hmem)
    rw [mem_specPositions] at h
    omega
  · intro sqrt fitter x y ind st hlen hst
    obtain ⟨_, hM, hS⟩ :=
      (DrawMvaPars.lenient_fit_slices_real_ok_iff sqrt fitter x y ind _ st (by omega)).mp hst
    rw [hM, hS, List.length_map, List.length_map, List.length_range, hlen,
      nblocks_example_multiple]
    exact ⟨rfl, rfl⟩
  · intro sqrt fitter x y ind bs k hk hbs hlen hL23 hind
    have hL : 1 ≤ x.length := by
      rw [hlen]
      exact Nat.one_le_iff_ne_zero.mpr (Nat.mul_ne_zero (by omega) (by omega))
    have hmod : x.length % bs = 0 := by rw [hlen]; exact Nat.mul_mod_left k bs
    have hdiv : x.length / bs = k := by rw [hlen]; exact Nat.mul_div_cancel k hbs
    have hq := (nblocks_cases x.length bs hbs).1 (by omega)
    rw [hdiv] at hq
    have hN : nblocks x.length (bs : ℤ) = (k : ℤ) := by
      rw [nblocks_eq_div x.length bs hbs hL23, hq]
    have hNt : (nblocks x.length (bs : ℤ)).toNat = k := by rw [hN, Int.toNat_natCast]
    refine ⟨hN, ?_, ?_, ?_, ?_⟩
    · intro b hb
      apply blockData_length_full
      rw [hlen]
      exact Nat.mul_le_mul_right bs hb
    · intro j hj
      obtain ⟨pos, hpos, rfl⟩ := exists_position_of_index hind hj
      refine ⟨pos / bs, ?_, ?_⟩
      · rw [Nat.div_lt_iff_lt_mul hbs, ← hlen]
        exact hpos
      · rw [mem_blockIndices_iff hind bs _ hpos]
        exact position_mem_own_block hbs hpos
    · intro st hst
      obtain ⟨_, hM, hS⟩ :=
        (DrawMvaPars.lenient_fit_slices_real_ok_iff sqrt fitter x y ind _ st hL).mp hst
      rw [hM, hS, List.length_map, List.length_map, List.length_range, hNt]
      exact ⟨rfl, rfl⟩
    · intro st hst hall
      obtain ⟨_, hM, hS, _⟩ :=
        (DrawResultsHelper.fit_slices_real_ok_iff sqrt fitter x y ind _ st hL).mp hst
      have hf : ((List.range (nblocks x.length (bs : ℤ)).toNat).filter fun c =>
          goodFit (blockFit sqrt fitter x y ind (bs : ℤ) c)) =
          List.range (nblocks x.length (bs : ℤ)).toNat := by
        rw [List.filter_eq_self]
        intro c hc
        rw [hNt] at hc
        exact hall c (List.mem_range.mp hc)
      rw [hM, hS, hf, List.length_map, List.length_map, List.length_range, hNt]
      exact ⟨rfl, rfl⟩
  · have h := nblocks_eq_div 10000 500 (by norm_num) (by norm_num)
    norm_num at h
    exact h

/-! ### C18 -/

/-- C18, counterexample: for one pair and a fit reporting position 2 with
error 0.2, the lenient run stores the response error 0.2, the position's own
error, and not `0.2 / 2`. -/
theorem response_error_is_not_divided :
    DrawMvaPars.fit_slices_real Real.sqrt exampleFitter2 ([1] : List ℝ) [1] [0] 1 =
      .ok ⟨[⟨1, 2, 0, 0.2⟩], [⟨1, 2 / 2, 0, 0.2 / 2⟩]⟩ ∧
    (exampleFitter2 ([1] : List ℝ) 1 0).parError 1 = 0.2 ∧
    (exampleFitter2 ([1] : List ℝ) 1 0).par 1 = 2 ∧
    (0.2 : ℝ) ≠ 0.2 / 2 :=
  ⟨lenient_example2_run, rfl, rfl, by norm_num⟩

/-- C18, amended: in both variants, for every appended point the response
error is the fit's position error itself (not divided) and the resolution
error is the fit's width error divided by the fitted position. -/
theorem point_errors (sqrt : α → α) (fitter : Fitter α) (x y : List α)
    (ind : List Nat) (blockSize : ℤ) (hL : 1 ≤ x.length) :
    (∀ st, DrawResultsHelper.fit_slices_real sqrt fitter x y ind blockSize = .ok st →
      ∀ i, i < st.grMean.length →
        ∃ (b : ℕ) (mY : α × α), (b : ℤ) < nblocks x.length blockSize ∧
          MeanSigma sqrt (blockData x y ind blockSize b).2 = .ok mY ∧
          (st.grMean[i]?).map (fun p => p.fEY) = some
            ((fitter (blockData x y ind blockSize b).2 mY.1 mY.2).parError 1) ∧
          (st.grSigma[i]?).map (fun p => p.fEY) = some
            ((fitter (blockData x y ind blockSize b).2 mY.1 mY.2).parError 2 /
              (fitter (blockData x y ind blockSize b).2 mY.1 mY.2).par 1)) ∧
    (∀ st, DrawMvaPars.fit_slices_real sqrt fitter x y ind blockSize = .ok st →
      ∀ i, i < st.grMeanVsMean.length →
        ∃ (mY : α × α), (i : ℤ) < nblocks x.length blockSize ∧
          MeanSigma sqrt (blockData x y ind blockSize i).2 = .ok mY ∧
          (st.grMeanVsMean[i]?).map (fun p => p.fEY) = some
            ((fitter (blockData x y ind blockSize i).2 mY.1 mY.2).parError 1) ∧
          (st.grSigmaVsSigma[i]?).map (fun p => p.fEY) = some
            ((fitter (blockData x y ind blockSize i).2 mY.1 mY.2).parError 2 /
              (fitter (blockData x y ind blockSize i).2 mY.1 mY.2).par 1)) := by
  constructor
  · intro st hst i hi
    obtain ⟨b, mX, mY, hb, _, hY, hM, hS⟩ :=
      strict_point_at sqrt fitter x y ind blockSize hL st hst i hi
    exact ⟨b, mY, hb, hY, by rw [hM]; rfl, by rw [hS]; rfl⟩
  · intro st hst i hi
    obtain ⟨mX, mY, hb, _, hY, hM, hS⟩ :=
      lenient_point_at sqrt fitter x y ind blockSize hL st hst i hi
    exact ⟨mY, hb, hY, by rw [hM]; rfl, by rw [hS]; rfl⟩

/-- Witness for C18 (amended): the run with one pair returns, and its point
has response error 0.2 and resolution error `0.2 / 2`. -/
theorem point_errors_witness :
    ∃ st, DrawMvaPars.fit_slices_real Real.sqrt exampleFitter2 ([1] : List ℝ) [1] [0] 1
        = .ok st ∧
      ∃ mY : ℝ × ℝ, (st.grMeanVsMean[0]?).map (fun p => p.fEY) = some
        ((exampleFitter2 (blockData ([1] : List ℝ) [1] [0] 1 0).2 mY.1 mY.2).parError 1) := by
  refine ⟨_, lenient_example2_run, ?_⟩
  obtain ⟨mY, _, _, h, _⟩ := (point_errors Real.sqrt exampleFitter2 ([1] : List ℝ) [1] [0] 1
    (by simp)).2 _ lenient_example2_run 0 (by simp)
  exact ⟨mY, h⟩

/-! ### C19 -/

/-- C19, counterexample: on the empty sample the window of every pass holds
no sample (`nent = 0`) and `MeanSigma` ends in the fatal "did not converge"
exit; on the non-empty sample `[1 + 2^-12, 1 + 3 * 2^-12]` the window of the
first pass holds no sample (`nent = 0`) and `MeanSigma` ends in the same
exit: the failure of an unconverged run, not a distinct error. -/
theorem empty_window_is_convergence_error :
    (∀ b : Option (ℝ × ℝ), (windowLoop b ([] : List ℝ) (0, some 0, 0)).2.2 = 0) ∧
    MeanSigma Real.sqrt ([] : List ℝ) = .error Fatal.didNotConverge ∧
    (windowLoop (windowBounds (codeIterate Real.sqrt [(4097 / 4096 : ℝ), 4099 / 4096] 0))
      [(4097 / 4096 : ℝ), 4099 / 4096] (0, some 0, 0)).2.2 = 0 ∧
    MeanSigma Real.sqrt [(4097 / 4096 : ℝ), 4099 / 4096] = .error Fatal.didNotConverge := by
  refine ⟨fun _ => rfl, MeanSigma_nil Real.sqrt, ?_, MeanSigma_example_pair_fatal⟩
  rw [nent_eq_zero_iff, codeIterate_zero, stats_example_pair]
  exact codeWindow_example_pair

/-- C19, amended: `MeanSigma` has a single failure, the fatal "did not
converge" exit. Whenever the window of a pass holds no sample (the count
`nent` of pass `c + 1`, taken on the pair after `c` passes, is 0), that pass
leaves NaN in mean and sigma, neither that pass nor the next meets the
convergence test, and, if no earlier pass has returned, `MeanSigma` ends in
the "did not converge" exit; so it does on the empty sample. -/
theorem MeanSigma_single_failure (sqrt : α → α) (numbers : List α) :
    (∀ e, MeanSigma sqrt numbers = .error e → e = Fatal.didNotConverge) ∧
    (∀ c, (windowLoop (windowBounds (codeIterate sqrt numbers c)) numbers
        (0, some 0, 0)).2.2 = 0 →
      codeIterate sqrt numbers (c + 1) = (none, none) ∧
      ¬ codeTol sqrt numbers (c + 1) ∧ ¬ codeTol sqrt numbers (c + 2) ∧
      ((∀ j, 1 ≤ j → j ≤ c → ¬ codeTol sqrt numbers j) →
        MeanSigma sqrt numbers = .error Fatal.didNotConverge)) ∧
    (numbers = [] → MeanSigma sqrt numbers = .error Fatal.didNotConverge) := by
  refine ⟨fun e he => MeanSigma_error sqrt numbers e he, ?_, ?_⟩
  · intro c hc
    rw [nent_eq_zero_iff] at hc
    have hnan : codeIterate sqrt numbers (c + 1) = (none, none) := by
      rw [codeIterate_succ, hc, stats_nil]
    refine ⟨hnan, ?_, ?_, ?_⟩
    · rw [codeTol, hnan, converged_none_left]
      exact Bool.false_ne_true
    · rw [codeTol, show c + 2 - 1 = c + 1 from rfl, hnan, converged_none_right]
      exact Bool.false_ne_true
    · intro hfirst
      apply MeanSigma_error_of_empty_window sqrt numbers c _ hc
      intro j hj
      have h := hfirst (j + 1) (by omega) (by omega)
      rw [codeTol, Bool.not_eq_true] at h
      exact h
  · rintro rfl
    exact MeanSigma_nil sqrt

/-- Witness for C19 (amended): on the sample `[1 + 2^-12, 1 + 3 * 2^-12]` the
window of the first pass holds no sample; the pass leaves NaN and
`MeanSigma` ends in the fatal exit. -/
theorem MeanSigma_single_failure_witness :
    codeIterate Real.sqrt [(4097 / 4096 : ℝ), 4099 / 4096] 1 = (none, none) ∧
    MeanSigma Real.sqrt [(4097 / 4096 : ℝ), 4099 / 4096] = .error Fatal.didNotConverge := by
  have hn : (windowLoop (windowBounds (codeIterate Real.sqrt [(4097 / 4096 : ℝ), 4099 / 4096] 0))
      [(4097 / 4096 : ℝ), 4099 / 4096] (0, some 0, 0)).2.2 = 0 := by
    rw [nent_eq_zero_iff, codeIterate_zero, stats_example_pair]
    exact codeWindow_example_pair
  have h := (MeanSigma_single_failure Real.sqrt [(4097 / 4096 : ℝ), 4099 / 4096]).2.1 0 hn
  exact ⟨h.1, h.2.2.2 (fun j h1 h2 => absurd h1 (by omega))⟩

end ClaimsRuns

section ClaimsFit

variable {α : Type} [LinearOrderedField α]

/-! ### C20 -/

/-- C20, counterexample: in the strict variant, with peak count 10,
`meanY = 1` and `sigmaY = 1/20`, the amplitude is limited to `[3.3, 20]` in
the first two fits and free in the third, and `alphaL` is fixed in the first
fit, limited to `[0.4, 10]` in the second and free in the third: the calls
`ReleaseParameter(0)` and `ReleaseParameter(3)` before the last fit remove
the limits. -/
theorem strict_third_fit_releases_limits :
    ((DrawResultsHelper.fitBlock (fun _ => (10 : ℚ)) exampleMinimizer [1] 1 (1 / 20)).calls.map
      fun c => (c.1, parStatus c.2 0)) =
        [("QEM", ParStatus.limited (0.33 * 10) (2 * 10)),
         ("QEM", ParStatus.limited (0.33 * 10) (2 * 10)), ("QEML", ParStatus.free)] ∧
    ((DrawResultsHelper.fitBlock (fun _ => (10 : ℚ)) exampleMinimizer [1] 1 (1 / 20)).calls.map
      fun c => (c.1, parStatus c.2 3)) =
        [("QEM", ParStatus.fixed), ("QEM", ParStatus.limited 0.4 10),
         ("QEML", ParStatus.free)] := by
  have h1 := fitSetup1_limits (10 : ℚ) 1 (1 / 20)
  have h2 := fitSetup2_limits
    (Fit exampleMinimizer "QEM" [1] ⟨DrawResultsHelper.fitSetup1 (10 : ℚ) 1 (1 / 20), 0, []⟩).fit
  have h3 := fitSetup3_limits (1 / 20 : ℚ)
    (Fit exampleMinimizer "QEM" [1] ⟨DrawResultsHelper.fitSetup2
      (Fit exampleMinimizer "QEM" [1]
        ⟨DrawResultsHelper.fitSetup1 (10 : ℚ) 1 (1 / 20), 0, []⟩).fit, 0, []⟩).fit
  rw [strict_fitBlock_calls]
  simp only [List.map_cons, List.map_nil]
  refine ⟨?_, ?_⟩
  · rw [parStatus_limited _ 0 _ _ h1.1.1 h1.1.2 (by norm_num),
      parStatus_limited _ 0 _ _ (h2.1.1.trans h1.1.1) (h2.1.2.trans h1.1.2) (by norm_num),
      parStatus_free _ 0 h3.1.1 h3.1.2]
  · rw [parStatus_fixed _ 3 _ h1.2.2.2.1.1 h1.2.2.2.1.2.1 (by norm_num),
      parStatus_limited _ 3 _ _ h2.2.2.2.1.1 h2.2.2.2.1.2 (by norm_num),
      parStatus_free _ 3 h3.2.2.2.1.1 h3.2.2.2.1.2]

/-- C20, amended: for a positive histogram peak count and a positive robust
sigma, in the lenient variant both fits run with all six parameters limited
(amplitude to `[0.33, 3]` times the peak count, position to `[0.65, 1.2]`,
width to `[0.33, 1.5]` times the robust sigma, `alphaL` and `alphaR` to
`[0, 10]`, `n` to `[1.01, 100]`); in the strict variant the first fit runs
with amplitude limited to `[0.33, 2]` times the peak count, position to
`meanY ± sigmaY`, width to `[0.1, 1.1]` times the robust sigma and `alphaL`,
`n`, `alphaR` fixed at 1.5, 5, 1.5, the second with the same limits and
`alphaL`, `alphaR` limited to `[0.4, 10]`, `n` to `[1.01, 100]`, and the
third with position limited to `[0.65, 1.2]`, width to `[0, 1.1 sigmaY]` and
amplitude, `alphaL`, `n`, `alphaR` free. -/
theorem fit_parameter_limits (getMax : List α → α) (m : Minimizer α) (by_ : List α)
    (meanY sigmaY : α) (hmax : 0 < getMax by_) (hsig : 0 < sigmaY) :
    (∃ c1 c2, (DrawMvaPars.fitBlock getMax m by_ meanY sigmaY).calls =
        [("QEM", c1), ("QEML", c2)] ∧
      ∀ c, c = c1 ∨ c = c2 →
        parStatus c 0 = ParStatus.limited (0.33 * getMax by_) (3 * getMax by_) ∧
        parStatus c 1 = ParStatus.limited 0.65 1.2 ∧
        parStatus c 2 = ParStatus.limited (0.33 * sigmaY) (1.5 * sigmaY) ∧
        parStatus c 3 = ParStatus.limited 0 10 ∧
        parStatus c 4 = ParStatus.limited 1.01 100 ∧
        parStatus c 5 = ParStatus.limited 0 10) ∧
    (∃ c1 c2 c3, (DrawResultsHelper.fitBlock getMax m by_ meanY sigmaY).calls =
        [("QEM", c1), ("QEM", c2), ("QEML", c3)] ∧
      (parStatus c1 0 = ParStatus.limited (0.33 * getMax by_) (2 * getMax by_) ∧
        parStatus c1 1 = ParStatus.limited (meanY - sigmaY) (meanY + sigmaY) ∧
        parStatus c1 2 = ParStatus.limited (0.1 * sigmaY) (1.1 * sigmaY) ∧
        (parStatus c1 3 = ParStatus.fixed ∧ c1.par 3 = 1.5) ∧
        (parStatus c1 4 = ParStatus.fixed ∧ c1.par 4 = 5) ∧
        (parStatus c1 5 = ParStatus.fixed ∧ c1.par 5 = 1.5)) ∧
      (parStatus c2 0 = ParStatus.limited (0.33 * getMax by_) (2 * getMax by_) ∧
        parStatus c2 1 = ParStatus.limited (meanY - sigmaY) (meanY + sigmaY) ∧
        parStatus c2 2 = ParStatus.limited (0.1 * sigmaY) (1.1 * sigmaY) ∧
        parStatus c2 3 = ParStatus.limited 0.4 10 ∧
        parStatus c2 4 = ParStatus.limited 1.01 100 ∧
        parStatus c2 5 = ParStatus.limited 0.4 10) ∧
      (parStatus c3 0 = ParStatus.free ∧
        parStatus c3 1 = ParStatus.limited 0.65 1.2 ∧
        parStatus c3 2 = ParStatus.limited 0 (1.1 * sigmaY) ∧
        parStatus c3 3 = ParStatus.free ∧
        parStatus c3 4 = ParStatus.free ∧
        parStatus c3 5 = ParStatus.free)) := by
  have ha3 : 0.33 * getMax by_ < 3 * getMax by_ := by
    have : (0.33 : α) < 3 := by norm_num
    exact mul_lt_mul_of_pos_right this hmax
  have ha2 : 0.33 * getMax by_ < 2 * getMax by_ := by
    have : (0.33 : α) < 2 := by norm_num
    exact mul_lt_mul_of_pos_right this hmax
  have hw1 : 0.33 * sigmaY < 1.5 * sigmaY := by
    have : (0.33 : α) < 1.5 := by norm_num
    exact mul_lt_mul_of_pos_right this hsig
  have hw2 : 0.1 * sigmaY < 1.1 * sigmaY := by
    have : (0.1 : α) < 1.1 := by norm_num
    exact mul_lt_mul_of_pos_right this hsig
  have hw3 : 0 < 1.1 * sigmaY := mul_pos (by norm_num) hsig
  have hp : meanY - sigmaY < meanY + sigmaY := by linarith
  constructor
  · have hl := lenient_fitSetup_limits (getMax by_) meanY sigmaY
    have key : parStatus (DrawMvaPars.fitSetup (getMax by_) meanY sigmaY) 0
          = ParStatus.limited (0.33 * getMax by_) (3 * getMax by_) ∧
        parStatus (DrawMvaPars.fitSetup (getMax by_) meanY sigmaY) 1
          = ParStatus.limited 0.65 1.2 ∧
        parStatus (DrawMvaPars.fitSetup (getMax by_) meanY sigmaY) 2
          = ParStatus.limited (0.33 * sigmaY) (1.5 * sigmaY) ∧
        parStatus (DrawMvaPars.fitSetup (getMax by_) meanY sigmaY) 3
          = ParStatus.limited 0 10 ∧
        parStatus (DrawMvaPars.fitSetup (getMax by_) meanY sigmaY) 4
          = ParStatus.limited 1.01 100 ∧
        parStatus (DrawMvaPars.fitSetup (getMax by_) meanY sigmaY) 5
          = ParStatus.limited 0 10 :=
      ⟨parStatus_limited _ 0 _ _ hl.1.1 hl.1.2 ha3,
        parStatus_limited _ 1 _ _ hl.2.1.1 hl.2.1.2 (by norm_num),
        parStatus_limited _ 2 _ _ hl.2.2.1.1 hl.2.2.1.2 hw1,
        parStatus_limited _ 3 _ _ hl.2.2.2.1.1 hl.2.2.2.1.2 (by norm_num),
        parStatus_limited _ 4 _ _ hl.2.2.2.2.1.1 hl.2.2.2.2.1.2 (by norm_num),
        parStatus_limited _ 5 _ _ hl.2.2.2.2.2.1 hl.2.2.2.2.2.2 (by norm_num)⟩
    refine ⟨_, _, lenient_fitBlock_calls getMax m by_ meanY sigmaY, ?_⟩
    rintro c (rfl | rfl)
    · exact key
    · simp only [parStatus_congr (DrawMvaPars.fitSetup (getMax by_) meanY sigmaY)
        (Fit m "QEM" by_ ⟨DrawMvaPars.fitSetup (getMax by_) meanY sigmaY, 0, []⟩).fit _ rfl rfl]
      exact key
  · have h1 := fitSetup1_limits (getMax by_) meanY sigmaY
    have h2 := fitSetup2_limits
      (Fit m "QEM" by_ ⟨DrawResultsHelper.fitSetup1 (getMax by_) meanY sigmaY, 0, []⟩).fit
    have h3 := fitSetup3_limits sigmaY
      (Fit m "QEM" by_ ⟨DrawResultsHelper.fitSetup2
        (Fit m "QEM" by_
          ⟨DrawResultsHelper.fitSetup1 (getMax by_) meanY sigmaY, 0, []⟩).fit, 0, []⟩).fit
    refine ⟨_, _, _, strict_fitBlock_calls getMax m by_ meanY sigmaY, ⟨?_, ?_, ?_, ⟨?_, ?_⟩, ⟨?_, ?_⟩, ⟨?_, ?_⟩⟩, ⟨?_, ?_, ?_, ?_, ?_, ?_⟩,
      ⟨?_, ?_, ?_, ?_, ?_, ?_⟩⟩
    · exact parStatus_limited _ 0 _ _ h1.1.1 h1.1.2 ha2
    · exact parStatus_limited _ 1 _ _ h1.2.1.1 h1.2.1.2 hp
    · exact parStatus_limited _ 2 _ _ h1.2.2.1.1 h1.2.2.1.2 hw2
    · exact parStatus_fixed _ 3 _ h1.2.2.2.1.1 h1.2.2.2.1.2.1 (by norm_num)
    · exact h1.2.2.2.1.2.2
    · exact parStatus_fixed _ 4 _ h1.2.2.2.2.1.1 h1.2.2.2.2.1.2.1 (by norm_num)
    · exact h1.2.2.2.2.1.2.2
    · exact parStatus_fixed _ 5 _ h1.2.2.2.2.2.1 h1.2.2.2.2.2.2.1 (by norm_num)
    · exact h1.2.2.2.2.2.2.2
    · exact parStatus_limited _ 0 _ _ (h2.1.1.trans h1.1.1) (h2.1.2.trans h1.1.2) ha2
    · exact parStatus_limited _ 1 _ _ (h2.2.1.1.trans h1.2.1.1) (h2.2.1.2.trans h1.2.1.2) hp
    · exact parStatus_limited _ 2 _ _ (h2.2.2.1.1.trans h1.2.2.1.1)
        (h2.2.2.1.2.trans h1.2.2.1.2) hw2
    · exact parStatus_limited _ 3 _ _ h2.2.2.2.1.1 h2.2.2.2.1.2 (by norm_num)
    · exact parStatus_limited _ 4 _ _ h2.2.2.2.2.1.1 h2.2.2.2.2.1.2 (by norm_num)
    · exact parStatus_limited _ 5 _ _ h2.2.2.2.2.2.1 h2.2.2.2.2.2.2 (by norm_num)
    · exact parStatus_free _ 0 h3.1.1 h3.1.2
    · exact parStatus_limited _ 1 _ _ h3.2.1.1 h3.2.1.2 (by norm_num)
    · exact parStatus_limited _ 2 _ _ h3.2.2.1.1 h3.2.2.1.2 hw3
    · exact parStatus_free _ 3 h3.2.2.2.1.1 h3.2.2.2.1.2
    · exact parStatus_free _ 4 h3.2.2.2.2.1.1 h3.2.2.2.2.1.2
    · exact parStatus_free _ 5 h3.2.2.2.2.2.1 h3.2.2.2.2.2.2

/-- Witness for C20 (amended): peak count 10, `meanY = 1`, `sigmaY = 1/20`;
the lenient variant makes two `Fit` calls, the first with the amplitude
limited to `[3.3, 30]`. -/
theorem fit_parameter_limits_witness :
    (0 : ℚ) < (fun _ : List ℚ => (10 : ℚ)) [1] ∧ (0 : ℚ) < 1 / 20 ∧
    ∃ c1 c2, (DrawMvaPars.fitBlock (fun _ => (10 : ℚ)) exampleMinimizer [1] 1 (1 / 20)).calls =
        [("QEM", c1), ("QEML", c2)] ∧
      parStatus c1 0 = ParStatus.limited (0.33 * 10) (3 * 10) := by
  obtain ⟨c1, c2, hc, h⟩ := (fit_parameter_limits (fun _ => (10 : ℚ)) exampleMinimizer [1] 1
    (1 / 20) (by norm_num) (by norm_num)).1
  exact ⟨by norm_num, by norm_num, c1, c2, hc, (h c1 (Or.inl rfl)).1⟩

/-! ### C21 -/

/-- C21, counterexample: a block whose `y` values are all 1 has
`(meanY, sigmaY) = (1, 0)`; the strict variant then sets the limits of the
position to `[1 - 0, 1 + 0]`, and at the first `Fit` call the position is
fixed, as `alphaL` is: it does not float. -/
theorem first_fit_fixes_position_for_zero_sigma :
    MeanSigma Real.sqrt ([1] : List ℝ) = .ok (1, 0) ∧
    ∃ c1 rest,
      (DrawResultsHelper.fitBlock (fun _ => (1 : ℝ)) exampleMinimizer [1] 1 0).calls =
        ("QEM", c1) :: rest ∧
      parStatus c1 1 = ParStatus.fixed ∧ parStatus c1 3 = ParStatus.fixed := by
  have h1 := fitSetup1_limits (1 : ℝ) 1 0
  refine ⟨MeanSigma_singleton Real.sqrt Real.sqrt_zero 1 fmul32_one, _, _,
    strict_fitBlock_calls _ _ _ _ _, ?_, ?_⟩
  · exact parStatus_fixed _ 1 1 (by rw [h1.2.1.1]; norm_num) (by rw [h1.2.1.2]; norm_num)
      one_ne_zero
  · exact parStatus_fixed _ 3 _ h1.2.2.2.1.1 h1.2.2.2.1.2.1 (by norm_num)

/-- C21, amended: for every block (its peak count `h->GetMaximum()` and its
robust sigma are never negative) the strict variant makes exactly three `Fit`
calls: two with the chi-square as objective and a last one with the log
likelihood. The first runs on the state set up from the seeds, the second on
what the first left with the limits of `alphaL`, `n`, `alphaR` replaced, the
third on what the second left with the limits of the last stage, and the
values read afterwards are those the third minimization returned. At the
first call `alphaL`, `n`, `alphaR` are fixed at 1.5, 5, 1.5, so only
amplitude, position and width can float; amplitude and width do float, and
the position floats inside `meanY ± sigmaY` for `sigmaY > 0` but is fixed
for `sigmaY = 0` and `meanY ≠ 0`. At the second call `alphaL`, `n`, `alphaR`
are limited to `[0.4, 10]`, `[1.01, 100]`, `[0.4, 10]`. The lenient variant
makes exactly two `Fit` calls, chi-square on the state set up from the
seeds, then log likelihood on what the first left; the values read
afterwards are those the second minimization returned, and no parameter is
fixed in either call. -/
theorem fit_stages (getMax : List α → α) (m : Minimizer α) (by_ : List α)
    (meanY sigmaY : α) (hmax : 0 ≤ getMax by_) (hsig : 0 ≤ sigmaY) :
    (∃ c1 c2 c3, (DrawResultsHelper.fitBlock getMax m by_ meanY sigmaY).calls =
        [("QEM", c1), ("QEM", c2), ("QEML", c3)] ∧
      ((DrawResultsHelper.fitBlock getMax m by_ meanY sigmaY).calls.map
        fun c => fitObjective c.1) =
          [Objective.leastSquares, Objective.leastSquares, Objective.likelihood] ∧
      c1 = DrawResultsHelper.fitSetup1 (getMax by_) meanY sigmaY ∧
      c2 = DrawResultsHelper.fitSetup2
        { c1 with par := (m "QEM" c1 by_).par, parError := (m "QEM" c1 by_).parError } ∧
      c3 = DrawResultsHelper.fitSetup3 sigmaY
        { c2 with par := (m "QEM" c2 by_).par, parError := (m "QEM" c2 by_).parError } ∧
      (DrawResultsHelper.fitBlock getMax m by_ meanY sigmaY).outcome =
        ⟨(m "QEML" c3 by_).par, (m "QEML" c3 by_).parError, (m "QEML" c3 by_).status⟩ ∧
      (parStatus c1 3 = ParStatus.fixed ∧ c1.par 3 = 1.5) ∧
      (parStatus c1 4 = ParStatus.fixed ∧ c1.par 4 = 5) ∧
      (parStatus c1 5 = ParStatus.fixed ∧ c1.par 5 = 1.5) ∧
      (∀ i, i < 6 → parStatus c1 i ≠ ParStatus.fixed → i = 0 ∨ i = 1 ∨ i = 2) ∧
      parStatus c1 0 ≠ ParStatus.fixed ∧ parStatus c1 2 ≠ ParStatus.fixed ∧
      (0 < sigmaY →
        parStatus c1 1 = ParStatus.limited (meanY - sigmaY) (meanY + sigmaY)) ∧
      (sigmaY = 0 → meanY ≠ 0 → parStatus c1 1 = ParStatus.fixed) ∧
      parStatus c2 3 = ParStatus.limited 0.4 10 ∧
      parStatus c2 4 = ParStatus.limited 1.01 100 ∧
      parStatus c2 5 = ParStatus.limited 0.4 10) ∧
    (∃ c1 c2, (DrawMvaPars.fitBlock getMax m by_ meanY sigmaY).calls =
        [("QEM", c1), ("QEML", c2)] ∧
      ((DrawMvaPars.fitBlock getMax m by_ meanY sigmaY).calls.map
        fun c => fitObjective c.1) = [Objective.leastSquares, Objective.likelihood] ∧
      c1 = DrawMvaPars.fitSetup (getMax by_) meanY sigmaY ∧
      c2 = { c1 with par := (m "QEM" c1 by_).par, parError := (m "QEM" c1 by_).parError } ∧
      (DrawMvaPars.fitBlock getMax m by_ meanY sigmaY).outcome =
        ⟨(m "QEML" c2 by_).par, (m "QEML" c2 by_).parError, (m "QEML" c2 by_).status⟩ ∧
      ∀ c, c = c1 ∨ c = c2 → ∀ i, i < 6 → parStatus c i ≠ ParStatus.fixed) := by
  constructor
  · have h1 := fitSetup1_limits (getMax by_) meanY sigmaY
    have h2 := fitSetup2_limits
      (Fit m "QEM" by_ ⟨DrawResultsHelper.fitSetup1 (getMax by_) meanY sigmaY, 0, []⟩).fit
    have f3 := parStatus_fixed _ 3 _ h1.2.2.2.1.1 h1.2.2.2.1.2.1 (by norm_num)
    have f4 := parStatus_fixed _ 4 _ h1.2.2.2.2.1.1 h1.2.2.2.2.1.2.1 (by norm_num)
    have f5 := parStatus_fixed _ 5 _ h1.2.2.2.2.2.1 h1.2.2.2.2.2.2.1 (by norm_num)
    refine ⟨_, _, _, strict_fitBlock_calls getMax m by_ meanY sigmaY, ?_, rfl, rfl, rfl, rfl,
      ⟨f3, h1.2.2.2.1.2.2⟩, ⟨f4, h1.2.2.2.2.1.2.2⟩, ⟨f5, h1.2.2.2.2.2.2.2⟩,
      ?_, ?_, ?_, ?_, ?_, ?_, ?_, ?_⟩
    · rw [strict_fitBlock_calls]
      simp only [List.map_cons, List.map_nil, fitObjective_QEM, fitObjective_QEML]
    · intro i hi hne
      interval_cases i
      · exact Or.inl rfl
      · exact Or.inr (Or.inl rfl)
      · exact Or.inr (Or.inr rfl)
      · exact absurd f3 hne
      · exact absurd f4 hne
      · exact absurd f5 hne
    · exact parStatus_ne_fixed_of_scaled _ 0 0.33 2 _ (by norm_num) hmax h1.1.1 h1.1.2
    · exact parStatus_ne_fixed_of_scaled _ 2 0.1 1.1 _ (by norm_num) hsig h1.2.2.1.1
        h1.2.2.1.2
    · intro hpos
      exact parStatus_limited _ 1 _ _ h1.2.1.1 h1.2.1.2 (by linarith)
    · intro h0 hm
      refine parStatus_fixed _ 1 meanY ?_ ?_ hm
      · rw [h1.2.1.1, h0, sub_zero]
      · rw [h1.2.1.2, h0, add_zero]
    · exact parStatus_limited _ 3 _ _ h2.2.2.2.1.1 h2.2.2.2.1.2 (by norm_num)
    · exact parStatus_limited _ 4 _ _ h2.2.2.2.2.1.1 h2.2.2.2.2.1.2 (by norm_num)
    · exact parStatus_limited _ 5 _ _ h2.2.2.2.2.2.1 h2.2.2.2.2.2.2 (by norm_num)
  · have hl := lenient_fitSetup_limits (getMax by_) meanY sigmaY
    have key : ∀ i, i < 6 →
        parStatus (DrawMvaPars.fitSetup (getMax by_) meanY sigmaY) i ≠ ParStatus.fixed := by
      intro i hi
      interval_cases i
      · exact parStatus_ne_fixed_of_scaled _ 0 0.33 3 _ (by norm_num) hmax hl.1.1 hl.1.2
      · rw [parStatus_limited _ 1 _ _ hl.2.1.1 hl.2.1.2 (by norm_num)]
        exact fun h => ParStatus.noConfusion h
      · exact parStatus_ne_fixed_of_scaled _ 2 0.33 1.5 _ (by norm_num) hsig hl.2.2.1.1
          hl.2.2.1.2
      · rw [parStatus_limited _ 3 _ _ hl.2.2.2.1.1 hl.2.2.2.1.2 (by norm_num)]
        exact fun h => ParStatus.noConfusion h
      · rw [parStatus_limited _ 4 _ _ hl.2.2.2.2.1.1 hl.2.2.2.2.1.2 (by norm_num)]
        exact fun h => ParStatus.noConfusion h
      · rw [parStatus_limited _ 5 _ _ hl.2.2.2.2.2.1 hl.2.2.2.2.2.2 (by norm_num)]
        exact fun h => ParStatus.noConfusion h
    refine ⟨_, _, lenient_fitBlock_calls getMax m by_ meanY sigmaY, ?_, rfl, rfl, rfl, ?_⟩
    · rw [lenient_fitBlock_calls]
      simp only [List.map_cons, List.map_nil, fitObjective_QEM, fitObjective_QEML]
    · rintro c (rfl | rfl) i hi
      · exact key i hi
      · rw [parStatus_congr (DrawMvaPars.fitSetup (getMax by_) meanY sigmaY)
          (Fit m "QEM" by_ ⟨DrawMvaPars.fitSetup (getMax by_) meanY sigmaY, 0, []⟩).fit _
          rfl rfl]
        exact key i hi

/-- Witness for C21 (amended): peak count 10, `meanY = 1`, `sigmaY = 1/20`;
the strict variant runs chi-square, chi-square, log likelihood, and the
position floats inside `[1 - 1/20, 1 + 1/20]` at the first call. -/
theorem fit_stages_witness :
    (0 : ℚ) ≤ (fun _ : List ℚ => (10 : ℚ)) [1] ∧ (0 : ℚ) ≤ 1 / 20 ∧
    ((DrawResultsHelper.fitBlock (fun _ => (10 : ℚ)) exampleMinimizer [1] 1 (1 / 20)).calls.map
      fun c => fitObjective c.1) =
        [Objective.leastSquares, Objective.leastSquares, Objective.likelihood] ∧
    parStatus (DrawResultsHelper.fitSetup1 (10 : ℚ) 1 (1 / 20)) 1 =
      ParStatus.limited (1 - 1 / 20) (1 + 1 / 20) := by
  obtain ⟨c1, c2, c3, _, hobj, hc1, _, _, _, _, _, _, _, _, _, hpos, _⟩ :=
    (fit_stages (fun _ => (10 : ℚ)) exampleMinimizer [1] 1
      (1 / 20) (by norm_num) (by norm_num)).1
  exact ⟨by norm_num, by norm_num, hobj, hc1 ▸ hpos (by norm_num)⟩

end ClaimsFit

section ClaimsSeeds

variable {α : Type} [LinearOrderedField α] [FloorRing α]

/-! ### C22 -/

/-- C22: for a block whose `MeanSigma` call on the `y` values returned
`(meanY, sigmaY)`, the fit of the block is the one run on the block's `y`
values with these two numbers, and at its first `Fit` call the parameters are
`(h->GetMaximum(), meanY, w * sigmaY, 1.5, 5, 1.5)` with `w = 1` in the
lenient variant and `w = 0.5` in the strict variant. -/
theorem fit_seeds (sqrt : α → α) (getMax : List α → α) (m : Minimizer α) (x y : List α)
    (ind : List Nat) (blockSize : ℤ) (b : Nat) (mY : α × α)
    (hY : MeanSigma sqrt (blockData x y ind blockSize b).2 = .ok mY) :
    (blockFit sqrt (DrawMvaPars.rootFitter getMax m) x y ind blockSize b =
        (DrawMvaPars.fitBlock getMax m (blockData x y ind blockSize b).2 mY.1 mY.2).outcome ∧
      ∃ c1 rest,
        (DrawMvaPars.fitBlock getMax m (blockData x y ind blockSize b).2 mY.1 mY.2).calls =
          ("QEM", c1) :: rest ∧
        c1.par 0 = getMax (blockData x y ind blockSize b).2 ∧ c1.par 1 = mY.1 ∧
        c1.par 2 = 1 * mY.2 ∧ c1.par 3 = 1.5 ∧ c1.par 4 = 5 ∧ c1.par 5 = 1.5) ∧
    (blockFit sqrt (DrawResultsHelper.rootFitter getMax m) x y ind blockSize b =
        (DrawResultsHelper.fitBlock getMax m (blockData x y ind blockSize b).2
          mY.1 mY.2).outcome ∧
      ∃ c1 rest,
        (DrawResultsHelper.fitBlock getMax m (blockData x y ind blockSize b).2
          mY.1 mY.2).calls = ("QEM", c1) :: rest ∧
        c1.par 0 = getMax (blockData x y ind blockSize b).2 ∧ c1.par 1 = mY.1 ∧
        c1.par 2 = 0.5 * mY.2 ∧ c1.par 3 = 1.5 ∧ c1.par 4 = 5 ∧ c1.par 5 = 1.5) := by
  have hl := lenient_fitSetup_par (getMax (blockData x y ind blockSize b).2) mY.1 mY.2
  have hs := fitSetup1_par (getMax (blockData x y ind blockSize b).2) mY.1 mY.2
  refine ⟨⟨?_, _, _, lenient_fitBlock_calls getMax m _ mY.1 mY.2, hl.1, hl.2.1, ?_, hl.2.2.2⟩,
    ⟨?_, _, _, strict_fitBlock_calls getMax m _ mY.1 mY.2, hs⟩⟩
  · simp only [blockFit, hY, estimate, DrawMvaPars.rootFitter]
  · rw [one_mul]
    exact hl.2.2.1
  · simp only [blockFit, hY, estimate, DrawResultsHelper.rootFitter]

/-- Witness for C22: in the worked example the `y` values of block 1 are
`[3]` with `(meanY, sigmaY) = (3, 0)`; with a peak count of 1 the strict
variant starts its first fit from `(1, 3, 0.5 * 0, 1.5, 5, 1.5)`. -/
theorem fit_seeds_witness :
    MeanSigma Real.sqrt
      (blockData ([1, 2, 3] : List ℝ) [1, 3, 1] [0, 1, 2] 1 1).2 = .ok (3, 0) ∧
    ∃ c1 rest,
      (DrawResultsHelper.fitBlock (fun _ => (1 : ℝ)) exampleMinimizer
        (blockData ([1, 2, 3] : List ℝ) [1, 3, 1] [0, 1, 2] 1 1).2 3 0).calls =
          ("QEM", c1) :: rest ∧
      c1.par 0 = 1 ∧ c1.par 1 = 3 ∧ c1.par 2 = 0.5 * 0 ∧ c1.par 3 = 1.5 ∧ c1.par 4 = 5 ∧
      c1.par 5 = 1.5 := by
  have hY : MeanSigma Real.sqrt
      (blockData ([1, 2, 3] : List ℝ) [1, 3, 1] [0, 1, 2] 1 1).2 = .ok (3, 0) := by
    rw [example_blocks 1 (by norm_num)]
    exact MeanSigma_singleton Real.sqrt Real.sqrt_zero 3 fmul32_three
  exact ⟨hY, (fit_seeds Real.sqrt (fun _ => (1 : ℝ)) exampleMinimizer ([1, 2, 3] : List ℝ)
    [1, 3, 1] [0, 1, 2] 1 1 (3, 0) hY).2.2⟩

end ClaimsSeeds

section ClaimsShape

variable {α : Type} [LinearOrderedField α]

/-! ### C23 -/

/-- C23, counterexample: with `A = 1, mu = 0, sigma = 1, alphaL = 1, n = 1`
and `alphaR = -2` the fit expression is `exp(-1/2) < 1` at the left join
`x = mu - alphaL * sigma` and larger than 1 right of it, so it is neither
continuous nor differentiable there. -/
theorem model_not_differentiable_negative_alphaR :
    (0 : ℝ) < 1 ∧
    fitExpr Real.exp Real.rpow (paramArray 1 0 1 1 1 (-2)) (0 - 1 * 1) < 1 ∧
    (∀ x : ℝ, 0 - 1 * 1 < x →
      1 < fitExpr Real.exp Real.rpow (paramArray 1 0 1 1 1 (-2)) x) ∧
    ¬ ContinuousAt (fitExpr Real.exp Real.rpow (paramArray 1 0 1 1 1 (-2))) (0 - 1 * 1) ∧
    ¬ DifferentiableAt ℝ (fitExpr Real.exp Real.rpow (paramArray 1 0 1 1 1 (-2)))
      (0 - 1 * 1) := by
  have hx : (0 : ℝ) - 1 * 1 = -1 := by norm_num
  rw [hx]
  obtain ⟨h0, h1⟩ := fitExpr_jump_example
  have hc := not_continuousAt_of_jump _ _ h0 h1
  exact ⟨one_pos, h0, h1, hc, fun hd => hc hd.continuousAt⟩

/-- C23, amended: for `sigma > 0`, `alphaL > 0`, `n > 0` and
`alphaR ≥ -alphaL` the fit expression has, at the left join
`x = mu - alphaL * sigma`, the derivative `A exp(-alphaL^2/2) alphaL / sigma`
from the left and from the right, and at the right join
`x = mu + alphaR * sigma` the derivative `-A exp(-alphaR^2/2) alphaR / sigma`
from the left and from the right; it is differentiable at both joins. -/
theorem model_differentiable_at_joins (A mu sigma alphaL n alphaR : ℝ) (hsigma : 0 < sigma)
    (hL : 0 < alphaL) (hn : 0 < n) (hR : -alphaL ≤ alphaR) :
    (HasDerivWithinAt (fitExpr Real.exp Real.rpow (paramArray A mu sigma alphaL n alphaR))
        (A * Real.exp (-(alphaL ^ 2) / 2) * (alphaL / sigma)) (Set.Iic (mu - alphaL * sigma))
        (mu - alphaL * sigma) ∧
      HasDerivWithinAt (fitExpr Real.exp Real.rpow (paramArray A mu sigma alphaL n alphaR))
        (A * Real.exp (-(alphaL ^ 2) / 2) * (alphaL / sigma)) (Set.Ici (mu - alphaL * sigma))
        (mu - alphaL * sigma) ∧
      HasDerivAt (fitExpr Real.exp Real.rpow (paramArray A mu sigma alphaL n alphaR))
        (A * Real.exp (-(alphaL ^ 2) / 2) * (alphaL / sigma)) (mu - alphaL * sigma) ∧
      DifferentiableAt ℝ (fitExpr Real.exp Real.rpow (paramArray A mu sigma alphaL n alphaR))
        (mu - alphaL * sigma)) ∧
    (HasDerivWithinAt (fitExpr Real.exp Real.rpow (paramArray A mu sigma alphaL n alphaR))
        (-(A * Real.exp (-(alphaR ^ 2) / 2) * (alphaR / sigma)))
        (Set.Iic (mu + alphaR * sigma)) (mu + alphaR * sigma) ∧
      HasDerivWithinAt (fitExpr Real.exp Real.rpow (paramArray A mu sigma alphaL n alphaR))
        (-(A * Real.exp (-(alphaR ^ 2) / 2) * (alphaR / sigma)))
        (Set.Ici (mu + alphaR * sigma)) (mu + alphaR * sigma) ∧
      HasDerivAt (fitExpr Real.exp Real.rpow (paramArray A mu sigma alphaL n alphaR))
        (-(A * Real.exp (-(alphaR ^ 2) / 2) * (alphaR / sigma))) (mu + alphaR * sigma) ∧
      DifferentiableAt ℝ (fitExpr Real.exp Real.rpow (paramArray A mu sigma alphaL n alphaR))
        (mu + alphaR * sigma)) := by
  have hx : mu - alphaL * sigma = mu + -alphaL * sigma := by ring
  rw [hx]
  obtain ⟨l1, l2, l3⟩ := hasDerivAt_left_join A mu sigma alphaL n alphaR hsigma hL hn hR
  obtain ⟨r1, r2, r3⟩ := hasDerivAt_right_join A mu sigma alphaL n alphaR hsigma hL hn hR
  exact ⟨⟨l1, l2, l3, l3.differentiableAt⟩, ⟨r1, r2, r3, r3.differentiableAt⟩⟩

/-- Witness for C23 (amended): the seeds `alphaL = 1.5, n = 5, alphaR = 1.5`
with `A = 1, mu = 0, sigma = 1`; the fit expression is differentiable at the
left join. -/
theorem model_differentiable_at_joins_witness :
    (0 : ℝ) < 1 ∧ (0 : ℝ) < 1.5 ∧ (0 : ℝ) < 5 ∧ -(1.5 : ℝ) ≤ 1.5 ∧
    DifferentiableAt ℝ (fitExpr Real.exp Real.rpow (paramArray 1 0 1 1.5 5 1.5))
      (0 - 1.5 * 1) :=
  ⟨by norm_num, by norm_num, by norm_num, by norm_num,
    (model_differentiable_at_joins 1 0 1 1.5 5 1.5 (by norm_num) (by norm_num) (by norm_num)
      (by norm_num)).1.2.2.2⟩

end ClaimsShape

section ClaimsEdges

variable {α : Type} [LinearOrderedField α] [FloorRing α]

/-! ### C24 -/

/-- C24, failing input: length 8393728 and block size 2049. The trailing
group has 1024 sorted elements, fewer than `2049 / 2`, and the code's own
note has it excluded; but the `float` quotient rounds to 4096.5, the block
count is 4097, above `L / blockSize = 4096`, and block 4096 holds the
positions of the group: every index of the group is in a processed block.
In the other direction, with length 16777221 and block size 11184814 the
trailing group has exactly `blockSize / 2` elements and the count is
`L / blockSize = 1`: the group is left out. For a length below `2 ^ 23` the code does what the claim says: the trailing
group is what block `L / bs` would hold, that block is processed exactly when
the group has at least `bs / 2` entries, and when it has fewer no element of
the group is in a processed block and neither variant reads the group. -/
theorem short_trailing_group_gets_block :
    8393728 % 2049 = 1024 ∧ 2 * 1024 < 2049 ∧
    nblocks 8393728 2049 = 4097 ∧
    ((8393728 / 2049 : ℕ) : ℤ) < nblocks 8393728 2049 ∧
    specPositions 8393728 2049 4096 = List.range' 8392704 1024 ∧
    (∀ (x : List α) (ind : List Nat), x.length = 8393728 → IsSortIndex x ind →
      ∀ k, 8392704 ≤ k → k < 8393728 →
        ((4096 : ℕ) : ℤ) < nblocks x.length 2049 ∧
        ind.getD k 0 ∈ blockIndices ind x.length 2049 4096) ∧
    (16777221 % 11184814 = 5592407 ∧ 11184814 = 2 * 5592407 ∧
      nblocks 16777221 11184814 = ((16777221 / 11184814 : ℕ) : ℤ)) ∧
    (∀ (sqrt : α → α) (fitter : Fitter α) (x y x2 y2 : List α) (ind : List Nat) (bs : ℕ),
      1 ≤ x.length → x.length < 2 ^ 23 → 1 ≤ bs → IsSortIndex x ind →
      blockIndices ind x.length (bs : ℤ) (x.length / bs) =
        (List.range' (x.length / bs * bs) (x.length % bs)).map (fun k => ind.getD k 0) ∧
      (blockData x y ind (bs : ℤ) (x.length / bs)).1.length = x.length % bs ∧
      ((((x.length / bs : ℕ) : ℤ) < nblocks x.length (bs : ℤ)) ↔
        (bs : ℚ) / 2 ≤ ((x.length % bs : ℕ) : ℚ)) ∧
      ((bs : ℚ) / 2 ≤ ((x.length % bs : ℕ) : ℚ) →
        nblocks x.length (bs : ℤ) = ((x.length / bs : ℕ) : ℤ) + 1) ∧
      (((x.length % bs : ℕ) : ℚ) < (bs : ℚ) / 2 →
        nblocks x.length (bs : ℤ) = ((x.length / bs : ℕ) : ℤ) ∧
        (∀ k, x.length / bs * bs ≤ k → k < x.length →
          ∀ b : ℕ, (b : ℤ) < nblocks x.length (bs : ℤ) →
            ind.getD k 0 ∉ blockIndices ind x.length (bs : ℤ) b) ∧
        (x2.length = x.length →
          (∀ k, k < x.length / bs * bs →
            x2.getD (ind.getD k 0) 0 = x.getD (ind.getD k 0) 0 ∧
            y2.getD (ind.getD k 0) 0 = y.getD (ind.getD k 0) 0) →
          DrawResultsHelper.fit_slices_real sqrt fitter x2 y2 ind (bs : ℤ) =
            DrawResultsHelper.fit_slices_real sqrt fitter x y ind (bs : ℤ) ∧
          DrawMvaPars.fit_slices_real sqrt fitter x2 y2 ind (bs : ℤ) =
            DrawMvaPars.fit_slices_real sqrt fitter x y ind (bs : ℤ)))) := by
  refine ⟨by norm_num, by norm_num, nblocks_example_large, ?_, ?_, ?_,
    ⟨by norm_num, by norm_num, by rw [nblocks_example_half]; norm_num⟩, ?_⟩
  · rw [nblocks_example_large]
    norm_num
  · rw [specPositions]
    norm_num
  · intro x ind hlen hind k hk1 hk2
    constructor
    · rw [hlen, nblocks_example_large]
      norm_num
    · have h := (mem_blockIndices_iff hind 2049 4096 (by omega : k < x.length)).mpr
        (by rw [mem_specPositions]; omega)
      simpa using h
  · intro sqrt fitter x y x2 y2 ind bs hL hL23 hbs hind
    have hdm := Nat.div_add_mod x.length bs
    have hml := Nat.mod_lt x.length hbs
    have hcm : bs * (x.length / bs) = x.length / bs * bs := Nat.mul_comm _ _
    have hsucc : (x.length / bs + 1) * bs = x.length / bs * bs + bs := by ring
    have hN := nblocks_eq_div x.length bs hbs hL23
    have hcases := nblocks_cases x.length bs hbs
    have hq : (bs : ℚ) / 2 ≤ ((x.length % bs : ℕ) : ℚ) ↔ bs ≤ 2 * (x.length % bs) := by
      rw [div_le_iff₀ (by norm_num : (0 : ℚ) < 2)]
      constructor
      · intro h
        have h2 : ((bs : ℕ) : ℚ) ≤ ((x.length % bs * 2 : ℕ) : ℚ) := by
          push_cast
          exact h
        have h3 := Nat.cast_le.mp h2
        omega
      · intro h
        have h2 : ((bs : ℕ) : ℚ) ≤ ((x.length % bs * 2 : ℕ) : ℚ) := Nat.cast_le.mpr (by omega)
        push_cast at h2
        exact h2
    refine ⟨?_, ?_, ?_, ?_, ?_⟩
    · rw [blockIndices_eq, specPositions]
      congr 2
      omega
    · rw [(blockData_length x y ind bs (x.length / bs)).1]
      omega
    · rw [hq, hN]
      constructor
      · intro h
        by_contra hlt
        rw [hcases.1 (by omega)] at h
        exact absurd h (lt_irrefl _)
      · intro h
        rw [hcases.2 h]
        push_cast
        omega
    · intro h
      rw [hN, hcases.2 (hq.mp h)]
      push_cast
      rfl
    · intro h
      have hlt : 2 * (x.length % bs) < bs := by
        by_contra hge
        exact absurd (hq.mpr (by omega)) (not_le.mpr h)
      have hNq : nblocks x.length (bs : ℤ) = ((x.length / bs : ℕ) : ℤ) := by
        rw [hN, hcases.1 hlt]
      have hNt : (nblocks x.length (bs : ℤ)).toNat = x.length / bs := by
        rw [hNq, Int.toNat_natCast]
      refine ⟨hNq, ?_, ?_⟩
      · intro k hk hkl b hb hmem
        rw [hNq] at hb
        have hb2 : b < x.length / bs := by exact_mod_cast hb
        rw [mem_blockIndices_iff hind bs b hkl, mem_specPositions] at hmem
        have h1 : (b + 1) * bs ≤ x.length / bs * bs := Nat.mul_le_mul_right bs hb2
        omega
      · intro hlen2 hag
        have hblk : ∀ c, c < x.length / bs →
            blockData x2 y2 ind (bs : ℤ) c = blockData x y ind (bs : ℤ) c := by
          intro c hc
          have h1 : (c + 1) * bs ≤ x.length / bs * bs := Nat.mul_le_mul_right bs hc
          exact blockData_congr x x2 y y2 ind bs c hlen2
            (fun k hk _ => (hag k (by omega)).1) (fun k hk _ => (hag k (by omega)).2)
        constructor
        · unfold DrawResultsHelper.fit_slices_real
          rw [hlen2, hNt, if_neg (by omega), if_neg (by omega)]
          apply blockLoop_congr
          intro c _ hc s
          simp only [DrawResultsHelper.blockBody, hblk c (by omega)]
        · unfold DrawMvaPars.fit_slices_real
          rw [hlen2, hNt, if_neg (by omega), if_neg (by omega)]
          apply blockLoop_congr
          intro c _ hc s
          simp only [DrawMvaPars.blockBody, hblk c (by omega)]

/-! ### C25 -/

/-- C25, failing input: the non-empty sample `[1 + 2^-12, 1 + 3 * 2^-12]` of
`float` values. In exact arithmetic the window of every iterate of every
non-empty sample holds a sample, as the claim says. In the code the `float`
products give the zero-order pair `(1 + 2^-11, 0)`, whose window is the
single point `1 + 2^-11`: it holds neither sample, the count `nent` of the
first pass is 0, the pass divides by zero and leaves NaN, and `MeanSigma`
ends in the fatal exit. On every non-empty sample whose `float` squares are
exact the count `nent` of every pass is at least 1. -/
theorem float_window_holds_no_sample :
    ([(4097 / 4096 : ℝ), 4099 / 4096] : List ℝ) ≠ [] ∧
    (∀ numbers : List ℝ, numbers ≠ [] →
      ∀ k, specWindow numbers (specIterate Real.sqrt numbers k) ≠ []) ∧
    codeIterate Real.sqrt [(4097 / 4096 : ℝ), 4099 / 4096] 0 =
      (some (2049 / 2048), some 0) ∧
    (windowLoop (windowBounds (codeIterate Real.sqrt [(4097 / 4096 : ℝ), 4099 / 4096] 0))
      [(4097 / 4096 : ℝ), 4099 / 4096] (0, some 0, 0)).2.2 = 0 ∧
    codeIterate Real.sqrt [(4097 / 4096 : ℝ), 4099 / 4096] 1 = (none, none) ∧
    MeanSigma Real.sqrt [(4097 / 4096 : ℝ), 4099 / 4096] = .error Fatal.didNotConverge ∧
    (∀ numbers : List ℝ, numbers ≠ [] → (∀ v ∈ numbers, fmul32 v v = some (v * v)) →
      ∀ k, 1 ≤ (windowLoop (windowBounds (codeIterate Real.sqrt numbers k)) numbers
        (0, some 0, 0)).2.2) := by
  have hs2 : ∀ v : ℝ, 0 ≤ v → Real.sqrt v * Real.sqrt v = v := fun v hv => Real.mul_self_sqrt hv
  have h0 : codeIterate Real.sqrt [(4097 / 4096 : ℝ), 4099 / 4096] 0 =
      (some (2049 / 2048), some 0) := by
    rw [codeIterate_zero, stats_example_pair]
  refine ⟨by simp, fun numbers hne k =>
      specWindow_ne_nil Real.sqrt Real.sqrt_nonneg hs2 numbers hne k, h0, ?_, ?_,
    MeanSigma_example_pair_fatal, ?_⟩
  · rw [nent_eq_zero_iff, h0]
    exact codeWindow_example_pair
  · rw [codeIterate_succ, h0, codeWindow_example_pair, stats_nil]
  · intro numbers hne hex k
    rw [windowLoop_count]
    have h := specWindow_ne_nil Real.sqrt Real.sqrt_nonneg hs2 numbers hne k
    rw [← codeWindow_eq_specWindow,
      ← codeIterate_of_exact Real.sqrt Real.sqrt_nonneg hs2 numbers hne hex k] at h
    exact List.length_pos.mpr h

/-! ### C26 -/

/-- C26, failing input: length 16777219 and block size 1. The cast
`(float)siz` rounds the length up to 16777220, the block count is 16777220,
and the block with index 16777219, below the count, starts past the end of
the sample: its vectors `bx` and `by` are empty, `MeanSigma` is called on an
empty vector and ends in the fatal exit, so neither variant returns. For a
length below `2 ^ 23` the code does what the claim says: every processed
block is non-empty, holds `blockSize` elements unless it is the last, and at
least `blockSize / 2` and at most `blockSize` in any case. -/
theorem empty_block_is_processed :
    nblocks 16777219 1 = 16777220 ∧
    (∀ (x y : List α) (ind : List Nat), x.length = 16777219 →
      ((16777219 : ℕ) : ℤ) < nblocks x.length 1 ∧
      (blockData x y ind 1 16777219).1 = [] ∧ (blockData x y ind 1 16777219).2 = [] ∧
      (∀ sqrt : α → α, MeanSigma sqrt (blockData x y ind 1 16777219).1 =
        .error Fatal.didNotConverge) ∧
      (∀ (sqrt : α → α) (fitter : Fitter α) st,
        DrawResultsHelper.fit_slices_real sqrt fitter x y ind 1 ≠ .ok st) ∧
      (∀ (sqrt : α → α) (fitter : Fitter α) st,
        DrawMvaPars.fit_slices_real sqrt fitter x y ind 1 ≠ .ok st)) ∧
    (∀ (x y : List α) (ind : List Nat) (blockSize : ℤ) (b : ℕ),
      1 ≤ x.length → x.length < 2 ^ 23 → 1 ≤ blockSize →
      (b : ℤ) < nblocks x.length blockSize →
      (blockData x y ind blockSize b).1 ≠ [] ∧ (blockData x y ind blockSize b).2 ≠ [] ∧
      (blockData x y ind blockSize b).2.length = (blockData x y ind blockSize b).1.length ∧
      ((b : ℤ) + 1 < nblocks x.length blockSize →
        ((blockData x y ind blockSize b).1.length : ℤ) = blockSize) ∧
      blockSize ≤ 2 * ((blockData x y ind blockSize b).1.length : ℤ) ∧
      ((blockData x y ind blockSize b).1.length : ℤ) ≤ blockSize) := by
  refine ⟨nblocks_example_empty_block, ?_, ?_⟩
  · intro x y ind hlen
    have hN : nblocks x.length 1 = 16777220 := by rw [hlen, nblocks_example_empty_block]
    have hlt : ((16777219 : ℕ) : ℤ) < nblocks x.length 1 := by
      rw [hN]
      norm_num
    have hl := blockData_length x y ind 1 16777219
    rw [hlen] at hl
    have h1 : (blockData x y ind 1 16777219).1 = [] := by
      apply List.length_eq_zero.mp
      have := hl.1
      simpa using this
    have h2 : (blockData x y ind 1 16777219).2 = [] := by
      apply List.length_eq_zero.mp
      have := hl.2
      simpa using this
    have hM : ∀ sqrt : α → α, MeanSigma sqrt (blockData x y ind 1 16777219).1 =
        .error Fatal.didNotConverge := by
      intro sqrt
      rw [h1]
      exact MeanSigma_nil sqrt
    have hnot : ∀ sqrt : α → α, ¬ blockOk sqrt x y ind 1 16777219 := by
      rintro sqrt ⟨⟨mX, hX⟩, _⟩
      rw [hM sqrt] at hX
      exact Except.noConfusion hX
    refine ⟨hlt, h1, h2, hM, ?_, ?_⟩
    · intro sqrt fitter st hst
      have h := ((DrawResultsHelper.fit_slices_real_ok_iff sqrt fitter x y ind 1 st
        (by omega)).mp hst).1 16777219 (by rw [hN]; norm_num)
      exact hnot sqrt h
    · intro sqrt fitter st hst
      have h := ((DrawMvaPars.lenient_fit_slices_real_ok_iff sqrt fitter x y ind 1 st
        (by omega)).mp hst).1 16777219 (by rw [hN]; norm_num)
      exact hnot sqrt h
  · intro x y ind blockSize b hL hL23 hbs hb
    have _ := hL
    obtain ⟨bs, rfl⟩ := Int.eq_ofNat_of_zero_le (by omega : 0 ≤ blockSize)
    have hbs2 : 0 < bs := by omega
    rw [nblocks_eq_div x.length bs hbs2 hL23] at hb ⊢
    have hb2 : b < (2 * x.length + bs) / (2 * bs) := by exact_mod_cast hb
    obtain ⟨hstart, hfull⟩ := processed_block_bounds x.length bs b hbs2 hb2
    obtain ⟨hl1, hl2⟩ := blockData_length x y ind bs b
    have h4 : (b + 1) * bs = b * bs + bs := by ring
    have hlen : bs ≤ 2 * (blockData x y ind (bs : ℤ) b).1.length ∧
        (blockData x y ind (bs : ℤ) b).1.length ≤ bs := by
      rw [hl1]
      omega
    refine ⟨?_, ?_, by rw [hl1, hl2], ?_, by exact_mod_cast hlen.1, by exact_mod_cast hlen.2⟩
    · intro h
      rw [h] at hlen
      simp at hlen
      omega
    · intro h
      have h0 : (blockData x y ind (bs : ℤ) b).2.length = 0 := by rw [h]; rfl
      rw [hl2, ← hl1] at h0
      omega
    · intro hb3
      have hb4 : b + 1 < (2 * x.length + bs) / (2 * bs) := by exact_mod_cast hb3
      have := hfull hb4
      have hl : (blockData x y ind (bs : ℤ) b).1.length = bs := by
        rw [hl1]
        omega
      exact_mod_cast hl

/-! ### C27 -/

/-- C27, failing input: length 8388608 and block size 16777217, where the
length is below `blockSize / 2`. The conversion of the block size to `float`
rounds it down to 16777216, the quotient is exactly 0.5 and `round` takes it
to 1: the block count is 1, not 0, and a lenient run that returns has one
point in each graph. For a length `L ≥ 1` below `2 ^ 23` with
`L < blockSize / 2` the code does what the claim says: the block count is 0
and both variants return with graphs of zero points. -/
theorem short_input_gets_block :
    ((8388608 : ℕ) : ℚ) < ((16777217 : ℤ) : ℚ) / 2 ∧
    nblocks 8388608 16777217 = 1 ∧
    (∀ (sqrt : α → α) (fitter : Fitter α) (x y : List α) (ind : List Nat)
      (st : DrawMvaPars.State α), x.length = 8388608 →
      DrawMvaPars.fit_slices_real sqrt fitter x y ind 16777217 = .ok st →
      st.grMeanVsMean.length = 1 ∧ st.grSigmaVsSigma.length = 1) ∧
    (∀ (sqrt : α → α) (fitter : Fitter α) (x y : List α) (ind : List Nat) (blockSize : ℤ),
      1 ≤ x.length → x.length < 2 ^ 23 → (x.length : ℚ) < (blockSize : ℚ) / 2 →
      nblocks x.length blockSize = 0 ∧
      DrawResultsHelper.fit_slices_real sqrt fitter x y ind blockSize = .ok ⟨[], [], 0⟩ ∧
      DrawMvaPars.fit_slices_real sqrt fitter x y ind blockSize = .ok ⟨[], []⟩) := by
  refine ⟨by norm_num, nblocks_example_short, ?_, ?_⟩
  · intro sqrt fitter x y ind st hlen hst
    obtain ⟨_, hM, hS⟩ :=
      (DrawMvaPars.lenient_fit_slices_real_ok_iff sqrt fitter x y ind _ st (by omega)).mp hst
    rw [hM, hS, List.length_map, List.length_map, List.length_range, hlen,
      nblocks_example_short]
    exact ⟨rfl, rfl⟩
  · intro sqrt fitter x y ind blockSize hL hL23 hshort
    have h1 : (x.length : ℚ) * 2 < (blockSize : ℚ) := (lt_div_iff₀ (by norm_num)).mp hshort
    have h2 : ((x.length * 2 : ℤ) : ℚ) < (blockSize : ℚ) := by
      push_cast
      exact h1
    have h3 : (x.length : ℤ) * 2 < blockSize := Int.cast_lt.mp h2
    obtain ⟨bs, rfl⟩ := Int.eq_ofNat_of_zero_le (by omega : 0 ≤ blockSize)
    have hN := nblocks_eq_zero_of_short x.length bs (by omega) hL23
    refine ⟨hN, ?_, ?_⟩
    · rw [DrawResultsHelper.fit_slices_real, if_neg (by omega), hN]
      rfl
    · rw [DrawMvaPars.fit_slices_real, if_neg (by omega), hN]
      rfl

/-! ### C28 -/

end ClaimsEdges

section ClaimsEval

variable {α : Type} [LinearOrderedField α]

/-! ### C30 -/

/-- C30: for an event with `pfSize5x5_ZS ≥ 1` the computation of the category
index in `eval` returns an `iS` that is 0 for size 1, 1 for size 2, and for
size `≥ 3` is 2 if `pfPt < 4.5`, 3 if `4.5 ≤ pfPt < 18` and 4 if `pfPt ≥ 18`.
So `0 ≤ iS ≤ 4`, the training loaded for `iS` is one of the calls of `train`,
the event passes the size and `pfPt` cuts of that training, and for
`pfPt ≥ 0` its `pfPt` lies in the region of the training: `[0, 5)`, `[4, 20)`
and `[16, ∞)` for `iS` = 2, 3, 4. -/
theorem eval_category_is_trained (pfSize5x5_ZS : ℤ) (pfPt : α) (hsize : 1 ≤ pfSize5x5_ZS) :
    ∃ iS, eval_iS pfSize5x5_ZS pfPt = .ok iS ∧
      (pfSize5x5_ZS = 1 → iS = 0) ∧ (pfSize5x5_ZS = 2 → iS = 1) ∧
      (3 ≤ pfSize5x5_ZS →
        (pfPt < 4.5 → iS = 2) ∧ (4.5 ≤ pfPt → pfPt < 18 → iS = 3) ∧ (18 ≤ pfPt → iS = 4)) ∧
      (0 ≤ iS ∧ iS ≤ 4) ∧
      (loadedTraining iS : Training α) ∈ trainCalls ∧
      trainCuts (loadedTraining iS) pfSize5x5_ZS pfPt = true ∧
      (0 ≤ pfPt → inPtRegion (loadedTraining iS) pfPt) ∧
      (3 ≤ pfSize5x5_ZS → 0 ≤ pfPt →
        (iS = 2 → (loadedTraining iS : Training α) = ⟨3, 0, 5⟩ ∧ 0 ≤ pfPt ∧ pfPt < 5) ∧
        (iS = 3 → (loadedTraining iS : Training α) = ⟨3, 4, 20⟩ ∧ 4 ≤ pfPt ∧ pfPt < 20) ∧
        (iS = 4 → (loadedTraining iS : Training α) = ⟨3, 16, -1⟩ ∧ 16 ≤ pfPt)) := by
  rcases (by omega : pfSize5x5_ZS = 1 ∨ pfSize5x5_ZS = 2 ∨ 3 ≤ pfSize5x5_ZS) with h | h | h
  · subst h
    refine ⟨0, eval_iS_one pfPt, fun _ => rfl, fun h => absurd h (by norm_num),
      fun h => absurd h (by norm_num), ⟨le_refl 0, by norm_num⟩, ?_, ?_, ?_,
      fun h => absurd h (by norm_num)⟩
    · rw [loadedTraining_zero]
      simp [trainCalls]
    · rw [loadedTraining_zero]
      simp [trainCuts]
    · intro _
      rw [loadedTraining_zero]
      exact ⟨Or.inl (by norm_num), Or.inl (by norm_num)⟩
  · subst h
    refine ⟨1, eval_iS_two pfPt, fun h => absurd h (by norm_num), fun _ => rfl,
      fun h => absurd h (by norm_num), ⟨by norm_num, by norm_num⟩, ?_, ?_, ?_,
      fun h => absurd h (by norm_num)⟩
    · rw [loadedTraining_one]
      simp [trainCalls]
    · rw [loadedTraining_one]
      simp [trainCuts]
    · intro _
      rw [loadedTraining_one]
      exact ⟨Or.inl (by norm_num), Or.inl (by norm_num)⟩
  · have hev := eval_iS_large pfSize5x5_ZS pfPt h
    have hs1 : pfSize5x5_ZS ≠ 1 := by omega
    have hs2 : pfSize5x5_ZS ≠ 2 := by omega
    by_cases h1 : pfPt ≥ 4.5 ∧ pfPt < 18
    · rw [if_pos h1] at hev
      have h4 : (4 : α) ≤ pfPt := le_trans (by norm_num) h1.1
      have h20 : pfPt < 20 := lt_trans h1.2 (by norm_num)
      refine ⟨3, hev, fun h => absurd h hs1, fun h => absurd h hs2,
        fun _ => ⟨fun hlt => absurd h1.1 (not_le.mpr hlt), fun _ _ => rfl,
          fun hge => absurd h1.2 (not_lt.mpr hge)⟩,
        ⟨by norm_num, by norm_num⟩, ?_, ?_, ?_, ?_⟩
      · rw [loadedTraining_three]
        simp [trainCalls]
      · rw [loadedTraining_three]
        simp [trainCuts, h, h4, h20]
      · intro _
        rw [loadedTraining_three]
        exact ⟨Or.inr h4, Or.inr h20⟩
      · intro _ _
        exact ⟨fun h => absurd h (by norm_num), fun _ => ⟨loadedTraining_three, h4, h20⟩,
          fun h => absurd h (by norm_num)⟩
    · rw [if_neg h1] at hev
      by_cases h2 : pfPt ≥ 18
      · rw [if_pos h2] at hev
        have h16 : (16 : α) ≤ pfPt := le_trans (by norm_num) h2
        refine ⟨4, hev, fun h => absurd h hs1, fun h => absurd h hs2,
          fun _ => ⟨fun hlt => absurd (le_trans (by norm_num) h2) (not_le.mpr hlt),
            fun _ hlt => absurd h2 (not_le.mpr hlt), fun _ => rfl⟩,
          ⟨by norm_num, le_refl 4⟩, ?_, ?_, ?_, ?_⟩
        · rw [loadedTraining_four]
          simp [trainCalls]
        · rw [loadedTraining_four]
          simp [trainCuts, h, h16]
        · intro _
          rw [loadedTraining_four]
          exact ⟨Or.inr h16, Or.inl (by norm_num)⟩
        · intro _ _
          exact ⟨fun h => absurd h (by norm_num), fun h => absurd h (by norm_num),
            fun _ => ⟨loadedTraining_four, h16⟩⟩
      · rw [if_neg h2] at hev
        have hlt : pfPt < 4.5 := by
          by_contra hge
          exact h1 ⟨not_lt.mp hge, not_le.mp h2⟩
        have h5 : pfPt < 5 := lt_trans hlt (by norm_num)
        refine ⟨2, hev, fun h => absurd h hs1, fun h => absurd h hs2,
          fun _ => ⟨fun _ => rfl, fun hge _ => absurd hlt (not_lt.mpr hge),
            fun hge => absurd h2 (fun hn => hn hge)⟩,
          ⟨by norm_num, by norm_num⟩, ?_, ?_, ?_, ?_⟩
        · rw [loadedTraining_two]
          simp [trainCalls]
        · rw [loadedTraining_two]
          simp [trainCuts, h, h5]
        · intro h0
          rw [loadedTraining_two]
          exact ⟨Or.inr h0, Or.inr h5⟩
        · intro _ h0
          exact ⟨fun _ => ⟨loadedTraining_two, h0, h5⟩, fun h => absurd h (by norm_num),
            fun h => absurd h (by norm_num)⟩

/-- Witness for C30: an event with cluster size 5 and `pfPt = 10` gets
`iS = 3`, whose training was run on `4 ≤ pfPt < 20`. -/
theorem eval_category_is_trained_witness :
    (1 : ℤ) ≤ 5 ∧ eval_iS 5 (10 : ℚ) = .ok 3 ∧
    ∃ iS, eval_iS 5 (10 : ℚ) = .ok iS ∧ trainCuts (loadedTraining iS) 5 (10 : ℚ) = true := by
  obtain ⟨iS, h1, _, _, _, _, _, h2, _⟩ := eval_category_is_trained 5 (10 : ℚ) (by norm_num)
  have h3 : eval_iS 5 (10 : ℚ) = .ok 3 := by
    rw [eval_iS_large 5 (10 : ℚ) (by norm_num), if_pos (by norm_num)]
  exact ⟨by norm_num, h3, iS, h1, h2⟩

end ClaimsEval

end PFClusterCalib
